import Mathlib

/-!
Transformer tensor engine: batched matrix-multiplication kernels.

A shallow embedding of `src/math/tensor/03op/tensor_mul.c` and of the embedding
layers `src/forward/embeddings/embeddings.c`,
`src/forward_backward/01embedding/01token_embedding.c` and
`src/embeddings/embeddings.c`.

* A `Tensor` is a flat buffer `data` together with its `shape`; the C field
  `num_dims` is the number of entries of `shape`.
* C `int` values (dimensions, loop counters, flat indices) are integers and
  their arithmetic is exact: the embedding describes the executions in which
  no `int` computation overflows.
* C `float` values are an arbitrary carrier `α` with a zero, an addition and a
  multiplication; no algebraic law is assumed, so every sum is taken in the
  order in which the C loop accumulates it.
* Every access to a buffer or to a shape array is bounds-checked: a kernel
  returns `none` when an access falls outside the array (undefined behaviour
  in C), and `some (ret, out)` otherwise, where `ret` is the C return value
  and `out` is the content of the caller's output buffer after the call.
-/

/-- Sequencing of a fallible step with its continuation: the continuation
runs on the value of a step that succeeded, a failed step ends the run. -/
@[noinline] def Option.andThen {β γ : Type} (x : Option β) (f : β → Option γ) : Option γ :=
  match x with
  | none => none
  | some b => f b

namespace TransformerC

/-! ## Data model -/

/-- A dense tensor: flat row-major buffer and shape descriptor. -/
structure Tensor (α : Type) where
  data : List α
  shape : List Int
deriving DecidableEq, Repr

/-- The rank stored in the C field `num_dims`. -/
def Tensor.num_dims {α : Type} (t : Tensor α) : Int := (t.shape.length : Int)

/-- The read `t->shape[i]`, bounds-checked. -/
def Tensor.dim {α : Type} (t : Tensor α) (i : Nat) : Option Int := t.shape[i]?

/-- The data model invariant: no negative dimension, and the buffer holds
exactly `product(dims)` elements. -/
def Tensor.wf {α : Type} (t : Tensor α) : Prop :=
  (∀ d ∈ t.shape, 0 ≤ d) ∧ (t.data.length : Int) = t.shape.prod

instance {α : Type} (t : Tensor α) : Decidable t.wf :=
  inferInstanceAs (Decidable ((∀ d ∈ t.shape, 0 ≤ d) ∧ (t.data.length : Int) = t.shape.prod))

/-- The read `buf[i]` with a C `int` index, bounds-checked. -/
def readAt {α : Type} (buf : List α) (i : Int) : Option α :=
  if 0 ≤ i then buf[i.toNat]? else none

/-- The write `buf[i] = v` with a C `int` index, bounds-checked. -/
def writeAt {α : Type} (buf : List α) (i : Int) (v : α) : Option (List α) :=
  if 0 ≤ i ∧ i.toNat < buf.length then some (buf.set i.toNat v) else none

/-- Runs `body i` for `n` consecutive counter values starting at `i`. -/
def forLoopFrom {σ : Type} (body : Int → σ → Option σ) : Nat → Int → σ → Option σ
  | 0, _, s => some s
  | n + 1, i, s => (body i s).andThen (forLoopFrom body n (i + 1))

/-- The loop `for (int i = 0; i < hi; i++) body`: the body runs for
`i = 0, 1, ..., hi - 1`, that is `hi.toNat` times. -/
def forLoop {σ : Type} (hi : Int) (body : Int → σ → Option σ) (s : σ) : Option σ :=
  forLoopFrom body hi.toNat 0 s

section Kernels

variable {α : Type} [Zero α] [Add α] [Mul α]

/-- 2D matrix product `[M,K] × [K,N] → [M,N]` (`tensor_matmul_2d`). -/
def tensor_matmul_2d (left right output : Tensor α) : Option (Bool × List α) :=
  if left.num_dims ≠ 2 ∨ right.num_dims ≠ 2 then some (false, output.data) else
  (left.dim 0).andThen fun rows =>
  (left.dim 1).andThen fun inner_dim =>
  (right.dim 1).andThen fun cols =>
  (right.dim 0).andThen fun r0 =>
  if r0 ≠ inner_dim then some (false, output.data) else
  if output.num_dims ≠ 2 then some (false, output.data) else
  (output.dim 0).andThen fun o0 =>
  if o0 ≠ rows then some (false, output.data) else
  (output.dim 1).andThen fun o1 =>
  if o1 ≠ cols then some (false, output.data) else
  (forLoop rows (fun row out_data =>
    forLoop cols (fun col out_data =>
      (forLoop inner_dim (fun k sum =>
        (readAt left.data (row * inner_dim + k)).andThen fun a =>
        (readAt right.data (k * cols + col)).andThen fun b =>
        some (sum + a * b)) (0 : α)).andThen fun sum =>
      writeAt out_data (row * cols + col) sum) out_data) output.data).map
    fun out_data => (true, out_data)

/-- 3D batched product `[B,M,K] × [B,K,N] → [B,M,N]` (`tensor_matmul_3d`). -/
def tensor_matmul_3d (left right output : Tensor α) : Option (Bool × List α) :=
  if left.num_dims ≠ 3 ∨ right.num_dims ≠ 3 then some (false, output.data) else
  (left.dim 0).andThen fun batch_size =>
  (left.dim 1).andThen fun rows =>
  (left.dim 2).andThen fun inner_dim =>
  (right.dim 2).andThen fun cols =>
  (right.dim 0).andThen fun r0 =>
  if r0 ≠ batch_size then some (false, output.data) else
  (right.dim 1).andThen fun r1 =>
  if r1 ≠ inner_dim then some (false, output.data) else
  if output.num_dims ≠ 3 then some (false, output.data) else
  (output.dim 0).andThen fun o0 =>
  if o0 ≠ batch_size then some (false, output.data) else
  (output.dim 1).andThen fun o1 =>
  if o1 ≠ rows then some (false, output.data) else
  (output.dim 2).andThen fun o2 =>
  if o2 ≠ cols then some (false, output.data) else
  (forLoop batch_size (fun batch out_data =>
    let left_offset := batch * rows * inner_dim
    let right_offset := batch * inner_dim * cols
    let out_offset := batch * rows * cols
    forLoop rows (fun row out_data =>
      forLoop cols (fun col out_data =>
        (forLoop inner_dim (fun k sum =>
          (readAt left.data (left_offset + row * inner_dim + k)).andThen fun a =>
          (readAt right.data (right_offset + k * cols + col)).andThen fun b =>
          some (sum + a * b)) (0 : α)).andThen fun sum =>
        writeAt out_data (out_offset + row * cols + col) sum) out_data) out_data)
    output.data).map fun out_data => (true, out_data)

/-- 4D batched product `[B1,B2,M,K] × [B1,B2,K,N] → [B1,B2,M,N]`
(`tensor_matmul_4d`). -/
def tensor_matmul_4d (left right output : Tensor α) : Option (Bool × List α) :=
  if left.num_dims ≠ 4 ∨ right.num_dims ≠ 4 then some (false, output.data) else
  (left.dim 0).andThen fun outer_batch =>
  (left.dim 1).andThen fun inner_batch =>
  (left.dim 2).andThen fun rows =>
  (left.dim 3).andThen fun inner_dim =>
  (right.dim 3).andThen fun cols =>
  (right.dim 0).andThen fun r0 =>
  if r0 ≠ outer_batch then some (false, output.data) else
  (right.dim 1).andThen fun r1 =>
  if r1 ≠ inner_batch then some (false, output.data) else
  (right.dim 2).andThen fun r2 =>
  if r2 ≠ inner_dim then some (false, output.data) else
  if output.num_dims ≠ 4 then some (false, output.data) else
  (output.dim 0).andThen fun o0 =>
  if o0 ≠ outer_batch then some (false, output.data) else
  (output.dim 1).andThen fun o1 =>
  if o1 ≠ inner_batch then some (false, output.data) else
  (output.dim 2).andThen fun o2 =>
  if o2 ≠ rows then some (false, output.data) else
  (output.dim 3).andThen fun o3 =>
  if o3 ≠ cols then some (false, output.data) else
  (forLoop outer_batch (fun batch1 out_data =>
    forLoop inner_batch (fun batch2 out_data =>
      let left_offset := (batch1 * inner_batch + batch2) * rows * inner_dim
      let right_offset := (batch1 * inner_batch + batch2) * inner_dim * cols
      let out_offset := (batch1 * inner_batch + batch2) * rows * cols
      forLoop rows (fun row out_data =>
        forLoop cols (fun col out_data =>
          (forLoop inner_dim (fun k sum =>
            (readAt left.data (left_offset + row * inner_dim + k)).andThen fun a =>
            (readAt right.data (right_offset + k * cols + col)).andThen fun b =>
            some (sum + a * b)) (0 : α)).andThen fun sum =>
          writeAt out_data (out_offset + row * cols + col) sum) out_data) out_data)
      out_data) output.data).map fun out_data => (true, out_data)

/-- Projection of a 4D activation by a shared 2D weight
`[B1,B2,S,D1] × [D1,D2] → [B1,B2,S,D2]` (`tensor_mul_4d_2d`). -/
def tensor_mul_4d_2d (input weight output : Tensor α) : Option (Bool × List α) :=
  if input.num_dims ≠ 4 ∨ weight.num_dims ≠ 2 then some (false, output.data) else
  (input.dim 0).andThen fun batch1 =>
  (input.dim 1).andThen fun batch2 =>
  (input.dim 2).andThen fun seq_len =>
  (input.dim 3).andThen fun dim1 =>
  (weight.dim 1).andThen fun dim2 =>
  (weight.dim 0).andThen fun w0 =>
  if w0 ≠ dim1 then some (false, output.data) else
  if output.num_dims ≠ 4 then some (false, output.data) else
  (output.dim 0).andThen fun o0 =>
  if o0 ≠ batch1 then some (false, output.data) else
  (output.dim 1).andThen fun o1 =>
  if o1 ≠ batch2 then some (false, output.data) else
  (output.dim 2).andThen fun o2 =>
  if o2 ≠ seq_len then some (false, output.data) else
  (output.dim 3).andThen fun o3 =>
  if o3 ≠ dim2 then some (false, output.data) else
  (forLoop batch1 (fun b1 out_data =>
    forLoop batch2 (fun b2 out_data =>
      forLoop seq_len (fun s out_data =>
        let input_offset := ((b1 * batch2 + b2) * seq_len + s) * dim1
        let output_offset := ((b1 * batch2 + b2) * seq_len + s) * dim2
        forLoop dim2 (fun j out_data =>
          (forLoop dim1 (fun k sum =>
            (readAt input.data (input_offset + k)).andThen fun a =>
            (readAt weight.data (k * dim2 + j)).andThen fun b =>
            some (sum + a * b)) (0 : α)).andThen fun sum =>
          writeAt out_data (output_offset + j) sum) out_data) out_data)
      out_data) output.data).map fun out_data => (true, out_data)

/-- Projection of a 3D activation by a shared 2D weight
`[B,S,Din] × [Din,Dout] → [B,S,Dout]` (`tensor_mul_3_2`). -/
def tensor_mul_3_2 (input weight output : Tensor α) : Option (Bool × List α) :=
  if input.num_dims ≠ 3 ∨ weight.num_dims ≠ 2 ∨ output.num_dims ≠ 3 then
    some (false, output.data) else
  (input.dim 0).andThen fun batch_size =>
  (input.dim 1).andThen fun seq_len =>
  (input.dim 2).andThen fun dim_in =>
  (weight.dim 1).andThen fun dim_out =>
  (weight.dim 0).andThen fun w0 =>
  if w0 ≠ dim_in then some (false, output.data) else
  (output.dim 0).andThen fun o0 =>
  if o0 ≠ batch_size then some (false, output.data) else
  (output.dim 1).andThen fun o1 =>
  if o1 ≠ seq_len then some (false, output.data) else
  (output.dim 2).andThen fun o2 =>
  if o2 ≠ dim_out then some (false, output.data) else
  (forLoop batch_size (fun b out_data =>
    let input_offset := b * seq_len * dim_in
    let output_offset := b * seq_len * dim_out
    forLoop seq_len (fun i out_data =>
      forLoop dim_out (fun j out_data =>
        (forLoop dim_in (fun k sum =>
          (readAt input.data (input_offset + (i * dim_in) + k)).andThen fun a =>
          (readAt weight.data (k * dim_out + j)).andThen fun b =>
          some (sum + a * b)) (0 : α)).andThen fun sum =>
        writeAt out_data (output_offset + (i * dim_out) + j) sum) out_data) out_data)
    output.data).map fun out_data => (true, out_data)

/-- Attention scores `scale * Q Kᵀ` over `[B,H,S,D]` operands
(`tensor_mul_4d_transpose`). The C function performs no validation: it reads
the four dimensions of `input1` and runs the loops. -/
def tensor_mul_4d_transpose (input1 input2 : Tensor α) (scale : α) (output : Tensor α) :
    Option (Bool × List α) :=
  (input1.dim 0).andThen fun batch_size =>
  (input1.dim 1).andThen fun num_heads =>
  (input1.dim 2).andThen fun seq_len =>
  (input1.dim 3).andThen fun head_dim =>
  (forLoop batch_size (fun b out_data =>
    forLoop num_heads (fun h out_data =>
      forLoop seq_len (fun i out_data =>
        forLoop seq_len (fun j out_data =>
          (forLoop head_dim (fun k score =>
            let idx1 := ((b * num_heads + h) * seq_len + i) * head_dim + k
            let idx2 := ((b * num_heads + h) * seq_len + j) * head_dim + k
            (readAt input1.data idx1).andThen fun x =>
            (readAt input2.data idx2).andThen fun y =>
            some (score + x * y)) (0 : α)).andThen fun score =>
          let out_idx := ((b * num_heads + h) * seq_len + i) * seq_len + j
          writeAt out_data out_idx (score * scale)) out_data) out_data)
      out_data) output.data).map fun out_data => (true, out_data)

/-! ## Reference quantities used by the statements -/

/-- The sum `f 0 + f 1 + ... + f (n-1)` accumulated from `0` from left to
right, the way `sum += ...` does. -/
def sumTo (n : Nat) (f : Nat → α) : α :=
  match n with
  | 0 => 0
  | n + 1 => sumTo n f + f n

/-- Element `i` of a buffer, `0` outside it. -/
def elem (buf : List α) (i : Nat) : α := buf.getD i 0

/-- The block of `size` elements starting at `offset`. -/
def block (buf : List α) (offset size : Nat) : List α := (buf.drop offset).take size

/-- Value of output element `p` of a projection `[R,Din] × [Din,Dout]`: row
`p / Dout` of the input against column `p % Dout` of the weight. -/
def projSpec (inp w : List α) (Din Dout : Nat) (p : Nat) : α :=
  sumTo Din fun k => elem inp (p / Dout * Din + k) * elem w (k * Dout + p % Dout)

/-- Value of output element `p` of a batched product with `[M,K]` and `[K,N]`
blocks: batch `p / N / M`, row `p / N % M`, column `p % N`. -/
def matSpec (ld rd : List α) (M K N : Nat) (p : Nat) : α :=
  sumTo K fun k =>
    elem ld (p / N / M * M * K + p / N % M * K + k) *
      elem rd (p / N / M * K * N + k * N + p % N)

/-- Value of output element `p` of the attention-score kernel over `[S,D]`
blocks: block `p / S / S`, query row `p / S % S`, key row `p % S`. -/
def scoreSpec (q kk : List α) (S D : Nat) (scale : α) (p : Nat) : α :=
  (sumTo D fun k => elem q (p / S * D + k) * elem kk ((p / S / S * S + p % S) * D + k)) * scale

/-! ## Shape contracts of the kernels -/

/-- Shape contract of `tensor_matmul_2d`: both operands of rank 2,
`left.cols == right.rows`, output of rank 2 and shape `[left.rows, right.cols]`. -/
def contract_2d (left right output : Tensor α) : Prop :=
  left.shape.length = 2 ∧ right.shape.length = 2 ∧ right.dim 0 = left.dim 1 ∧
    output.shape.length = 2 ∧ output.dim 0 = left.dim 0 ∧ output.dim 1 = right.dim 1

instance (left right output : Tensor α) : Decidable (contract_2d left right output) :=
  inferInstanceAs (Decidable (_ ∧ _))

/-- Shape contract of `tensor_matmul_3d`: `[B,M,K] × [B,K,N] → [B,M,N]`. -/
def contract_3d (left right output : Tensor α) : Prop :=
  left.shape.length = 3 ∧ right.shape.length = 3 ∧
    right.dim 0 = left.dim 0 ∧ right.dim 1 = left.dim 2 ∧
    output.shape.length = 3 ∧ output.dim 0 = left.dim 0 ∧ output.dim 1 = left.dim 1 ∧
    output.dim 2 = right.dim 2

instance (left right output : Tensor α) : Decidable (contract_3d left right output) :=
  inferInstanceAs (Decidable (_ ∧ _))

/-- Shape contract of `tensor_matmul_4d`:
`[B1,B2,M,K] × [B1,B2,K,N] → [B1,B2,M,N]`. -/
def contract_4d (left right output : Tensor α) : Prop :=
  left.shape.length = 4 ∧ right.shape.length = 4 ∧
    right.dim 0 = left.dim 0 ∧ right.dim 1 = left.dim 1 ∧ right.dim 2 = left.dim 3 ∧
    output.shape.length = 4 ∧ output.dim 0 = left.dim 0 ∧ output.dim 1 = left.dim 1 ∧
    output.dim 2 = left.dim 2 ∧ output.dim 3 = right.dim 3

instance (left right output : Tensor α) : Decidable (contract_4d left right output) :=
  inferInstanceAs (Decidable (_ ∧ _))

/-- Shape contract of `tensor_mul_4d_2d`:
`[B1,B2,S,D1] × [D1,D2] → [B1,B2,S,D2]`. -/
def contract_4d_2d (input weight output : Tensor α) : Prop :=
  input.shape.length = 4 ∧ weight.shape.length = 2 ∧ weight.dim 0 = input.dim 3 ∧
    output.shape.length = 4 ∧ output.dim 0 = input.dim 0 ∧ output.dim 1 = input.dim 1 ∧
    output.dim 2 = input.dim 2 ∧ output.dim 3 = weight.dim 1

instance (input weight output : Tensor α) : Decidable (contract_4d_2d input weight output) :=
  inferInstanceAs (Decidable (_ ∧ _))

/-- Shape contract of `tensor_mul_3_2`: `[B,S,Din] × [Din,Dout] → [B,S,Dout]`. -/
def contract_3_2 (input weight output : Tensor α) : Prop :=
  input.shape.length = 3 ∧ weight.shape.length = 2 ∧ output.shape.length = 3 ∧
    weight.dim 0 = input.dim 2 ∧ output.dim 0 = input.dim 0 ∧ output.dim 1 = input.dim 1 ∧
    output.dim 2 = weight.dim 1

instance (input weight output : Tensor α) : Decidable (contract_3_2 input weight output) :=
  inferInstanceAs (Decidable (_ ∧ _))

/-- The dot product of row `i` of `Q[b,h]` with row `j` of `K[b,h]`, for
operands of shape `[B,H,S,D]`. -/
def rowDot (q kk : List α) (H S D b h i j : Nat) : α :=
  sumTo D fun k =>
    elem q (((b * H + h) * S + i) * D + k) * elem kk (((b * H + h) * S + j) * D + k)

end Kernels

/-- The state of an output buffer in the middle of a kernel that writes its
elements in increasing flat order: the first `c` elements hold the values
`spec`, the others still hold the content `orig` the caller supplied. -/
def Filled {α : Type} (orig : List α) (spec : Nat → α) (c : Nat) (s : List α) : Prop :=
  s.length = orig.length ∧ (∀ p, p < c → s[p]? = some (spec p)) ∧
    (∀ p, c ≤ p → s[p]? = orig[p]?)

/-! ## Sample tensors -/

/-- The left operand `[[1,2,3],[4,5,6]]`. -/
def sampleLeft : Tensor Int := ⟨[1, 2, 3, 4, 5, 6], [2, 3]⟩

/-- The right operand `[[1,0],[0,1],[1,1]]`. -/
def sampleRight : Tensor Int := ⟨[1, 0, 0, 1, 1, 1], [3, 2]⟩

/-- A `[2,2]` output buffer with arbitrary initial content. -/
def sampleOut : Tensor Int := ⟨[7, 7, 7, 7], [2, 2]⟩

/-- A right operand of shape `[4,2]`, incompatible with `sampleLeft`. -/
def sampleBadRight : Tensor Int := ⟨[1, 0, 0, 1, 1, 1, 0, 0], [4, 2]⟩

/-- Two stacked copies of `sampleLeft`, shape `[2,2,3]`. -/
def sampleLeft3 : Tensor Int := ⟨sampleLeft.data ++ sampleLeft.data, [2, 2, 3]⟩

/-- Two stacked copies of `sampleRight`, shape `[2,3,2]`. -/
def sampleRight3 : Tensor Int := ⟨sampleRight.data ++ sampleRight.data, [2, 3, 2]⟩

/-- A `[2,2,2]` output buffer. -/
def sampleOut3 : Tensor Int := ⟨[7, 7, 7, 7, 7, 7, 7, 7], [2, 2, 2]⟩

/-- The operands of `sampleLeft3` viewed as `[1,2,2,3]`. -/
def sampleLeft4 : Tensor Int := ⟨sampleLeft3.data, [1, 2, 2, 3]⟩

/-- The operands of `sampleRight3` viewed as `[1,2,3,2]`. -/
def sampleRight4 : Tensor Int := ⟨sampleRight3.data, [1, 2, 3, 2]⟩

/-- A `[1,2,2,2]` output buffer. -/
def sampleOut4 : Tensor Int := ⟨sampleOut3.data, [1, 2, 2, 2]⟩

/-- The query/key tensor `[[[[2]]]]`. -/
def sampleQ : Tensor Int := ⟨[2], [1, 1, 1, 1]⟩

/-- A `[1,1,1,1]` score buffer. -/
def sampleScore : Tensor Int := ⟨[0], [1, 1, 1, 1]⟩

/-- A rank-1 buffer, not a legal score output. -/
def sampleRank1 : Tensor Int := ⟨[0], [1]⟩

/-- A key tensor of shape `[1,1,1,2]`, different from the shape of `sampleQ`. -/
def sampleWideK : Tensor Int := ⟨[2, 5], [1, 1, 1, 2]⟩

/-- A query tensor of shape `[1,1,2,3]` with rows `[1,2,3]` and `[4,5,6]`. -/
def sampleQ2 : Tensor Int := ⟨[1, 2, 3, 4, 5, 6], [1, 1, 2, 3]⟩

/-- A key tensor of shape `[1,1,2,3]` with rows `[1,0,1]` and `[0,1,1]`. -/
def sampleK2 : Tensor Int := ⟨[1, 0, 1, 0, 1, 1], [1, 1, 2, 3]⟩

/-- A `[1,1,2,2]` score buffer with arbitrary initial content. -/
def sampleScore2 : Tensor Int := ⟨[7, 7, 7, 7], [1, 1, 2, 2]⟩

/-- A `[1,2,3]` activation. -/
def sampleInput3 : Tensor Int := ⟨[1, 2, 3, 4, 5, 6], [1, 2, 3]⟩

/-- A `[1,2,2]` output buffer. -/
def sampleProj3 : Tensor Int := ⟨[7, 7, 7, 7], [1, 2, 2]⟩

/-- A `[1,1,2,3]` activation. -/
def sampleInput4 : Tensor Int := ⟨[1, 2, 3, 4, 5, 6], [1, 1, 2, 3]⟩

/-- A `[1,1,2,2]` output buffer. -/
def sampleProj4 : Tensor Int := ⟨[7, 7, 7, 7], [1, 1, 2, 2]⟩

/-! ## Embedding layers: data model and control flow -/

/-- The operations on C `float` that the embedding layers use besides `+`:
the conversions `(int)x` and `(float)n`, the division, and the library
functions `powf`, `sinf` and `cosf`. -/
structure FloatOps (α : Type) where
  toInt : α → Int
  ofInt : Int → α
  div : α → α → α
  powf : α → α → α
  sinf : α → α
  cosf : α → α

/-- The call `memcpy(dst + dstOff, src + srcOff, n * sizeof(float))`,
bounds-checked on both buffers. -/
def memcpy {α : Type} (dst : List α) (dstOff : Int) (src : List α) (srcOff : Int) (n : Int) :
    Option (List α) :=
  if 0 ≤ n ∧ 0 ≤ dstOff ∧ dstOff + n ≤ dst.length ∧ 0 ≤ srcOff ∧ srcOff + n ≤ src.length then
    some (dst.take dstOff.toNat ++ (src.drop srcOff.toNat).take n.toNat ++
      dst.drop (dstOff + n).toNat)
  else none

/-- Outcome of a loop body that may execute `return`: the loop goes on with a
new state, or the function returns a value. -/
inductive Flow (ρ σ : Type) where
  | next : σ → Flow ρ σ
  | ret : ρ → Flow ρ σ
deriving DecidableEq, Repr

/-- Runs a body that may `return` for `n` consecutive counter values. -/
def forLoopRetFrom {ρ σ : Type} (body : Int → σ → Option (Flow ρ σ)) :
    Nat → Int → σ → Option (Flow ρ σ)
  | 0, _, s => some (Flow.next s)
  | n + 1, i, s => (body i s).andThen fun r =>
      match r with
      | Flow.next s' => forLoopRetFrom body n (i + 1) s'
      | Flow.ret v => some (Flow.ret v)

/-- The loop `for (int i = 0; i < hi; i++) body` whose body may `return`. -/
def forLoopRet {ρ σ : Type} (hi : Int) (body : Int → σ → Option (Flow ρ σ)) (s : σ) :
    Option (Flow ρ σ) :=
  forLoopRetFrom body hi.toNat 0 s

/-- The end of a function whose loops may have executed `return`: the value
returned from inside the loops, or `return true` with the final buffer. -/
def Flow.orTrue {σ : Type} : Flow (Bool × σ) σ → Bool × σ
  | Flow.next s => (true, s)
  | Flow.ret v => v

/-- Runs `body` for `n` counter values `i, i + step, i + 2*step, ...`. -/
def forLoopFromBy {σ : Type} (step : Int) (body : Int → σ → Option σ) :
    Nat → Int → σ → Option σ
  | 0, _, s => some s
  | n + 1, i, s => (body i s).andThen (forLoopFromBy step body n (i + step))

/-- The loop `for (int i = 0; i < hi; i += 2) body`: the body runs for
`i = 0, 2, 4, ...` below `hi`, that is `((hi + 1) / 2).toNat` times. -/
def forLoopBy2 {σ : Type} (hi : Int) (body : Int → σ → Option σ) (s : σ) : Option σ :=
  forLoopFromBy 2 body ((hi + 1) / 2).toNat 0 s

/-- Modelled from the spec: the helper `calculate_total_size(shape, num_dims)`
is not in the sources; by the data model (`len(data) == product(dims)`) it is
the element count of a tensor, the product of its first `num_dims` dims. -/
def calculate_total_size (shape : List Int) (num_dims : Int) : Int :=
  (shape.take num_dims.toNat).prod

namespace Forward

/-! ### `src/forward/embeddings/embeddings.c` (tensor variant) -/

/-- Token embedding layer: vocabulary size, embedding width and the table. -/
structure TokenEmbedding (α : Type) where
  vocab_size : Int
  embedding_dim : Int
  embedding_matrix : Tensor α

/-- Positional encoding layer: table height, width and the table. -/
structure PositionalEncoding (α : Type) where
  max_seq_length : Int
  encoding_dim : Int
  encodings : Tensor α

/-- The two layers of the transformer embedding. -/
structure TransformerEmbedding (α : Type) where
  token_embedding : TokenEmbedding α
  positional_encoding : PositionalEncoding α

/-- Construction of the positional encoding (`positional_encoding_create`).
`batch_size` is `g_model_config.batch_size`; `tensor_create` is the allocator,
which is not in the sources: it yields a tensor or `none` for `NULL`. The
result is `some none` when the function returns `NULL`. The allocation of the
descriptor itself is taken to succeed. -/
def positional_encoding_create {α : Type} (ops : FloatOps α) (batch_size : Int)
    (tensor_create : List Int → Int → Option (Tensor α))
    (max_seq_length encoding_dim : Int) : Option (Option (PositionalEncoding α)) :=
  match tensor_create [batch_size, max_seq_length, encoding_dim] 3 with
  | none => some none
  | some encodings =>
    (forLoop batch_size (fun batch data =>
      forLoop max_seq_length (fun pos data =>
        forLoopBy2 encoding_dim (fun i data =>
          let angle := ops.div (ops.ofInt pos)
            (ops.powf (ops.ofInt 10000) (ops.div (ops.ofInt i) (ops.ofInt encoding_dim)))
          let idx := (batch * max_seq_length * encoding_dim) + (pos * encoding_dim) + i
          (writeAt data idx (ops.sinf angle)).andThen fun data =>
          if i + 1 < encoding_dim then writeAt data (idx + 1) (ops.cosf angle)
          else some data) data) data) encodings.data).map fun data =>
      some ⟨max_seq_length, encoding_dim, ⟨data, encodings.shape⟩⟩

/-- Embedding lookup (`token_embedding_forward`): the result is the C return
value and the content of `output->data` after the call. -/
def token_embedding_forward {α : Type} (ops : FloatOps α) (embedding : TokenEmbedding α)
    (tokens output : Tensor α) : Option (Bool × List α) :=
  if tokens.num_dims ≠ 2 then some (false, output.data) else
  (tokens.dim 0).andThen fun batch_size =>
  (tokens.dim 1).andThen fun seq_length =>
  let embedding_dim := embedding.embedding_dim
  if output.num_dims ≠ 3 then some (false, output.data) else
  (output.dim 0).andThen fun o0 =>
  if o0 ≠ batch_size then some (false, output.data) else
  (output.dim 1).andThen fun o1 =>
  if o1 ≠ seq_length then some (false, output.data) else
  (output.dim 2).andThen fun o2 =>
  if o2 ≠ embedding_dim then some (false, output.data) else
  (forLoopRet batch_size (fun b out_data =>
    forLoopRet seq_length (fun s out_data =>
      (readAt tokens.data (b * seq_length + s)).andThen fun t =>
      let token := ops.toInt t
      if token ≥ embedding.vocab_size then some (Flow.ret (false, out_data)) else
      (memcpy out_data ((b * seq_length + s) * embedding_dim)
        embedding.embedding_matrix.data (token * embedding_dim) embedding_dim).andThen
        fun out_data => some (Flow.next out_data)) out_data) output.data).map Flow.orTrue

/-- In-place addition of the positional encoding
(`positional_encoding_forward`): the result is the C return value and the
content of `input->data` after the call. -/
def positional_encoding_forward {α : Type} [Add α] (pos_enc : PositionalEncoding α)
    (input : Tensor α) : Option (Bool × List α) :=
  if input.num_dims ≠ 3 then some (false, input.data) else
  (input.dim 0).andThen fun batch_size =>
  (input.dim 1).andThen fun seq_length =>
  (input.dim 2).andThen fun encoding_dim =>
  if encoding_dim ≠ pos_enc.encoding_dim then some (false, input.data) else
  let seq_length :=
    if seq_length > pos_enc.max_seq_length then pos_enc.max_seq_length else seq_length
  (forLoop batch_size (fun b data =>
    forLoop seq_length (fun s data =>
      forLoop encoding_dim (fun d data =>
        (readAt data ((b * seq_length + s) * encoding_dim + d)).andThen fun x =>
        (readAt pos_enc.encodings.data (s * encoding_dim + d)).andThen fun e =>
        writeAt data ((b * seq_length + s) * encoding_dim + d) (x + e)) data) data)
    input.data).map fun data => (true, data)

/-- The whole embedding (`transformer_embedding_forward`). `dropout_forward`
is the external dropout transform, `none` standing for a `NULL` result;
`dropout_prob` is `g_model_config.dropout_prob`. -/
def transformer_embedding_forward {α : Type} [Add α] (ops : FloatOps α)
    (dropout_forward : Tensor α → α → Bool → Option (Tensor α)) (dropout_prob : α)
    (trans_emb : TransformerEmbedding α) (tokens output : Tensor α) :
    Option (Bool × List α) :=
  (token_embedding_forward ops trans_emb.token_embedding tokens output).andThen fun r1 =>
  if r1.1 = false then some (false, r1.2) else
  (positional_encoding_forward trans_emb.positional_encoding ⟨r1.2, output.shape⟩).andThen
    fun r2 =>
  if r2.1 = false then some (false, r2.2) else
  match dropout_forward ⟨r2.2, output.shape⟩ dropout_prob false with
  | none => some (false, r2.2)
  | some dropout_output =>
    (memcpy r2.2 0 dropout_output.data 0
      (calculate_total_size output.shape output.num_dims)).andThen fun data =>
    some (true, data)

/-- Shape contract of `token_embedding_forward`: tokens of rank 2 and an
output of rank 3 and shape `[tokens.dim0, tokens.dim1, embedding_dim]`. -/
def contract_token {α : Type} (embedding_dim : Int) (tokens output : Tensor α) : Prop :=
  tokens.shape.length = 2 ∧ output.shape.length = 3 ∧ output.dim 0 = tokens.dim 0 ∧
    output.dim 1 = tokens.dim 1 ∧ output.dim 2 = some embedding_dim

instance {α : Type} (embedding_dim : Int) (tokens output : Tensor α) :
    Decidable (contract_token embedding_dim tokens output) :=
  inferInstanceAs (Decidable (_ ∧ _))

end Forward

namespace ForwardBackward

/-! ### `src/forward_backward/01embedding/01token_embedding.c` -/

/-- Embedding lookup (`token_embedding_forward`), which validates the shapes
and hands over to `perform_embedding_lookup`, a function of `lookup.h` that is
not in the sources and is a parameter here. -/
def token_embedding_forward {α : Type}
    (perform_embedding_lookup :
      Tensor α → Tensor α → Tensor α → Int → Int → Int → Option (Bool × List α))
    (embedding : Forward.TokenEmbedding α) (tokens output : Tensor α) :
    Option (Bool × List α) :=
  if tokens.num_dims ≠ 2 then some (false, output.data) else
  (tokens.dim 0).andThen fun batch_size =>
  (tokens.dim 1).andThen fun seq_length =>
  let embedding_dim := embedding.embedding_dim
  if output.num_dims ≠ 3 then some (false, output.data) else
  (output.dim 0).andThen fun o0 =>
  if o0 ≠ batch_size then some (false, output.data) else
  (output.dim 1).andThen fun o1 =>
  if o1 ≠ seq_length then some (false, output.data) else
  (output.dim 2).andThen fun o2 =>
  if o2 ≠ embedding_dim then some (false, output.data) else
  perform_embedding_lookup embedding.embedding_matrix tokens output batch_size seq_length
    embedding_dim

end ForwardBackward

namespace FloatArray

/-! ### `src/embeddings/embeddings.c` (float-array variant) -/

/-- Token embedding layer over a plain `float*` table. -/
structure TokenEmbedding (α : Type) where
  vocab_size : Int
  embedding_dim : Int
  requires_grad : Bool
  embedding_matrix : List α

/-- Positional encoding layer over a plain `float*` table. -/
structure PositionalEncoding (α : Type) where
  max_seq_length : Int
  encoding_dim : Int
  encodings : List α

/-- The two layers of the transformer embedding. -/
structure TransformerEmbedding (α : Type) where
  token_embedding : TokenEmbedding α
  positional_encoding : PositionalEncoding α

/-- Construction of the positional encoding (`positional_encoding_create`).
`malloc` is the allocator of `n` floats, `none` standing for `NULL`; the
result is `some none` when the function returns `NULL`. The allocation of the
descriptor itself is taken to succeed. -/
def positional_encoding_create {α : Type} (ops : FloatOps α)
    (malloc : Int → Option (List α)) (max_seq_length encoding_dim : Int) :
    Option (Option (PositionalEncoding α)) :=
  match malloc (max_seq_length * encoding_dim) with
  | none => some none
  | some encodings =>
    (forLoop max_seq_length (fun pos data =>
      forLoopBy2 encoding_dim (fun i data =>
        let angle := ops.div (ops.ofInt pos)
          (ops.powf (ops.ofInt 10000) (ops.div (ops.ofInt i) (ops.ofInt encoding_dim)))
        (writeAt data (pos * encoding_dim + i) (ops.sinf angle)).andThen fun data =>
        if i + 1 < encoding_dim then writeAt data (pos * encoding_dim + i + 1) (ops.cosf angle)
        else some data) data) encodings).map fun data =>
      some ⟨max_seq_length, encoding_dim, data⟩

/-- Embedding lookup (`token_embedding_forward`): the content of `output`
after the call. -/
def token_embedding_forward {α : Type} (embedding : TokenEmbedding α) (tokens : List Int)
    (output : List α) : Option (List α) :=
  let vocab_size := embedding.vocab_size
  let embedding_dim := embedding.embedding_dim
  let embedding_matrix := embedding.embedding_matrix
  forLoop vocab_size (fun i output =>
    (readAt tokens i).andThen fun token =>
    memcpy output (i * embedding_dim) embedding_matrix (token * embedding_dim) embedding_dim)
    output

/-- Positional encoding step (`positional_encoding_forward`): the content of
`output` after the call. -/
def positional_encoding_forward {α : Type} (pos_enc : PositionalEncoding α)
    (seq_length : Int) (output : List α) : Option (List α) :=
  let encoding_dim := pos_enc.encoding_dim
  let encodings := pos_enc.encodings
  let seq_length :=
    if seq_length > pos_enc.max_seq_length then pos_enc.max_seq_length else seq_length
  forLoop seq_length (fun pos output =>
    memcpy output (pos * encoding_dim) encodings (pos * encoding_dim) encoding_dim) output

/-- The whole embedding (`transformer_embedding_forward`): the content of
`output` after the call. `malloc` is the allocator of `n` floats; its result
is used without a `NULL` check. -/
def transformer_embedding_forward {α : Type} (malloc : Int → Option (List α))
    (trans_emb : TransformerEmbedding α) (tokens : List Int) (seq_length : Int)
    (output : List α) : Option (List α) :=
  let embedding_dim := trans_emb.token_embedding.embedding_dim
  (malloc (seq_length * embedding_dim)).andThen fun token_output =>
  (token_embedding_forward trans_emb.token_embedding tokens token_output).andThen
    fun token_output =>
  (memcpy output 0 token_output 0 (seq_length * embedding_dim)).andThen fun output =>
  positional_encoding_forward trans_emb.positional_encoding seq_length output

end FloatArray

/-! ## Reference quantities of the embedding layers -/

/-- The id `(int)tokens->data[q]` of the token at flat position `q` (`0`
outside the buffer). -/
def tokenId {α : Type} (ops : FloatOps α) (tokens : List α) (q : Nat) : Int :=
  match tokens[q]? with
  | some t => ops.toInt t
  | none => 0

/-- Value of output element `p` after an embedding lookup of width `D`:
element `p % D` of the table row of the token at position `p / D`. -/
def lookupSpec {α : Type} [Zero α] (ops : FloatOps α) (table tokens : List α) (D : Nat)
    (p : Nat) : α :=
  elem table ((tokenId ops tokens (p / D)).toNat * D + p % D)

/-! ## Sample embedding layers -/

/-- Operations on the integers standing in for floats in the samples: the two
conversions are the identity. -/
def sampleOps : FloatOps Int :=
  ⟨fun x => x, fun n => n, fun a b => a / b, fun a b => a ^ b.toNat, fun x => x, fun x => 1 - x⟩

/-- The vocabulary `{0:[1,1], 1:[2,2]}`. -/
def sampleTable : Forward.TokenEmbedding Int := ⟨2, 2, ⟨[1, 1, 2, 2], [2, 2]⟩⟩

/-- The tokens `[[0,1]]`. -/
def sampleTokens : Tensor Int := ⟨[0, 1], [1, 2]⟩

/-- The tokens `[[0,2]]`: id 2 is out of range for a 2-row table. -/
def sampleTokensBad : Tensor Int := ⟨[0, 2], [1, 2]⟩

/-- The tokens `[[-1]]`. -/
def sampleTokensNeg : Tensor Int := ⟨[-1], [1, 1]⟩

/-- A `[1,2,2]` output buffer. -/
def sampleEmbOut : Tensor Int := ⟨[7, 7, 7, 7], [1, 2, 2]⟩

/-- A `[1,1,2]` output buffer. -/
def sampleEmbOut1 : Tensor Int := ⟨[7, 7], [1, 1, 2]⟩

/-! ## Reference quantities of the positional encoding -/

/-- The angle `pos / 10000^(i/D)`. -/
def peAngle {α : Type} (ops : FloatOps α) (D pos i : Nat) : α :=
  ops.div (ops.ofInt (pos : Int))
    (ops.powf (ops.ofInt 10000) (ops.div (ops.ofInt (i : Int)) (ops.ofInt (D : Int))))

/-- Entry `[pos, i]` of the positional encoding table: `sin(pos / 10000^(i/D))`
for even `i`, `cos(pos / 10000^((i-1)/D))` for odd `i`. -/
def peEntry {α : Type} (ops : FloatOps α) (D pos i : Nat) : α :=
  if i % 2 = 0 then ops.sinf (peAngle ops D pos i) else ops.cosf (peAngle ops D pos (i - 1))

/-- Value of element `p` of a buffer of stacked `[M,D]` positional tables. -/
def peSpec {α : Type} (ops : FloatOps α) (M D : Nat) (p : Nat) : α :=
  peEntry ops D (p / D % M) (p % D)

/-- Value of element `p` of a `[B,S,D]` buffer after the positional encoding
has been added: the old element plus entry `[p / D % S, p % D]` of the table. -/
def addSpec {α : Type} [Zero α] [Add α] (orig enc : List α) (S D : Nat) (p : Nat) : α :=
  elem orig p + elem enc (p / D % S * D + p % D)

/-- A positional encoding with a one-row table `[[10]]`. -/
def samplePE1 : Forward.PositionalEncoding Int := ⟨1, 1, ⟨[10], [1, 1, 1]⟩⟩

/-- A positional encoding with the table `[[10,20],[30,40]]`. -/
def samplePE2 : Forward.PositionalEncoding Int := ⟨2, 2, ⟨[10, 20, 30, 40], [1, 2, 2]⟩⟩

/-- A `[2,2,1]` input: two sequences of two positions. -/
def sampleSeqs : Tensor Int := ⟨[1, 2, 3, 4], [2, 2, 1]⟩

/-- A `[1,2,2]` input. -/
def sampleSeq : Tensor Int := ⟨[1, 2, 3, 4], [1, 2, 2]⟩

/-- The float-array embedding: table `{0:[1,1], 1:[2,2]}`, encodings
`[[10,20],[30,40]]`. -/
def sampleArrayEmb : FloatArray.TransformerEmbedding Int :=
  ⟨⟨2, 2, false, [1, 1, 2, 2]⟩, ⟨2, 2, [10, 20, 30, 40]⟩⟩

/-- An allocator that always succeeds, with zeroed memory. -/
def sampleMalloc (n : Int) : Option (List Int) := some (List.replicate n.toNat 0)

/-! ## 32-bit index arithmetic of `tensor_matmul_4d` -/

/-- The value a 32-bit two's-complement `int` holds for the exact result `x`:
`x` reduced modulo `2^32` into `[-2^31, 2^31)`. -/
def wrap32 (x : Int) : Int := (x + 2 ^ 31) % 2 ^ 32 - 2 ^ 31

/-- The sum of two `int` values in 32-bit arithmetic. -/
def add32 (a b : Int) : Int := wrap32 (a + b)

/-- The product of two `int` values in 32-bit arithmetic. -/
def mul32 (a b : Int) : Int := wrap32 (a * b)

/-- Every intermediate `int` value of the offsets and element indices that
`tensor_matmul_4d` computes at the loop counters `batch1`, `batch2`, `row`,
`col` and `k`, subexpressions included. -/
def matmul_4d_index_exprs (inner_batch rows inner_dim cols batch1 batch2 row col k : Int) :
    List Int :=
  let left_offset := (batch1 * inner_batch + batch2) * rows * inner_dim
  let right_offset := (batch1 * inner_batch + batch2) * inner_dim * cols
  let out_offset := (batch1 * inner_batch + batch2) * rows * cols
  [batch1 * inner_batch, batch1 * inner_batch + batch2,
    (batch1 * inner_batch + batch2) * rows, left_offset,
    (batch1 * inner_batch + batch2) * inner_dim, right_offset, out_offset,
    row * inner_dim, left_offset + row * inner_dim, left_offset + row * inner_dim + k,
    k * cols, right_offset + k * cols, right_offset + k * cols + col,
    row * cols, out_offset + row * cols, out_offset + row * cols + col]

/-- The index `left_offset + row * inner_dim + k` computed in 32-bit
arithmetic. -/
def left_index32 (inner_batch rows inner_dim batch1 batch2 row k : Int) : Int :=
  add32 (add32 (mul32 (mul32 (add32 (mul32 batch1 inner_batch) batch2) rows) inner_dim)
    (mul32 row inner_dim)) k

/-- The index `right_offset + k * cols + col` computed in 32-bit arithmetic. -/
def right_index32 (inner_batch inner_dim cols batch1 batch2 k col : Int) : Int :=
  add32 (add32 (mul32 (mul32 (add32 (mul32 batch1 inner_batch) batch2) inner_dim) cols)
    (mul32 k cols)) col

/-- The index `out_offset + row * cols + col` computed in 32-bit arithmetic. -/
def out_index32 (inner_batch rows cols batch1 batch2 row col : Int) : Int :=
  add32 (add32 (mul32 (mul32 (add32 (mul32 batch1 inner_batch) batch2) rows) cols)
    (mul32 row cols)) col

/-! ## Samples for the whole-family claims -/

/-- An empty `[0,3]` left operand. -/
def sampleEmptyLeft : Tensor Int := ⟨[], [0, 3]⟩

/-- An empty `[0,2]` output. -/
def sampleEmptyOut : Tensor Int := ⟨[], [0, 2]⟩

/-- A float-array table of three rows `{0:[1,1], 1:[2,2], 2:[3,3]}`. -/
def sampleArrayTable3 : FloatArray.TokenEmbedding Int := ⟨3, 2, false, [1, 1, 2, 2, 3, 3]⟩

/-! ## Basic facts on accesses and loops -/

@[simp] theorem andThen_some {β γ : Type} (b : β) (f : β → Option γ) :
    (some b).andThen f = f b := rfl

@[simp] theorem andThen_none {β γ : Type} (f : β → Option γ) :
    (none : Option β).andThen f = none := rfl

theorem readAt_natCast {α : Type} (buf : List α) (n : Nat) :
    readAt buf (n : Int) = buf[n]? := by
  simp [readAt]

theorem writeAt_natCast {α : Type} (buf : List α) (n : Nat) (v : α) (h : n < buf.length) :
    writeAt buf (n : Int) v = some (buf.set n v) := by
  simp [writeAt, h]

theorem forLoopFrom_inv {σ : Type} (body : Int → σ → Option σ) (Inv : Nat → σ → Prop)
    (n : Nat) : ∀ (i : Nat) (s : σ), Inv i s →
      (∀ j, i ≤ j → j < i + n → ∀ t, Inv j t →
        ∃ t', body (j : Int) t = some t' ∧ Inv (j + 1) t') →
      ∃ s', forLoopFrom body n (i : Int) s = some s' ∧ Inv (i + n) s' := by
  induction n with
  | zero => intro i s hs _; exact ⟨s, rfl, hs⟩
  | succ n ih =>
    intro i s hs hstep
    obtain ⟨t, ht, hInv⟩ := hstep i (le_refl i) (by omega) s hs
    obtain ⟨s', hs', hInv'⟩ := ih (i + 1) t hInv
      (fun j hj1 hj2 u hu => hstep j (by omega) (by omega) u hu)
    refine ⟨s', ?_, ?_⟩
    · simp only [forLoopFrom, ht, andThen_some]
      rw [← hs']; congr 1
    · rw [show i + (n + 1) = i + 1 + n by omega]; exact hInv'

theorem forLoop_inv {σ : Type} (body : Int → σ → Option σ) (Inv : Nat → σ → Prop)
    (n : Nat) (s : σ) (h0 : Inv 0 s)
    (hstep : ∀ j, j < n → ∀ t, Inv j t → ∃ t', body (j : Int) t = some t' ∧ Inv (j + 1) t') :
    ∃ s', forLoop (n : Int) body s = some s' ∧ Inv n s' := by
  have h := forLoopFrom_inv body Inv n 0 s h0 (fun j _ hj t ht => hstep j (by omega) t ht)
  simpa [forLoop] using h

theorem Filled.start {α : Type} (orig : List α) (spec : Nat → α) : Filled orig spec 0 orig :=
  ⟨rfl, fun p hp => absurd hp (Nat.not_lt_zero p), fun _ _ => rfl⟩

/-- One write at the frontier of a partially filled buffer. -/
theorem Filled.write {α : Type} {orig : List α} {spec : Nat → α} {c : Nat} {s : List α}
    (hs : Filled orig spec c s) (hc : c < orig.length) (i : Int) (v : α)
    (hi : i = (c : Int)) (hv : v = spec c) :
    ∃ s', writeAt s i v = some s' ∧ Filled orig spec (c + 1) s' := by
  obtain ⟨hlen, hlo, hhi⟩ := hs
  subst hi hv
  refine ⟨s.set c (spec c), writeAt_natCast s c _ (by omega), ?_, ?_, ?_⟩
  · simp [hlen]
  · intro p hp
    rcases Nat.lt_or_ge p c with h | h
    · rw [List.getElem?_set_ne (by omega)]; exact hlo p h
    · have hpc : p = c := by omega
      subst hpc
      simp [List.getElem?_set, hlen, hc]
  · intro p hp
    rw [List.getElem?_set_ne (by omega)]; exact hhi p (by omega)

/-- A loop whose every iteration fills the next `w` elements. -/
theorem Filled.level {α : Type} {orig : List α} {spec : Nat → α} (w n base : Nat)
    (body : Int → List α → Option (List α))
    (hstep : ∀ i, i < n → ∀ s, Filled orig spec (base + i * w) s →
      ∃ s', body (i : Int) s = some s' ∧ Filled orig spec (base + i * w + w) s')
    (s : List α) (hs : Filled orig spec base s) :
    ∃ s', forLoop (n : Int) body s = some s' ∧ Filled orig spec (base + n * w) s' := by
  refine forLoop_inv body (fun i t => Filled orig spec (base + i * w) t) n s
    (by simpa using hs) ?_
  intro j hj t ht
  obtain ⟨t', h1, h2⟩ := hstep j hj t ht
  refine ⟨t', h1, ?_⟩
  show Filled orig spec (base + (j + 1) * w) t'
  rw [show base + (j + 1) * w = base + j * w + w by ring]; exact h2

section LoopFacts

variable {α : Type} [Zero α] [Add α] [Mul α]

/-- The accumulation loop `sum = 0; for k: sum += a[..] * b[..]`. -/
theorem forLoop_sum (K : Nat) (ra rb : Int → Option α) (fa fb : Nat → α)
    (ha : ∀ k, k < K → ra (k : Int) = some (fa k))
    (hb : ∀ k, k < K → rb (k : Int) = some (fb k)) :
    forLoop (K : Int) (fun k sum =>
      (ra k).andThen fun a => (rb k).andThen fun b => some (sum + a * b)) (0 : α)
      = some (sumTo K fun k => fa k * fb k) := by
  obtain ⟨s', hs', hInv⟩ := forLoop_inv
    (fun k sum => (ra k).andThen fun a => (rb k).andThen fun b => some (sum + a * b))
    (fun n (acc : α) => acc = sumTo n fun k => fa k * fb k) K (0 : α) rfl
    (fun j hj t ht => ⟨t + fa j * fb j, by simp [ha j hj, hb j hj], by subst ht; rfl⟩)
  rw [hs', hInv]

/-- The two innermost loops of every kernel: for each `col`, accumulate a dot
product and store it (after `post`) at the next output element. -/
theorem Filled.colLoop {orig : List α} {spec : Nat → α} (K N c : Nat) (ld rd : List α)
    (li : Int → Int) (ri : Int → Int → Int) (oi : Int → Int) (post : α → α)
    (fl : Nat → α) (fr : Nat → Nat → α)
    (hli : ∀ k, k < K → readAt ld (li k) = some (fl k))
    (hri : ∀ k, k < K → ∀ j, j < N → readAt rd (ri k j) = some (fr k j))
    (hoi : ∀ j, j < N → oi j = ((c + j : Nat) : Int))
    (hspec : ∀ j, j < N → spec (c + j) = post (sumTo K fun k => fl k * fr k j))
    (hc : c + N ≤ orig.length) (s : List α) (hs : Filled orig spec c s) :
    ∃ s', forLoop (N : Int) (fun col out =>
        (forLoop (K : Int) (fun k sum =>
          (readAt ld (li k)).andThen fun a =>
          (readAt rd (ri k col)).andThen fun b => some (sum + a * b)) (0 : α)).andThen
        fun sum => writeAt out (oi col) (post sum)) s = some s' ∧
      Filled orig spec (c + N) s' := by
  have h := @Filled.level α orig spec 1 N c
    (fun col out =>
        (forLoop (K : Int) (fun k sum =>
          (readAt ld (li k)).andThen fun a =>
          (readAt rd (ri k col)).andThen fun b => some (sum + a * b)) (0 : α)).andThen
        fun sum => writeAt out (oi col) (post sum)) ?_ s hs
  · simpa using h
  · intro j hj t ht
    have hsum := forLoop_sum K (fun k => readAt ld (li k)) (fun k => readAt rd (ri k j))
      fl (fun k => fr k j) hli (fun k hk => hri k hk j hj)
    simp only [hsum, andThen_some]
    simp only [Nat.mul_one] at ht ⊢
    exact ht.write (by omega) _ _ (hoi j hj) (hspec j hj).symm

end LoopFacts

section IndexFacts

theorem idx_lt {i M k K : Nat} (hi : i < M) (hk : k < K) : i * K + k < M * K := by
  have h : (i + 1) * K ≤ M * K := Nat.mul_le_mul_right K hi
  have h2 : (i + 1) * K = i * K + K := by ring
  omega

theorem idx_le {i M : Nat} (N : Nat) (hi : i < M) : i * N + N ≤ M * N := by
  have h : (i + 1) * N ≤ M * N := Nat.mul_le_mul_right N hi
  have h2 : (i + 1) * N = i * N + N := by ring
  omega

theorem idx_div {a j N : Nat} (hj : j < N) : (a * N + j) / N = a := by
  rw [Nat.add_comm, Nat.add_mul_div_right _ _ (by omega), Nat.div_eq_of_lt hj, Nat.zero_add]

theorem idx_mod {a j N : Nat} (hj : j < N) : (a * N + j) % N = j := by
  rw [Nat.add_comm, Nat.add_mul_mod_self_right, Nat.mod_eq_of_lt hj]

end IndexFacts

section BufferFacts

theorem wf_length {α : Type} {t : Tensor α} (h : t.wf) (dims : List Nat)
    (hs : t.shape = dims.map Nat.cast) : t.data.length = dims.prod := by
  have h2 := h.2
  rw [hs, ← Nat.cast_list_prod] at h2
  exact_mod_cast h2

theorem Filled.unique {α : Type} {orig : List α} {spec : Nat → α} {d d' : List α}
    (h : Filled orig spec orig.length d) (h' : Filled orig spec orig.length d') : d = d' := by
  apply List.ext_getElem?
  intro p
  rcases Nat.lt_or_ge p orig.length with hp | hp
  · rw [h.2.1 p hp, h'.2.1 p hp]
  · rw [List.getElem?_eq_none (by rw [h.1]; exact hp),
      List.getElem?_eq_none (by rw [h'.1]; exact hp)]

theorem sumTo_congr {α : Type} [Zero α] [Add α] (n : Nat) (f g : Nat → α) (h : ∀ k, k < n → f k = g k) :
    sumTo n f = sumTo n g := by
  induction n with
  | zero => rfl
  | succ n ih =>
    simp only [sumTo]
    rw [ih (fun k hk => h k (by omega)), h n (by omega)]

theorem elem_block {α : Type} [Zero α] (buf : List α) (off sz x : Nat) (hx : x < sz) :
    elem (block buf off sz) x = elem buf (off + x) := by
  simp only [elem, block, List.getD_eq_getElem?_getD, List.getElem?_take_of_lt hx,
    List.getElem?_drop]

theorem block_length {α : Type} (buf : List α) (q Q sz : Nat) (hq : q < Q) (hb : buf.length = Q * sz) :
    (block buf (q * sz) sz).length = sz := by
  have := idx_le sz hq
  simp only [block, List.length_take, List.length_drop, hb]
  omega

theorem block_getElem? {α : Type} (buf : List α) (off sz x : Nat) (hx : x < sz) :
    (block buf off sz)[x]? = buf[off + x]? := by
  simp only [block, List.getElem?_take_of_lt hx, List.getElem?_drop]

theorem num_dims_eq_two {α : Type} (t : Tensor α) : t.num_dims = 2 ↔ t.shape.length = 2 := by
  unfold Tensor.num_dims; omega

theorem num_dims_eq_three {α : Type} (t : Tensor α) : t.num_dims = 3 ↔ t.shape.length = 3 := by
  unfold Tensor.num_dims; omega

theorem num_dims_eq_four {α : Type} (t : Tensor α) : t.num_dims = 4 ↔ t.shape.length = 4 := by
  unfold Tensor.num_dims; omega

theorem length_eq_four {β : Type} {l : List β} (h : l.length = 4) :
    ∃ a b c d, l = [a, b, c, d] := by
  rcases l with _ | ⟨a, _ | ⟨b, _ | ⟨c, _ | ⟨d, _ | ⟨e, t⟩⟩⟩⟩⟩ <;>
    first
    | exact ⟨_, _, _, _, rfl⟩
    | (simp only [List.length_cons, List.length_nil] at h; omega)

theorem block_replicate {α : Type} (L : List α) (n : Nat) (hn : L.length = n) :
    ∀ (B b : Nat), b < B → block (List.replicate B L).flatten (b * n) n = L := by
  intro B
  induction B with
  | zero => intro b hb; omega
  | succ B ih =>
    intro b hb
    rw [List.replicate_succ, List.flatten_cons]
    cases b with
    | zero => simp only [block, Nat.zero_mul, List.drop_zero, List.take_left' hn]
    | succ b =>
      have h := ih b (by omega)
      unfold block at h ⊢
      rw [show (b + 1) * n = L.length + b * n by rw [hn]; ring, List.drop_append]
      exact h

theorem div_mod_lt {p M N : Nat} (hp : p < M * N) : p / N < M ∧ p % N < N := by
  have hN : 0 < N := by
    rcases Nat.eq_zero_or_pos N with h | h
    · subst h; simp at hp
    · exact h
  exact ⟨Nat.div_lt_of_lt_mul (by rwa [Nat.mul_comm] at hp), Nat.mod_lt _ hN⟩

end BufferFacts

section KernelRuns

variable {α : Type} [Zero α] [Add α] [Mul α]

theorem readAt_of_lt {α : Type} [Zero α] (buf : List α) (idx : Int) (n : Nat) (h : idx = (n : Int))
    (hn : n < buf.length) : readAt buf idx = some (elem buf n) := by
  subst h
  rw [readAt_natCast, elem, List.getD_eq_getElem?_getD, List.getElem?_eq_getElem hn]
  rfl

theorem matmul_2d_run (M K N : Nat) (l r o : Tensor α)
    (hl : l.shape = [(M : Int), (K : Int)]) (hr : r.shape = [(K : Int), (N : Int)])
    (ho : o.shape = [(M : Int), (N : Int)])
    (hld : l.data.length = M * K) (hrd : r.data.length = K * N)
    (hod : o.data.length = M * N) :
    ∃ d, tensor_matmul_2d l r o = some (true, d) ∧
      Filled o.data (projSpec l.data r.data K N) (M * N) d := by
  simp only [tensor_matmul_2d, Tensor.num_dims, Tensor.dim, hl, hr, ho]
  simp only [List.length_cons, List.length_nil, List.getElem?_cons_zero,
    List.getElem?_cons_succ, andThen_some, Option.map_eq_some', Prod.mk.injEq, true_and,
    exists_eq_right, ne_eq, not_true_eq_false, or_self, ite_false, if_false]
  norm_num
  rw [show M * N = 0 + M * N by omega]
  refine Filled.level N M 0 _ ?_ o.data (Filled.start _ _)
  intro i hi s hs
  refine Filled.colLoop K N (0 + i * N) l.data r.data (fun k => (i : Int) * (K : Int) + k)
    (fun k col => k * (N : Int) + col) (fun col => (i : Int) * (N : Int) + col) (fun x => x)
    (fun k => elem l.data (i * K + k)) (fun k j => elem r.data (k * N + j))
    ?_ ?_ ?_ ?_ ?_ s hs
  · intro k hk
    exact readAt_of_lt _ _ _ (by push_cast; ring) (by rw [hld]; exact idx_lt hi hk)
  · intro k hk j hj
    exact readAt_of_lt _ _ _ (by push_cast; ring) (by rw [hrd]; exact idx_lt hk hj)
  · intro j _; push_cast; ring
  · intro j hj
    simp only [projSpec, Nat.zero_add, idx_div hj, idx_mod hj]
  · rw [hod]; have := idx_le N hi; omega

/-- The `row`/`col`/`k` loops of the batched products on block `q`. -/
theorem Filled.matBlock {orig : List α} (M K N q Q : Nat) (ld rd : List α)
    (lo ro oo : Int) (hq : q < Q)
    (hlo : lo = ((q * M * K : Nat) : Int)) (hro : ro = ((q * K * N : Nat) : Int))
    (hoo : oo = ((q * M * N : Nat) : Int))
    (hld : ld.length = Q * M * K) (hrd : rd.length = Q * K * N)
    (hod : orig.length = Q * M * N)
    (s : List α) (hs : Filled orig (matSpec ld rd M K N) (q * (M * N)) s) :
    ∃ s', forLoop (M : Int) (fun row out_data =>
        forLoop (N : Int) (fun col out_data =>
          (forLoop (K : Int) (fun k sum =>
            (readAt ld (lo + row * (K : Int) + k)).andThen fun a =>
            (readAt rd (ro + k * (N : Int) + col)).andThen fun b =>
            some (sum + a * b)) (0 : α)).andThen fun sum =>
          writeAt out_data (oo + row * (N : Int) + col) sum) out_data) s = some s' ∧
      Filled orig (matSpec ld rd M K N) (q * (M * N) + M * N) s' := by
  subst hlo hro hoo
  refine Filled.level N M (q * (M * N)) _ ?_ s hs
  intro i hi t ht
  refine Filled.colLoop K N (q * (M * N) + i * N) ld rd
    (fun k => ((q * M * K : Nat) : Int) + (i : Int) * (K : Int) + k)
    (fun k col => ((q * K * N : Nat) : Int) + k * (N : Int) + col)
    (fun col => ((q * M * N : Nat) : Int) + (i : Int) * (N : Int) + col) (fun x => x)
    (fun k => elem ld (q * M * K + i * K + k)) (fun k j => elem rd (q * K * N + k * N + j))
    ?_ ?_ ?_ ?_ ?_ t ht
  · intro k hk
    refine readAt_of_lt _ _ _ (by push_cast; ring) ?_
    rw [hld, show q * M * K + i * K + k = (q * M + i) * K + k by ring]
    exact idx_lt (idx_lt hq hi) hk
  · intro k hk j hj
    refine readAt_of_lt _ _ _ (by push_cast; ring) ?_
    rw [hrd, show q * K * N + k * N + j = (q * K + k) * N + j by ring]
    exact idx_lt (idx_lt hq hk) hj
  · intro j _; push_cast; ring
  · intro j hj
    rw [show q * (M * N) + i * N + j = (q * M + i) * N + j by ring]
    simp only [matSpec, idx_div hj, idx_mod hj, idx_div hi, idx_mod hi]
  · rw [hod, show q * (M * N) + i * N + N = (q * M + i) * N + N by ring]
    exact idx_le N (idx_lt hq hi)

theorem matmul_3d_run (B M K N : Nat) (l r o : Tensor α)
    (hl : l.shape = [(B : Int), (M : Int), (K : Int)])
    (hr : r.shape = [(B : Int), (K : Int), (N : Int)])
    (ho : o.shape = [(B : Int), (M : Int), (N : Int)])
    (hld : l.data.length = B * M * K) (hrd : r.data.length = B * K * N)
    (hod : o.data.length = B * M * N) :
    ∃ d, tensor_matmul_3d l r o = some (true, d) ∧
      Filled o.data (matSpec l.data r.data M K N) (B * M * N) d := by
  simp only [tensor_matmul_3d, Tensor.num_dims, Tensor.dim, hl, hr, ho]
  simp only [List.length_cons, List.length_nil, List.getElem?_cons_zero,
    List.getElem?_cons_succ, andThen_some, Option.map_eq_some', Prod.mk.injEq, true_and,
    exists_eq_right, ne_eq, not_true_eq_false, or_self, ite_false, if_false]
  norm_num
  rw [show B * M * N = 0 + B * (M * N) by ring]
  refine Filled.level (M * N) B 0 _ ?_ o.data (Filled.start _ _)
  intro b hb s hs
  rw [Nat.zero_add] at hs ⊢
  exact Filled.matBlock M K N b B l.data r.data _ _ _ hb (by push_cast; ring)
    (by push_cast; ring) (by push_cast; ring) hld hrd hod s hs

theorem matmul_4d_run (B1 B2 M K N : Nat) (l r o : Tensor α)
    (hl : l.shape = [(B1 : Int), (B2 : Int), (M : Int), (K : Int)])
    (hr : r.shape = [(B1 : Int), (B2 : Int), (K : Int), (N : Int)])
    (ho : o.shape = [(B1 : Int), (B2 : Int), (M : Int), (N : Int)])
    (hld : l.data.length = B1 * B2 * M * K) (hrd : r.data.length = B1 * B2 * K * N)
    (hod : o.data.length = B1 * B2 * M * N) :
    ∃ d, tensor_matmul_4d l r o = some (true, d) ∧
      Filled o.data (matSpec l.data r.data M K N) (B1 * B2 * M * N) d := by
  simp only [tensor_matmul_4d, Tensor.num_dims, Tensor.dim, hl, hr, ho]
  simp only [List.length_cons, List.length_nil, List.getElem?_cons_zero,
    List.getElem?_cons_succ, andThen_some, Option.map_eq_some', Prod.mk.injEq, true_and,
    exists_eq_right, ne_eq, not_true_eq_false, or_self, ite_false, if_false]
  norm_num
  rw [show B1 * B2 * M * N = 0 + B1 * (B2 * (M * N)) by ring]
  refine Filled.level (B2 * (M * N)) B1 0 _ ?_ o.data (Filled.start _ _)
  intro b1 hb1 s hs
  refine Filled.level (M * N) B2 (0 + b1 * (B2 * (M * N))) _ ?_ s hs
  intro b2 hb2 t ht
  rw [show 0 + b1 * (B2 * (M * N)) + b2 * (M * N) = (b1 * B2 + b2) * (M * N) by ring] at ht ⊢
  exact Filled.matBlock M K N (b1 * B2 + b2) (B1 * B2) l.data r.data _ _ _ (idx_lt hb1 hb2)
    (by push_cast; ring) (by push_cast; ring) (by push_cast; ring) hld hrd hod t ht

theorem mul_3_2_run (B S Din Dout : Nat) (inp w o : Tensor α)
    (hi : inp.shape = [(B : Int), (S : Int), (Din : Int)])
    (hw : w.shape = [(Din : Int), (Dout : Int)])
    (ho : o.shape = [(B : Int), (S : Int), (Dout : Int)])
    (hid : inp.data.length = B * S * Din) (hwd : w.data.length = Din * Dout)
    (hod : o.data.length = B * S * Dout) :
    ∃ d, tensor_mul_3_2 inp w o = some (true, d) ∧
      Filled o.data (projSpec inp.data w.data Din Dout) (B * S * Dout) d := by
  simp only [tensor_mul_3_2, Tensor.num_dims, Tensor.dim, hi, hw, ho]
  simp only [List.length_cons, List.length_nil, List.getElem?_cons_zero,
    List.getElem?_cons_succ, andThen_some, Option.map_eq_some', Prod.mk.injEq, true_and,
    exists_eq_right, ne_eq, not_true_eq_false, or_self, ite_false, if_false]
  norm_num
  rw [show B * S * Dout = 0 + B * (S * Dout) by ring]
  refine Filled.level (S * Dout) B 0 _ ?_ o.data (Filled.start _ _)
  intro b hb s hs
  refine Filled.level Dout S (0 + b * (S * Dout)) _ ?_ s hs
  intro i hi' t ht
  refine Filled.colLoop Din Dout (0 + b * (S * Dout) + i * Dout) inp.data w.data
    (fun k => (b : Int) * (S : Int) * (Din : Int) + (i : Int) * (Din : Int) + k)
    (fun k j => k * (Dout : Int) + j)
    (fun j => (b : Int) * (S : Int) * (Dout : Int) + (i : Int) * (Dout : Int) + j)
    (fun x => x)
    (fun k => elem inp.data ((b * S + i) * Din + k)) (fun k j => elem w.data (k * Dout + j))
    ?_ ?_ ?_ ?_ ?_ t ht
  · intro k hk
    refine readAt_of_lt _ _ _ (by push_cast; ring) ?_
    rw [hid]; exact idx_lt (idx_lt hb hi') hk
  · intro k hk j hj
    exact readAt_of_lt _ _ _ (by push_cast; ring) (by rw [hwd]; exact idx_lt hk hj)
  · intro j _; push_cast; ring
  · intro j hj
    rw [show 0 + b * (S * Dout) + i * Dout + j = (b * S + i) * Dout + j by ring]
    simp only [projSpec, idx_div hj, idx_mod hj]
  · rw [hod, show 0 + b * (S * Dout) + i * Dout + Dout = (b * S + i) * Dout + Dout by ring]
    exact idx_le Dout (idx_lt hb hi')

theorem mul_4d_2d_run (B1 B2 S D1 D2 : Nat) (inp w o : Tensor α)
    (hi : inp.shape = [(B1 : Int), (B2 : Int), (S : Int), (D1 : Int)])
    (hw : w.shape = [(D1 : Int), (D2 : Int)])
    (ho : o.shape = [(B1 : Int), (B2 : Int), (S : Int), (D2 : Int)])
    (hid : inp.data.length = B1 * B2 * S * D1) (hwd : w.data.length = D1 * D2)
    (hod : o.data.length = B1 * B2 * S * D2) :
    ∃ d, tensor_mul_4d_2d inp w o = some (true, d) ∧
      Filled o.data (projSpec inp.data w.data D1 D2) (B1 * B2 * S * D2) d := by
  simp only [tensor_mul_4d_2d, Tensor.num_dims, Tensor.dim, hi, hw, ho]
  simp only [List.length_cons, List.length_nil, List.getElem?_cons_zero,
    List.getElem?_cons_succ, andThen_some, Option.map_eq_some', Prod.mk.injEq, true_and,
    exists_eq_right, ne_eq, not_true_eq_false, or_self, ite_false, if_false]
  norm_num
  rw [show B1 * B2 * S * D2 = 0 + B1 * (B2 * (S * D2)) by ring]
  refine Filled.level (B2 * (S * D2)) B1 0 _ ?_ o.data (Filled.start _ _)
  intro b1 hb1 s hs
  refine Filled.level (S * D2) B2 (0 + b1 * (B2 * (S * D2))) _ ?_ s hs
  intro b2 hb2 t ht
  refine Filled.level D2 S (0 + b1 * (B2 * (S * D2)) + b2 * (S * D2)) _ ?_ t ht
  intro i hi' u hu
  refine Filled.colLoop D1 D2 (0 + b1 * (B2 * (S * D2)) + b2 * (S * D2) + i * D2)
    inp.data w.data
    (fun k => (((b1 : Int) * (B2 : Int) + (b2 : Int)) * (S : Int) + (i : Int)) * (D1 : Int) + k)
    (fun k j => k * (D2 : Int) + j)
    (fun j => (((b1 : Int) * (B2 : Int) + (b2 : Int)) * (S : Int) + (i : Int)) * (D2 : Int) + j)
    (fun x => x)
    (fun k => elem inp.data (((b1 * B2 + b2) * S + i) * D1 + k))
    (fun k j => elem w.data (k * D2 + j))
    ?_ ?_ ?_ ?_ ?_ u hu
  · intro k hk
    refine readAt_of_lt _ _ _ (by push_cast; ring) ?_
    rw [hid]; exact idx_lt (idx_lt (idx_lt hb1 hb2) hi') hk
  · intro k hk j hj
    exact readAt_of_lt _ _ _ (by push_cast; ring) (by rw [hwd]; exact idx_lt hk hj)
  · intro j _; push_cast; ring
  · intro j hj
    rw [show 0 + b1 * (B2 * (S * D2)) + b2 * (S * D2) + i * D2 + j
      = ((b1 * B2 + b2) * S + i) * D2 + j by ring]
    simp only [projSpec, idx_div hj, idx_mod hj]
  · rw [hod, show 0 + b1 * (B2 * (S * D2)) + b2 * (S * D2) + i * D2 + D2
      = ((b1 * B2 + b2) * S + i) * D2 + D2 by ring]
    exact idx_le D2 (idx_lt (idx_lt hb1 hb2) hi')

theorem mul_4d_transpose_run (B H S D : Nat) (q kk o : Tensor α) (scale : α)
    (hq : q.shape = [(B : Int), (H : Int), (S : Int), (D : Int)])
    (hqd : q.data.length = B * H * S * D) (hkd : kk.data.length = B * H * S * D)
    (hod : o.data.length = B * H * S * S) :
    ∃ d, tensor_mul_4d_transpose q kk scale o = some (true, d) ∧
      Filled o.data (scoreSpec q.data kk.data S D scale) (B * H * S * S) d := by
  simp only [tensor_mul_4d_transpose, Tensor.dim, hq]
  simp only [List.length_cons, List.length_nil, List.getElem?_cons_zero,
    List.getElem?_cons_succ, andThen_some, Option.map_eq_some', Prod.mk.injEq, true_and,
    exists_eq_right]
  rw [show B * H * S * S = 0 + B * (H * (S * S)) by ring]
  refine Filled.level (H * (S * S)) B 0 _ ?_ o.data (Filled.start _ _)
  intro b hb s hs
  refine Filled.level (S * S) H (0 + b * (H * (S * S))) _ ?_ s hs
  intro h hh t ht
  refine Filled.level S S (0 + b * (H * (S * S)) + h * (S * S)) _ ?_ t ht
  intro i hi u hu
  refine Filled.colLoop D S (0 + b * (H * (S * S)) + h * (S * S) + i * S) q.data kk.data
    (fun k => (((b : Int) * (H : Int) + (h : Int)) * (S : Int) + (i : Int)) * (D : Int) + k)
    (fun k j => (((b : Int) * (H : Int) + (h : Int)) * (S : Int) + j) * (D : Int) + k)
    (fun j => (((b : Int) * (H : Int) + (h : Int)) * (S : Int) + (i : Int)) * (S : Int) + j)
    (fun x => x * scale)
    (fun k => elem q.data (((b * H + h) * S + i) * D + k))
    (fun k j => elem kk.data (((b * H + h) * S + j) * D + k))
    ?_ ?_ ?_ ?_ ?_ u hu
  · intro k hk
    refine readAt_of_lt _ _ _ (by push_cast; ring) ?_
    rw [hqd]; exact idx_lt (idx_lt (idx_lt hb hh) hi) hk
  · intro k hk j hj
    refine readAt_of_lt _ _ _ (by push_cast; ring) ?_
    rw [hkd]; exact idx_lt (idx_lt (idx_lt hb hh) hj) hk
  · intro j _; push_cast; ring
  · intro j hj
    rw [show 0 + b * (H * (S * S)) + h * (S * S) + i * S + j
      = ((b * H + h) * S + i) * S + j by ring]
    simp only [scoreSpec, idx_div hj, idx_mod hj, idx_div hi]
  · rw [hod, show 0 + b * (H * (S * S)) + h * (S * S) + i * S + S
      = ((b * H + h) * S + i) * S + S by ring]
    exact idx_le S (idx_lt (idx_lt hb hh) hi)

theorem matmul_2d_reject (l r o : Tensor α) (h : ¬ contract_2d l r o) :
    tensor_matmul_2d l r o = some (false, o.data) := by
  by_cases hl : l.shape.length = 2
  · by_cases hr : r.shape.length = 2
    · obtain ⟨a, b, hl'⟩ := List.length_eq_two.1 hl
      obtain ⟨c, d, hr'⟩ := List.length_eq_two.1 hr
      by_cases ho : o.shape.length = 2
      · obtain ⟨e, f, ho'⟩ := List.length_eq_two.1 ho
        simp [contract_2d, tensor_matmul_2d, num_dims_eq_two, Tensor.dim, hl', hr', ho'] at h ⊢
        exact h
      · simp [tensor_matmul_2d, num_dims_eq_two, Tensor.dim, hl', hr', ho]
    · simp [tensor_matmul_2d, num_dims_eq_two, hr]
  · simp [tensor_matmul_2d, num_dims_eq_two, hl]

theorem matmul_2d_false_unchanged (l r o : Tensor α) (d : List α)
    (h : tensor_matmul_2d l r o = some (false, d)) : d = o.data := by
  by_cases hc : contract_2d l r o
  · obtain ⟨hl, hr, h1, ho, h2, h3⟩ := hc
    obtain ⟨a, b, hl'⟩ := List.length_eq_two.1 hl
    obtain ⟨c, e, hr'⟩ := List.length_eq_two.1 hr
    obtain ⟨f, g, ho'⟩ := List.length_eq_two.1 ho
    simp [Tensor.dim, hl', hr', ho'] at h1 h2 h3
    simp [tensor_matmul_2d, num_dims_eq_two, Tensor.dim, hl', hr', ho', h1, h2, h3] at h
  · rw [matmul_2d_reject l r o hc] at h
    simpa using h.symm

theorem matmul_3d_reject (l r o : Tensor α) (h : ¬ contract_3d l r o) :
    tensor_matmul_3d l r o = some (false, o.data) := by
  by_cases hl : l.shape.length = 3
  · by_cases hr : r.shape.length = 3
    · obtain ⟨a0, a1, a2, hl'⟩ := List.length_eq_three.1 hl
      obtain ⟨c0, c1, c2, hr'⟩ := List.length_eq_three.1 hr
      by_cases ho : o.shape.length = 3
      · obtain ⟨e0, e1, e2, ho'⟩ := List.length_eq_three.1 ho
        simp [contract_3d, tensor_matmul_3d, num_dims_eq_two, num_dims_eq_three, num_dims_eq_four, Tensor.dim, hl', hr', ho'] at h ⊢
        exact h
      · simp [tensor_matmul_3d, num_dims_eq_two, num_dims_eq_three, num_dims_eq_four, Tensor.dim, hl', hr', ho]
    · simp [tensor_matmul_3d, num_dims_eq_two, num_dims_eq_three, num_dims_eq_four, hr]
  · simp [tensor_matmul_3d, num_dims_eq_two, num_dims_eq_three, num_dims_eq_four, hl]

theorem matmul_3d_false_unchanged (l r o : Tensor α) (d : List α)
    (h : tensor_matmul_3d l r o = some (false, d)) : d = o.data := by
  by_cases hc : contract_3d l r o
  · have hc' := hc
    have hl : l.shape.length = 3 := by unfold contract_3d at hc; tauto
    have hr : r.shape.length = 3 := by unfold contract_3d at hc; tauto
    have ho : o.shape.length = 3 := by unfold contract_3d at hc; tauto
    obtain ⟨a0, a1, a2, hl'⟩ := List.length_eq_three.1 hl
    obtain ⟨c0, c1, c2, hr'⟩ := List.length_eq_three.1 hr
    obtain ⟨e0, e1, e2, ho'⟩ := List.length_eq_three.1 ho
    simp [contract_3d, Tensor.dim, hl', hr', ho'] at hc'
    simp [tensor_matmul_3d, num_dims_eq_two, num_dims_eq_three, num_dims_eq_four, Tensor.dim, hl', hr', ho', hc'] at h
  · rw [matmul_3d_reject l r o hc] at h
    simpa using h.symm

theorem matmul_4d_reject (l r o : Tensor α) (h : ¬ contract_4d l r o) :
    tensor_matmul_4d l r o = some (false, o.data) := by
  by_cases hl : l.shape.length = 4
  · by_cases hr : r.shape.length = 4
    · obtain ⟨a0, a1, a2, a3, hl'⟩ := length_eq_four hl
      obtain ⟨c0, c1, c2, c3, hr'⟩ := length_eq_four hr
      by_cases ho : o.shape.length = 4
      · obtain ⟨e0, e1, e2, e3, ho'⟩ := length_eq_four ho
        simp [contract_4d, tensor_matmul_4d, num_dims_eq_two, num_dims_eq_three, num_dims_eq_four, Tensor.dim, hl', hr', ho'] at h ⊢
        exact h
      · simp [tensor_matmul_4d, num_dims_eq_two, num_dims_eq_three, num_dims_eq_four, Tensor.dim, hl', hr', ho]
    · simp [tensor_matmul_4d, num_dims_eq_two, num_dims_eq_three, num_dims_eq_four, hr]
  · simp [tensor_matmul_4d, num_dims_eq_two, num_dims_eq_three, num_dims_eq_four, hl]

theorem matmul_4d_false_unchanged (l r o : Tensor α) (d : List α)
    (h : tensor_matmul_4d l r o = some (false, d)) : d = o.data := by
  by_cases hc : contract_4d l r o
  · have hc' := hc
    have hl : l.shape.length = 4 := by unfold contract_4d at hc; tauto
    have hr : r.shape.length = 4 := by unfold contract_4d at hc; tauto
    have ho : o.shape.length = 4 := by unfold contract_4d at hc; tauto
    obtain ⟨a0, a1, a2, a3, hl'⟩ := length_eq_four hl
    obtain ⟨c0, c1, c2, c3, hr'⟩ := length_eq_four hr
    obtain ⟨e0, e1, e2, e3, ho'⟩ := length_eq_four ho
    simp [contract_4d, Tensor.dim, hl', hr', ho'] at hc'
    simp [tensor_matmul_4d, num_dims_eq_two, num_dims_eq_three, num_dims_eq_four, Tensor.dim, hl', hr', ho', hc'] at h
  · rw [matmul_4d_reject l r o hc] at h
    simpa using h.symm

theorem mul_4d_2d_reject (l r o : Tensor α) (h : ¬ contract_4d_2d l r o) :
    tensor_mul_4d_2d l r o = some (false, o.data) := by
  by_cases hl : l.shape.length = 4
  · by_cases hr : r.shape.length = 2
    · obtain ⟨a0, a1, a2, a3, hl'⟩ := length_eq_four hl
      obtain ⟨c0, c1, hr'⟩ := List.length_eq_two.1 hr
      by_cases ho : o.shape.length = 4
      · obtain ⟨e0, e1, e2, e3, ho'⟩ := length_eq_four ho
        simp [contract_4d_2d, tensor_mul_4d_2d, num_dims_eq_two, num_dims_eq_three, num_dims_eq_four, Tensor.dim, hl', hr', ho'] at h ⊢
        exact h
      · simp [tensor_mul_4d_2d, num_dims_eq_two, num_dims_eq_three, num_dims_eq_four, Tensor.dim, hl', hr', ho]
    · simp [tensor_mul_4d_2d, num_dims_eq_two, num_dims_eq_three, num_dims_eq_four, hr]
  · simp [tensor_mul_4d_2d, num_dims_eq_two, num_dims_eq_three, num_dims_eq_four, hl]

theorem mul_4d_2d_false_unchanged (l r o : Tensor α) (d : List α)
    (h : tensor_mul_4d_2d l r o = some (false, d)) : d = o.data := by
  by_cases hc : contract_4d_2d l r o
  · have hc' := hc
    have hl : l.shape.length = 4 := by unfold contract_4d_2d at hc; tauto
    have hr : r.shape.length = 2 := by unfold contract_4d_2d at hc; tauto
    have ho : o.shape.length = 4 := by unfold contract_4d_2d at hc; tauto
    obtain ⟨a0, a1, a2, a3, hl'⟩ := length_eq_four hl
    obtain ⟨c0, c1, hr'⟩ := List.length_eq_two.1 hr
    obtain ⟨e0, e1, e2, e3, ho'⟩ := length_eq_four ho
    simp [contract_4d_2d, Tensor.dim, hl', hr', ho'] at hc'
    simp [tensor_mul_4d_2d, num_dims_eq_two, num_dims_eq_three, num_dims_eq_four, Tensor.dim, hl', hr', ho', hc'] at h
  · rw [mul_4d_2d_reject l r o hc] at h
    simpa using h.symm

theorem mul_3_2_reject (l r o : Tensor α) (h : ¬ contract_3_2 l r o) :
    tensor_mul_3_2 l r o = some (false, o.data) := by
  by_cases hl : l.shape.length = 3
  · by_cases hr : r.shape.length = 2
    · obtain ⟨a0, a1, a2, hl'⟩ := List.length_eq_three.1 hl
      obtain ⟨c0, c1, hr'⟩ := List.length_eq_two.1 hr
      by_cases ho : o.shape.length = 3
      · obtain ⟨e0, e1, e2, ho'⟩ := List.length_eq_three.1 ho
        simp [contract_3_2, tensor_mul_3_2, num_dims_eq_two, num_dims_eq_three, num_dims_eq_four, Tensor.dim, hl', hr', ho'] at h ⊢
        exact h
      · simp [tensor_mul_3_2, num_dims_eq_two, num_dims_eq_three, num_dims_eq_four, Tensor.dim, hl', hr', ho]
    · simp [tensor_mul_3_2, num_dims_eq_two, num_dims_eq_three, num_dims_eq_four, hr]
  · simp [tensor_mul_3_2, num_dims_eq_two, num_dims_eq_three, num_dims_eq_four, hl]

theorem mul_3_2_false_unchanged (l r o : Tensor α) (d : List α)
    (h : tensor_mul_3_2 l r o = some (false, d)) : d = o.data := by
  by_cases hc : contract_3_2 l r o
  · have hc' := hc
    have hl : l.shape.length = 3 := by unfold contract_3_2 at hc; tauto
    have hr : r.shape.length = 2 := by unfold contract_3_2 at hc; tauto
    have ho : o.shape.length = 3 := by unfold contract_3_2 at hc; tauto
    obtain ⟨a0, a1, a2, hl'⟩ := List.length_eq_three.1 hl
    obtain ⟨c0, c1, hr'⟩ := List.length_eq_two.1 hr
    obtain ⟨e0, e1, e2, ho'⟩ := List.length_eq_three.1 ho
    simp [contract_3_2, Tensor.dim, hl', hr', ho'] at hc'
    simp [tensor_mul_3_2, num_dims_eq_two, num_dims_eq_three, num_dims_eq_four, Tensor.dim, hl', hr', ho', hc'] at h
  · rw [mul_3_2_reject l r o hc] at h
    simpa using h.symm

/-- Inside block `q`, the batched product computes the 2D product of the
two blocks. -/
theorem matSpec_block (ld rd : List α) (M K N q p : Nat) (hp : p < M * N) :
    matSpec ld rd M K N (q * (M * N) + p) =
      projSpec (block ld (q * (M * K)) (M * K)) (block rd (q * (K * N)) (K * N)) K N p := by
  obtain ⟨hi, hj⟩ := div_mod_lt hp
  have hpe : q * (M * N) + p = (q * M + p / N) * N + p % N := by
    have := Nat.div_add_mod' p N
    calc q * (M * N) + p = q * (M * N) + (p / N * N + p % N) := by rw [this]
      _ = (q * M + p / N) * N + p % N := by ring
  rw [hpe]
  simp only [matSpec, projSpec, idx_div hj, idx_mod hj, idx_div hi, idx_mod hi]
  apply sumTo_congr
  intro k hk
  rw [elem_block _ _ _ _ (idx_lt hi hk), elem_block _ _ _ _ (idx_lt hk hj)]
  rw [show q * M * K + p / N * K + k = q * (M * K) + (p / N * K + k) by ring,
    show q * K * N + k * N + p % N = q * (K * N) + (k * N + p % N) by ring]

/-- Block `q` of the output of a batched product is the output of
`tensor_matmul_2d` on block `q` of the operands. -/
theorem block_is_2d (M K N q Q : Nat) (ld rd orig d : List α) (o2 : Tensor α) (hq : q < Q)
    (hld : ld.length = Q * M * K) (hrd : rd.length = Q * K * N)
    (hod : orig.length = Q * M * N)
    (hd : Filled orig (matSpec ld rd M K N) (Q * M * N) d)
    (ho2 : o2.shape = [(M : Int), (N : Int)]) (ho2d : o2.data.length = M * N) :
    tensor_matmul_2d ⟨block ld (q * (M * K)) (M * K), [(M : Int), (K : Int)]⟩
      ⟨block rd (q * (K * N)) (K * N), [(K : Int), (N : Int)]⟩ o2
      = some (true, block d (q * (M * N)) (M * N)) := by
  obtain ⟨d2, h2, hlen2, hget2, _⟩ := matmul_2d_run M K N
    ⟨block ld (q * (M * K)) (M * K), [(M : Int), (K : Int)]⟩
    ⟨block rd (q * (K * N)) (K * N), [(K : Int), (N : Int)]⟩ o2 rfl rfl ho2
    (block_length ld q Q (M * K) hq (by rw [hld, Nat.mul_assoc]))
    (block_length rd q Q (K * N) hq (by rw [hrd, Nat.mul_assoc])) ho2d
  rw [h2]
  congr 2
  apply List.ext_getElem?
  intro p
  have hbl : (block d (q * (M * N)) (M * N)).length = M * N :=
    block_length d q Q (M * N) hq (by rw [hd.1, hod, Nat.mul_assoc])
  rcases Nat.lt_or_ge p (M * N) with hp | hp
  · rw [hget2 p hp, block_getElem? _ _ _ _ hp, hd.2.1 (q * (M * N) + p)]
    · exact congrArg some (matSpec_block ld rd M K N q p hp).symm
    · have := idx_le (M * N) hq
      rw [Nat.mul_assoc]; omega
  · rw [List.getElem?_eq_none (by rw [hlen2, ho2d]; exact hp),
      List.getElem?_eq_none (by rw [hbl]; exact hp)]

end KernelRuns

/-! ## The 2D product -/

section Claims

variable {α : Type} [Zero α] [Add α] [Mul α]

/-- C1: on a left operand of shape `[M,K]`, a right operand of shape `[K,N]`
and an output of shape `[M,N]`, `tensor_matmul_2d` returns true and leaves in
`output[i*N + j]` the sum over `k < K` of `left[i*K + k] * right[k*N + j]`,
for every `i < M` and `j < N`; on `[[1,2,3],[4,5,6]]` and
`[[1,0],[0,1],[1,1]]` the output is `[[4,5],[10,11]]`. -/
theorem tensor_matmul_2d_correct (M K N : Nat) (left right output : Tensor α)
    (hl : left.shape = [(M : Int), (K : Int)]) (hlw : left.wf)
    (hr : right.shape = [(K : Int), (N : Int)]) (hrw : right.wf)
    (ho : output.shape = [(M : Int), (N : Int)]) (how : output.wf) :
    (∃ out, tensor_matmul_2d left right output = some (true, out) ∧
      out.length = M * N ∧
      ∀ i j, i < M → j < N →
        out[i * N + j]? =
          some (sumTo K fun k => elem left.data (i * K + k) * elem right.data (k * N + j))) ∧
    tensor_matmul_2d (⟨[1, 2, 3, 4, 5, 6], [2, 3]⟩ : Tensor Int) ⟨[1, 0, 0, 1, 1, 1], [3, 2]⟩
      ⟨[0, 0, 0, 0], [2, 2]⟩ = some (true, [4, 5, 10, 11]) := by
  refine ⟨?_, by decide⟩
  have hld := wf_length hlw [M, K] (by simp [hl])
  have hrd := wf_length hrw [K, N] (by simp [hr])
  have hod := wf_length how [M, N] (by simp [ho])
  simp only [List.prod_cons, List.prod_nil, Nat.mul_one] at hld hrd hod
  obtain ⟨d, hd, hlen, hget, _⟩ := matmul_2d_run M K N left right output hl hr ho hld hrd hod
  refine ⟨d, hd, by rw [hlen, hod], ?_⟩
  intro i j hi hj
  rw [hget (i * N + j) (idx_lt hi hj)]
  simp only [projSpec, idx_div hj, idx_mod hj]

theorem tensor_matmul_2d_correct_witness :
    (sampleLeft.shape = [((2 : Nat) : Int), ((3 : Nat) : Int)] ∧ sampleLeft.wf ∧
      sampleRight.shape = [((3 : Nat) : Int), ((2 : Nat) : Int)] ∧ sampleRight.wf ∧
      sampleOut.shape = [((2 : Nat) : Int), ((2 : Nat) : Int)] ∧ sampleOut.wf) ∧
    ∃ out, tensor_matmul_2d sampleLeft sampleRight sampleOut = some (true, out) ∧
      out.length = 2 * 2 ∧
      ∀ i j, i < 2 → j < 2 →
        out[i * 2 + j]? =
          some (sumTo 3 fun k => elem sampleLeft.data (i * 3 + k) *
            elem sampleRight.data (k * 2 + j)) :=
  ⟨by decide, (tensor_matmul_2d_correct 2 3 2 sampleLeft sampleRight sampleOut
    (by decide) (by decide) (by decide) (by decide) (by decide) (by decide)).1⟩

/-- C2: on well-formed tensors `tensor_matmul_2d` returns true exactly when
both operands have rank 2, `left.cols == right.rows` and the output has rank 2
and shape `[left.rows, right.cols]`; a `[2,3]` left operand with a `[4,2]`
right operand is rejected for every output. -/
theorem tensor_matmul_2d_true_iff (left right output : Tensor α)
    (hlw : left.wf) (hrw : right.wf) (how : output.wf) :
    ((∃ out, tensor_matmul_2d left right output = some (true, out)) ↔
      contract_2d left right output) ∧
    ∀ l r o : Tensor α, l.shape = [2, 3] → r.shape = [4, 2] →
      tensor_matmul_2d l r o = some (false, o.data) := by
  refine ⟨⟨?_, ?_⟩, ?_⟩
  · rintro ⟨out, hout⟩
    by_contra hc
    rw [matmul_2d_reject left right output hc] at hout
    simp at hout
  · rintro ⟨hl, hr, h1, ho, h2, h3⟩
    obtain ⟨a, b, hl'⟩ := List.length_eq_two.1 hl
    obtain ⟨c, e, hr'⟩ := List.length_eq_two.1 hr
    obtain ⟨f, g, ho'⟩ := List.length_eq_two.1 ho
    simp [Tensor.dim, hl', hr', ho'] at h1 h2 h3
    subst h1 h2 h3
    have ha : 0 ≤ f := hlw.1 f (by simp [hl'])
    have hb : 0 ≤ c := hlw.1 c (by simp [hl'])
    have he : 0 ≤ g := hrw.1 g (by simp [hr'])
    obtain ⟨M, rfl⟩ := Int.eq_ofNat_of_zero_le ha
    obtain ⟨K, rfl⟩ := Int.eq_ofNat_of_zero_le hb
    obtain ⟨N, rfl⟩ := Int.eq_ofNat_of_zero_le he
    have hld := wf_length hlw [M, K] (by simp [hl'])
    have hrd := wf_length hrw [K, N] (by simp [hr'])
    have hod := wf_length how [M, N] (by simp [ho'])
    simp only [List.prod_cons, List.prod_nil, Nat.mul_one] at hld hrd hod
    obtain ⟨d, hd, _⟩ := matmul_2d_run M K N left right output hl' hr' ho' hld hrd hod
    exact ⟨d, hd⟩
  · intro l r o hl hr
    apply matmul_2d_reject
    simp [contract_2d, Tensor.dim, hl, hr]

theorem tensor_matmul_2d_true_iff_witness :
    (sampleLeft.wf ∧ sampleRight.wf ∧ sampleOut.wf) ∧
    ((∃ out, tensor_matmul_2d sampleLeft sampleRight sampleOut = some (true, out)) ↔
      contract_2d sampleLeft sampleRight sampleOut) :=
  ⟨by decide, (tensor_matmul_2d_true_iff sampleLeft sampleRight sampleOut
    (by decide) (by decide) (by decide)).1⟩

/-- C3: each of `tensor_matmul_2d`, `tensor_matmul_3d`, `tensor_matmul_4d`,
`tensor_mul_3_2` and `tensor_mul_4d_2d` returns false whenever the ranks, the
contracted dimension, the batch dimensions or the output shape break its shape
contract, and whenever it returns false the output buffer is identical to the
one the caller supplied. -/
theorem matmul_family_reject_no_write (a b output : Tensor α) :
    ((¬ contract_2d a b output → tensor_matmul_2d a b output = some (false, output.data)) ∧
      ∀ d, tensor_matmul_2d a b output = some (false, d) → d = output.data) ∧
    ((¬ contract_3d a b output → tensor_matmul_3d a b output = some (false, output.data)) ∧
      ∀ d, tensor_matmul_3d a b output = some (false, d) → d = output.data) ∧
    ((¬ contract_4d a b output → tensor_matmul_4d a b output = some (false, output.data)) ∧
      ∀ d, tensor_matmul_4d a b output = some (false, d) → d = output.data) ∧
    ((¬ contract_3_2 a b output → tensor_mul_3_2 a b output = some (false, output.data)) ∧
      ∀ d, tensor_mul_3_2 a b output = some (false, d) → d = output.data) ∧
    ((¬ contract_4d_2d a b output → tensor_mul_4d_2d a b output = some (false, output.data)) ∧
      ∀ d, tensor_mul_4d_2d a b output = some (false, d) → d = output.data) :=
  ⟨⟨matmul_2d_reject a b output, matmul_2d_false_unchanged a b output⟩,
   ⟨matmul_3d_reject a b output, matmul_3d_false_unchanged a b output⟩,
   ⟨matmul_4d_reject a b output, matmul_4d_false_unchanged a b output⟩,
   ⟨mul_3_2_reject a b output, mul_3_2_false_unchanged a b output⟩,
   ⟨mul_4d_2d_reject a b output, mul_4d_2d_false_unchanged a b output⟩⟩

theorem matmul_family_reject_no_write_witness :
    ¬ contract_2d sampleLeft sampleBadRight sampleOut ∧
    tensor_matmul_2d sampleLeft sampleBadRight sampleOut = some (false, sampleOut.data) :=
  ⟨by decide, (matmul_family_reject_no_write sampleLeft sampleBadRight sampleOut).1.1
    (by decide)⟩

/-! ## Batched products -/

/-- C4: on operands `[B,M,K]`, `[B,K,N]` and an output `[B,M,N]`,
`tensor_matmul_3d` returns true and slice `b` of its output (elements
`b*M*N .. (b+1)*M*N`) is the output of `tensor_matmul_2d` on slice `b` of
`left` and slice `b` of `right`, for every `b < B`; on `B` stacked copies of
one pair `(L,R)` every output slice is the output of `tensor_matmul_2d L R`. -/
theorem tensor_matmul_3d_per_batch (B M K N : Nat) (left right output : Tensor α)
    (hl : left.shape = [(B : Int), (M : Int), (K : Int)]) (hlw : left.wf)
    (hr : right.shape = [(B : Int), (K : Int), (N : Int)]) (hrw : right.wf)
    (ho : output.shape = [(B : Int), (M : Int), (N : Int)]) (how : output.wf) :
    ∃ out, tensor_matmul_3d left right output = some (true, out) ∧
      (∀ b, b < B → ∀ o2 : Tensor α, o2.shape = [(M : Int), (N : Int)] → o2.wf →
        tensor_matmul_2d ⟨block left.data (b * (M * K)) (M * K), [(M : Int), (K : Int)]⟩
          ⟨block right.data (b * (K * N)) (K * N), [(K : Int), (N : Int)]⟩ o2
          = some (true, block out (b * (M * N)) (M * N))) ∧
      (∀ L R : Tensor α, L.shape = [(M : Int), (K : Int)] → L.wf →
        R.shape = [(K : Int), (N : Int)] → R.wf →
        left.data = (List.replicate B L.data).flatten →
        right.data = (List.replicate B R.data).flatten →
        ∀ b, b < B → ∀ o2 : Tensor α, o2.shape = [(M : Int), (N : Int)] → o2.wf →
          tensor_matmul_2d L R o2 = some (true, block out (b * (M * N)) (M * N))) := by
  have hld := wf_length hlw [B, M, K] (by simp [hl])
  have hrd := wf_length hrw [B, K, N] (by simp [hr])
  have hod := wf_length how [B, M, N] (by simp [ho])
  simp only [List.prod_cons, List.prod_nil, Nat.mul_one, ← Nat.mul_assoc] at hld hrd hod
  obtain ⟨d, hd, hF⟩ := matmul_3d_run B M K N left right output hl hr ho hld hrd hod
  have key : ∀ b, b < B → ∀ o2 : Tensor α, o2.shape = [(M : Int), (N : Int)] → o2.wf →
      tensor_matmul_2d ⟨block left.data (b * (M * K)) (M * K), [(M : Int), (K : Int)]⟩
        ⟨block right.data (b * (K * N)) (K * N), [(K : Int), (N : Int)]⟩ o2
        = some (true, block d (b * (M * N)) (M * N)) := by
    intro b hb o2 ho2 ho2w
    have ho2d := wf_length ho2w [M, N] (by simp [ho2])
    simp only [List.prod_cons, List.prod_nil, Nat.mul_one] at ho2d
    exact block_is_2d M K N b B left.data right.data output.data d o2 hb hld hrd hod hF ho2
      ho2d
  refine ⟨d, hd, key, ?_⟩
  intro L R hL hLw hR hRw hstackL hstackR b hb o2 ho2 ho2w
  have hLd := wf_length hLw [M, K] (by simp [hL])
  have hRd := wf_length hRw [K, N] (by simp [hR])
  simp only [List.prod_cons, List.prod_nil, Nat.mul_one] at hLd hRd
  have h := key b hb o2 ho2 ho2w
  rw [hstackL, hstackR, block_replicate L.data (M * K) hLd B b hb,
    block_replicate R.data (K * N) hRd B b hb, ← hL, ← hR] at h
  exact h

theorem tensor_matmul_3d_per_batch_witness :
    (sampleLeft3.shape = [((2 : Nat) : Int), ((2 : Nat) : Int), ((3 : Nat) : Int)] ∧
      sampleLeft3.wf ∧
      sampleRight3.shape = [((2 : Nat) : Int), ((3 : Nat) : Int), ((2 : Nat) : Int)] ∧
      sampleRight3.wf ∧
      sampleOut3.shape = [((2 : Nat) : Int), ((2 : Nat) : Int), ((2 : Nat) : Int)] ∧
      sampleOut3.wf) ∧
    ∃ out, tensor_matmul_3d sampleLeft3 sampleRight3 sampleOut3 = some (true, out) ∧
      tensor_matmul_2d sampleLeft sampleRight sampleOut = some (true, block out (1 * (2 * 2)) (2 * 2)) := by
  refine ⟨by decide, ?_⟩
  obtain ⟨out, h1, _, h3⟩ := tensor_matmul_3d_per_batch 2 2 3 2 sampleLeft3 sampleRight3
    sampleOut3 (by decide) (by decide) (by decide) (by decide) (by decide) (by decide)
  exact ⟨out, h1, h3 sampleLeft sampleRight (by decide) (by decide) (by decide) (by decide)
    (by decide) (by decide) 1 (by decide) sampleOut (by decide) (by decide)⟩

/-- C5: on operands `[B1,B2,M,K]`, `[B1,B2,K,N]` and an output
`[B1,B2,M,N]`, `tensor_matmul_4d` returns true and, for every `b1 < B1` and
`b2 < B2`, the output block at flat offset `(b1*B2 + b2)*M*N` is the output of
`tensor_matmul_2d` on the `[M,K]` block of `left` and the `[K,N]` block of
`right` at the same `(b1,b2)`. -/
theorem tensor_matmul_4d_per_batch (B1 B2 M K N : Nat) (left right output : Tensor α)
    (hl : left.shape = [(B1 : Int), (B2 : Int), (M : Int), (K : Int)]) (hlw : left.wf)
    (hr : right.shape = [(B1 : Int), (B2 : Int), (K : Int), (N : Int)]) (hrw : right.wf)
    (ho : output.shape = [(B1 : Int), (B2 : Int), (M : Int), (N : Int)]) (how : output.wf) :
    ∃ out, tensor_matmul_4d left right output = some (true, out) ∧
      ∀ b1 b2, b1 < B1 → b2 < B2 →
        ∀ o2 : Tensor α, o2.shape = [(M : Int), (N : Int)] → o2.wf →
          tensor_matmul_2d
            ⟨block left.data ((b1 * B2 + b2) * (M * K)) (M * K), [(M : Int), (K : Int)]⟩
            ⟨block right.data ((b1 * B2 + b2) * (K * N)) (K * N), [(K : Int), (N : Int)]⟩ o2
            = some (true, block out ((b1 * B2 + b2) * (M * N)) (M * N)) := by
  have hld := wf_length hlw [B1, B2, M, K] (by simp [hl])
  have hrd := wf_length hrw [B1, B2, K, N] (by simp [hr])
  have hod := wf_length how [B1, B2, M, N] (by simp [ho])
  simp only [List.prod_cons, List.prod_nil, Nat.mul_one, ← Nat.mul_assoc] at hld hrd hod
  obtain ⟨d, hd, hF⟩ := matmul_4d_run B1 B2 M K N left right output hl hr ho hld hrd hod
  refine ⟨d, hd, ?_⟩
  intro b1 b2 hb1 hb2 o2 ho2 ho2w
  have ho2d := wf_length ho2w [M, N] (by simp [ho2])
  simp only [List.prod_cons, List.prod_nil, Nat.mul_one] at ho2d
  exact block_is_2d M K N (b1 * B2 + b2) (B1 * B2) left.data right.data output.data d o2
    (idx_lt hb1 hb2) hld hrd hod hF ho2 ho2d

theorem tensor_matmul_4d_per_batch_witness :
    (sampleLeft4.shape =
        [((1 : Nat) : Int), ((2 : Nat) : Int), ((2 : Nat) : Int), ((3 : Nat) : Int)] ∧
      sampleLeft4.wf ∧
      sampleRight4.shape =
        [((1 : Nat) : Int), ((2 : Nat) : Int), ((3 : Nat) : Int), ((2 : Nat) : Int)] ∧
      sampleRight4.wf ∧
      sampleOut4.shape =
        [((1 : Nat) : Int), ((2 : Nat) : Int), ((2 : Nat) : Int), ((2 : Nat) : Int)] ∧
      sampleOut4.wf) ∧
    ∃ out, tensor_matmul_4d sampleLeft4 sampleRight4 sampleOut4 = some (true, out) ∧
      tensor_matmul_2d
        ⟨block sampleLeft4.data ((0 * 2 + 1) * (2 * 3)) (2 * 3),
          [((2 : Nat) : Int), ((3 : Nat) : Int)]⟩
        ⟨block sampleRight4.data ((0 * 2 + 1) * (3 * 2)) (3 * 2),
          [((3 : Nat) : Int), ((2 : Nat) : Int)]⟩ sampleOut
        = some (true, block out ((0 * 2 + 1) * (2 * 2)) (2 * 2)) := by
  refine ⟨by decide, ?_⟩
  obtain ⟨out, h1, h2⟩ := tensor_matmul_4d_per_batch 1 2 2 3 2 sampleLeft4 sampleRight4
    sampleOut4 (by decide) (by decide) (by decide) (by decide) (by decide) (by decide)
  exact ⟨out, h1, h2 0 1 (by decide) (by decide) sampleOut (by decide) (by decide)⟩

/-! ## Attention scores -/

/-- C6: on `Q` and `K` of shape `[B,H,S,D]` and an output of shape
`[B,H,S,S]`, `tensor_mul_4d_transpose` returns true and
`score[b,h,i,j]` is the dot product of `Q[b,h,i,:]` and `K[b,h,j,:]` multiplied
by `scale` (`score * scale` in the code, which is `scale * score` when the
multiplication commutes, as it does on floats); `Q = K = [[[[2]]]]` with
`scale = 1` gives `[[[[4]]]]`. -/
theorem tensor_mul_4d_transpose_correct (B H S D : Nat) (scale : α)
    (input1 input2 output : Tensor α)
    (h1 : input1.shape = [(B : Int), (H : Int), (S : Int), (D : Int)]) (h1w : input1.wf)
    (h2 : input2.shape = [(B : Int), (H : Int), (S : Int), (D : Int)]) (h2w : input2.wf)
    (ho : output.shape = [(B : Int), (H : Int), (S : Int), (S : Int)]) (how : output.wf) :
    (∃ out, tensor_mul_4d_transpose input1 input2 scale output = some (true, out) ∧
      out.length = B * H * S * S ∧
      ∀ b h i j, b < B → h < H → i < S → j < S →
        out[((b * H + h) * S + i) * S + j]? =
            some (rowDot input1.data input2.data H S D b h i j * scale) ∧
          ((∀ x y : α, x * y = y * x) →
            out[((b * H + h) * S + i) * S + j]? =
              some (scale * rowDot input1.data input2.data H S D b h i j))) ∧
    tensor_mul_4d_transpose sampleQ sampleQ 1 sampleScore = some (true, [4]) := by
  refine ⟨?_, by decide⟩
  have h1d := wf_length h1w [B, H, S, D] (by simp [h1])
  have h2d := wf_length h2w [B, H, S, D] (by simp [h2])
  have hod := wf_length how [B, H, S, S] (by simp [ho])
  simp only [List.prod_cons, List.prod_nil, Nat.mul_one, ← Nat.mul_assoc] at h1d h2d hod
  obtain ⟨d, hd, hlen, hget, _⟩ :=
    mul_4d_transpose_run B H S D input1 input2 output scale h1 h1d h2d hod
  refine ⟨d, hd, by rw [hlen, hod], ?_⟩
  intro b h i j hb hh hi hj
  have hval : d[((b * H + h) * S + i) * S + j]? =
      some (rowDot input1.data input2.data H S D b h i j * scale) := by
    rw [hget _ (idx_lt (idx_lt (idx_lt hb hh) hi) hj)]
    simp only [scoreSpec, rowDot, idx_div hj, idx_mod hj, idx_div hi]
  exact ⟨hval, fun hcomm => by rw [hval, hcomm]⟩

theorem tensor_mul_4d_transpose_correct_witness :
    (sampleQ.shape =
        [((1 : Nat) : Int), ((1 : Nat) : Int), ((1 : Nat) : Int), ((1 : Nat) : Int)] ∧
      sampleQ.wf ∧
      sampleScore.shape =
        [((1 : Nat) : Int), ((1 : Nat) : Int), ((1 : Nat) : Int), ((1 : Nat) : Int)] ∧
      sampleScore.wf) ∧
    ∃ out, tensor_mul_4d_transpose sampleQ sampleQ 3 sampleScore = some (true, out) ∧
      out.length = 1 * 1 * 1 * 1 :=
  ⟨by decide,
    let ⟨out, h, hlen, _⟩ := (tensor_mul_4d_transpose_correct 1 1 1 1 (3 : Int) sampleQ sampleQ
      sampleScore (by decide) (by decide) (by decide) (by decide) (by decide) (by decide)).1
    ⟨out, h, hlen⟩⟩

/-- C7: `tensor_mul_4d_transpose` validates nothing. It never returns false;
with an output buffer of rank 1, and with a key tensor whose shape differs from
the query's, it returns true and has written a score into the buffer. -/
theorem tensor_mul_4d_transpose_no_validation :
    (∀ (input1 input2 output : Tensor α) (scale : α) (d : List α),
      tensor_mul_4d_transpose input1 input2 scale output ≠ some (false, d)) ∧
    (sampleRank1.shape ≠ [1, 1, 1, 1] ∧ sampleRank1.data = [0] ∧
      tensor_mul_4d_transpose sampleQ sampleQ 1 sampleRank1 = some (true, [4])) ∧
    (sampleWideK.shape ≠ sampleQ.shape ∧ sampleScore.data = [0] ∧
      tensor_mul_4d_transpose sampleQ sampleWideK 1 sampleScore = some (true, [4])) := by
  refine ⟨?_, by decide, by decide⟩
  intro input1 input2 output scale d
  unfold tensor_mul_4d_transpose
  rcases input1.dim 0 with _ | a <;> rcases input1.dim 1 with _ | b <;>
    rcases input1.dim 2 with _ | c <;> rcases input1.dim 3 with _ | e <;> simp

/-- C8: for `Q`, `K` of shape `[B,H,S,D]` and `Kt` of shape `[B,H,D,S]` with
`Kt[b,h,k,j] = K[b,h,j,k]`, the output of `tensor_mul_4d_transpose Q K scale`
is the output of `tensor_matmul_4d Q Kt` with every element multiplied by
`scale`. -/
theorem tensor_mul_4d_transpose_eq_matmul_4d (B H S D : Nat) (scale : α)
    (q k kt output : Tensor α)
    (hq : q.shape = [(B : Int), (H : Int), (S : Int), (D : Int)]) (hqw : q.wf)
    (hk : k.shape = [(B : Int), (H : Int), (S : Int), (D : Int)]) (hkw : k.wf)
    (hkt : kt.shape = [(B : Int), (H : Int), (D : Int), (S : Int)]) (hktw : kt.wf)
    (htr : ∀ b, b < B → ∀ h, h < H → ∀ kk, kk < D → ∀ j, j < S →
      elem kt.data (((b * H + h) * D + kk) * S + j) =
        elem k.data (((b * H + h) * S + j) * D + kk))
    (ho : output.shape = [(B : Int), (H : Int), (S : Int), (S : Int)]) (how : output.wf) :
    ∃ outT out4, tensor_mul_4d_transpose q k scale output = some (true, outT) ∧
      tensor_matmul_4d q kt output = some (true, out4) ∧
      outT = out4.map (fun x => x * scale) ∧
      ((∀ x y : α, x * y = y * x) → outT = out4.map (fun x => scale * x)) := by
  have hqd := wf_length hqw [B, H, S, D] (by simp [hq])
  have hkd := wf_length hkw [B, H, S, D] (by simp [hk])
  have hktd := wf_length hktw [B, H, D, S] (by simp [hkt])
  have hod := wf_length how [B, H, S, S] (by simp [ho])
  simp only [List.prod_cons, List.prod_nil, Nat.mul_one, ← Nat.mul_assoc] at hqd hkd hktd hod
  obtain ⟨dT, hT, hTlen, hTget, _⟩ :=
    mul_4d_transpose_run B H S D q k output scale hq hqd hkd hod
  obtain ⟨d4, h4, h4len, h4get, _⟩ :=
    matmul_4d_run B H S D S q kt output hq hkt ho hqd hktd hod
  have hmain : dT = d4.map (fun x => x * scale) := by
    apply List.ext_getElem?
    intro p
    rw [List.getElem?_map]
    rcases Nat.lt_or_ge p (B * H * S * S) with hp | hp
    · rw [hTget p hp, h4get p hp]
      obtain ⟨hpS, hj⟩ := div_mod_lt hp
      obtain ⟨hc, hi⟩ := div_mod_lt hpS
      obtain ⟨hb, hh⟩ := div_mod_lt hc
      simp only [Option.map_some', scoreSpec, matSpec]
      congr 2
      apply sumTo_congr
      intro kk hkk
      have e1 : p / S / S * S * D + p / S % S * D + kk = p / S * D + kk := by
        have := Nat.div_add_mod' (p / S) S
        calc p / S / S * S * D + p / S % S * D + kk
            = (p / S / S * S + p / S % S) * D + kk := by ring
          _ = p / S * D + kk := by rw [this]
      have e2 := htr (p / S / S / H) hb (p / S / S % H) hh kk hkk (p % S) hj
      rw [Nat.div_add_mod' (p / S / S) H] at e2
      rw [e1, show p / S / S * D * S + kk * S + p % S = (p / S / S * D + kk) * S + p % S by ring,
        e2]
    · rw [List.getElem?_eq_none (by rw [hTlen, hod]; exact hp),
        List.getElem?_eq_none (by rw [h4len, hod]; exact hp)]
      rfl
  refine ⟨dT, d4, hT, h4, hmain, ?_⟩
  intro hcomm
  rw [hmain]
  exact List.map_congr_left (fun x _ => hcomm x scale)

theorem tensor_mul_4d_transpose_eq_matmul_4d_witness :
    (sampleQ.shape =
        [((1 : Nat) : Int), ((1 : Nat) : Int), ((1 : Nat) : Int), ((1 : Nat) : Int)] ∧
      sampleQ.wf ∧
      (∀ b, b < 1 → ∀ h, h < 1 → ∀ kk, kk < 1 → ∀ j, j < 1 →
        elem sampleQ.data (((b * 1 + h) * 1 + kk) * 1 + j) =
          elem sampleQ.data (((b * 1 + h) * 1 + j) * 1 + kk)) ∧
      sampleScore.shape =
        [((1 : Nat) : Int), ((1 : Nat) : Int), ((1 : Nat) : Int), ((1 : Nat) : Int)] ∧
      sampleScore.wf) ∧
    ∃ outT out4, tensor_mul_4d_transpose sampleQ sampleQ 3 sampleScore = some (true, outT) ∧
      tensor_matmul_4d sampleQ sampleQ sampleScore = some (true, out4) ∧
      outT = out4.map (fun x => x * 3) :=
  ⟨by decide,
    let ⟨outT, out4, h1, h2, h3, _⟩ := tensor_mul_4d_transpose_eq_matmul_4d 1 1 1 1 (3 : Int)
      sampleQ sampleQ sampleQ sampleScore (by decide) (by decide) (by decide) (by decide)
      (by decide) (by decide) (by decide) (by decide) (by decide)
    ⟨outT, out4, h1, h2, h3⟩⟩

/-! ## Projections -/

/-- C9: on an input `[B,S,Din]`, a weight `[Din,Dout]` and an output
`[B,S,Dout]`, `tensor_mul_3_2` returns true and `output[b,i,j]` is the sum over
`k < Din` of `input[b,i,k] * weight[k,j]`, the same weight at every batch and
position; it returns false whenever `weight.rows != input.last_dim`. -/
theorem tensor_mul_3_2_correct (B S Din Dout : Nat) (input weight output : Tensor α)
    (hi : input.shape = [(B : Int), (S : Int), (Din : Int)]) (hiw : input.wf)
    (hw : weight.shape = [(Din : Int), (Dout : Int)]) (hww : weight.wf)
    (ho : output.shape = [(B : Int), (S : Int), (Dout : Int)]) (how : output.wf) :
    (∃ out, tensor_mul_3_2 input weight output = some (true, out) ∧
      out.length = B * S * Dout ∧
      ∀ b i j, b < B → i < S → j < Dout →
        out[b * S * Dout + i * Dout + j]? =
          some (sumTo Din fun k =>
            elem input.data (b * S * Din + i * Din + k) * elem weight.data (k * Dout + j))) ∧
    ∀ inp w o : Tensor α, w.dim 0 ≠ inp.dim 2 →
      tensor_mul_3_2 inp w o = some (false, o.data) := by
  constructor
  · have hid := wf_length hiw [B, S, Din] (by simp [hi])
    have hwd := wf_length hww [Din, Dout] (by simp [hw])
    have hod := wf_length how [B, S, Dout] (by simp [ho])
    simp only [List.prod_cons, List.prod_nil, Nat.mul_one, ← Nat.mul_assoc] at hid hwd hod
    obtain ⟨d, hd, hlen, hget, _⟩ :=
      mul_3_2_run B S Din Dout input weight output hi hw ho hid hwd hod
    refine ⟨d, hd, by rw [hlen, hod], ?_⟩
    intro b i j hb hi' hj
    rw [show b * S * Dout + i * Dout + j = (b * S + i) * Dout + j by ring,
      hget _ (idx_lt (idx_lt hb hi') hj)]
    simp only [projSpec, idx_div hj, idx_mod hj]
    congr 1
    apply sumTo_congr
    intro k _
    rw [show b * S * Din + i * Din + k = (b * S + i) * Din + k by ring]
  · intro inp w o hne
    apply mul_3_2_reject
    unfold contract_3_2
    tauto

theorem tensor_mul_3_2_correct_witness :
    (sampleInput3.shape = [((1 : Nat) : Int), ((2 : Nat) : Int), ((3 : Nat) : Int)] ∧
      sampleInput3.wf ∧
      sampleRight.shape = [((3 : Nat) : Int), ((2 : Nat) : Int)] ∧ sampleRight.wf ∧
      sampleProj3.shape = [((1 : Nat) : Int), ((2 : Nat) : Int), ((2 : Nat) : Int)] ∧
      sampleProj3.wf) ∧
    ∃ out, tensor_mul_3_2 sampleInput3 sampleRight sampleProj3 = some (true, out) ∧
      out.length = 1 * 2 * 2 :=
  ⟨by decide,
    let ⟨out, h, hlen, _⟩ := (tensor_mul_3_2_correct 1 2 3 2 sampleInput3 sampleRight
      sampleProj3 (by decide) (by decide) (by decide) (by decide) (by decide) (by decide)).1
    ⟨out, h, hlen⟩⟩

/-- C10: on an input `[B1,B2,S,D1]`, a weight `[D1,D2]` and an output
`[B1,B2,S,D2]`, `tensor_mul_4d_2d` succeeds and its output buffer is the one
`tensor_matmul_2d` produces on the same input buffer viewed as a
`[B1*B2*S, D1]` matrix, the weight, and the output viewed as `[B1*B2*S, D2]`. -/
theorem tensor_mul_4d_2d_eq_flat_matmul_2d (B1 B2 S D1 D2 : Nat)
    (input weight output : Tensor α)
    (hi : input.shape = [(B1 : Int), (B2 : Int), (S : Int), (D1 : Int)]) (hiw : input.wf)
    (hw : weight.shape = [(D1 : Int), (D2 : Int)]) (hww : weight.wf)
    (ho : output.shape = [(B1 : Int), (B2 : Int), (S : Int), (D2 : Int)]) (how : output.wf) :
    ∃ out, tensor_mul_4d_2d input weight output = some (true, out) ∧
      tensor_matmul_2d ⟨input.data, [((B1 * B2 * S : Nat) : Int), (D1 : Int)]⟩ weight
        ⟨output.data, [((B1 * B2 * S : Nat) : Int), (D2 : Int)]⟩ = some (true, out) := by
  have hid := wf_length hiw [B1, B2, S, D1] (by simp [hi])
  have hwd := wf_length hww [D1, D2] (by simp [hw])
  have hod := wf_length how [B1, B2, S, D2] (by simp [ho])
  simp only [List.prod_cons, List.prod_nil, Nat.mul_one, ← Nat.mul_assoc] at hid hwd hod
  obtain ⟨d, hd, hF⟩ :=
    mul_4d_2d_run B1 B2 S D1 D2 input weight output hi hw ho hid hwd hod
  obtain ⟨d', hd', hF'⟩ := matmul_2d_run (B1 * B2 * S) D1 D2
    ⟨input.data, [((B1 * B2 * S : Nat) : Int), (D1 : Int)]⟩ weight
    ⟨output.data, [((B1 * B2 * S : Nat) : Int), (D2 : Int)]⟩ rfl hw rfl hid hwd hod
  refine ⟨d, hd, ?_⟩
  rw [hd']
  rw [← hod] at hF hF'
  rw [Filled.unique hF' hF]

theorem tensor_mul_4d_2d_eq_flat_matmul_2d_witness :
    (sampleInput4.shape =
        [((1 : Nat) : Int), ((1 : Nat) : Int), ((2 : Nat) : Int), ((3 : Nat) : Int)] ∧
      sampleInput4.wf ∧
      sampleRight.shape = [((3 : Nat) : Int), ((2 : Nat) : Int)] ∧ sampleRight.wf ∧
      sampleProj4.shape =
        [((1 : Nat) : Int), ((1 : Nat) : Int), ((2 : Nat) : Int), ((2 : Nat) : Int)] ∧
      sampleProj4.wf) ∧
    ∃ out, tensor_mul_4d_2d sampleInput4 sampleRight sampleProj4 = some (true, out) ∧
      tensor_matmul_2d ⟨sampleInput4.data, [((1 * 1 * 2 : Nat) : Int), ((3 : Nat) : Int)]⟩
        sampleRight ⟨sampleProj4.data, [((1 * 1 * 2 : Nat) : Int), ((2 : Nat) : Int)]⟩
        = some (true, out) :=
  ⟨by decide, tensor_mul_4d_2d_eq_flat_matmul_2d 1 1 2 3 2 sampleInput4 sampleRight
    sampleProj4 (by decide) (by decide) (by decide) (by decide) (by decide) (by decide)⟩

end Claims

/-! ## Facts on `memcpy` and on loops with `return` -/

section EmbeddingFacts

theorem memcpy_natCast {α : Type} (dst src : List α) (o so n : Nat)
    (hd : o + n ≤ dst.length) (hs : so + n ≤ src.length) :
    memcpy dst (o : Int) src (so : Int) (n : Int) =
      some (dst.take o ++ (src.drop so).take n ++ dst.drop (o + n)) := by
  unfold memcpy
  rw [if_pos (by omega)]
  simp only [Int.toNat_ofNat, ← Nat.cast_add]

theorem copied_getElem? {α : Type} (dst src : List α) (o so n p : Nat)
    (hd : o + n ≤ dst.length) (hs : so + n ≤ src.length) :
    (dst.take o ++ (src.drop so).take n ++ dst.drop (o + n))[p]? =
      if p < o then dst[p]? else if p < o + n then src[so + (p - o)]? else dst[p]? := by
  have h1 : (dst.take o).length = o := by rw [List.length_take]; omega
  have h2 : ((src.drop so).take n).length = n := by
    rw [List.length_take, List.length_drop]; omega
  by_cases hp : p < o
  · rw [if_pos hp, List.append_assoc, List.getElem?_append_left (by omega),
      List.getElem?_take_of_lt hp]
  · rw [if_neg hp, List.append_assoc, List.getElem?_append_right (by omega), h1]
    by_cases hp2 : p < o + n
    · rw [if_pos hp2, List.getElem?_append_left (by omega),
        List.getElem?_take_of_lt (by omega), List.getElem?_drop]
    · rw [if_neg hp2, List.getElem?_append_right (by omega), h2, List.getElem?_drop]
      congr 1
      omega

theorem copied_length {α : Type} (dst src : List α) (o so n : Nat)
    (hd : o + n ≤ dst.length) (hs : so + n ≤ src.length) :
    (dst.take o ++ (src.drop so).take n ++ dst.drop (o + n)).length = dst.length := by
  simp only [List.length_append, List.length_take, List.length_drop]
  omega

/-- A `memcpy` of `n` elements at the frontier of a partially filled buffer. -/
theorem Filled.memcpy {α : Type} {orig : List α} {spec : Nat → α} {c : Nat} {s : List α}
    (hs : Filled orig spec c s) (src : List α) (so n : Nat) (hc : c + n ≤ orig.length)
    (hso : so + n ≤ src.length)
    (hsrc : ∀ x, x < n → src[so + x]? = some (spec (c + x)))
    (io iso inn : Int) (hio : io = (c : Int)) (hiso : iso = (so : Int))
    (hinn : inn = (n : Int)) :
    ∃ s', TransformerC.memcpy s io src iso inn = some s' ∧ Filled orig spec (c + n) s' := by
  obtain ⟨hlen, hlo, hhi⟩ := hs
  subst hio hiso hinn
  have hd : c + n ≤ s.length := by omega
  refine ⟨_, memcpy_natCast s src c so n hd hso, ?_, ?_, ?_⟩
  · rw [copied_length s src c so n hd hso, hlen]
  · intro p hp
    rw [copied_getElem? s src c so n p hd hso]
    by_cases h1 : p < c
    · rw [if_pos h1]; exact hlo p h1
    · rw [if_neg h1, if_pos hp, hsrc (p - c) (by omega)]
      congr 2
      omega
  · intro p hp
    rw [copied_getElem? s src c so n p hd hso, if_neg (by omega), if_neg (by omega)]
    exact hhi p (by omega)

theorem forLoopRetFrom_next {ρ σ : Type} (body : Int → σ → Option (Flow ρ σ))
    (Inv : Nat → σ → Prop) (n : Nat) : ∀ (i : Nat) (s : σ), Inv i s →
      (∀ j, i ≤ j → j < i + n → ∀ t, Inv j t →
        ∃ t', body (j : Int) t = some (Flow.next t') ∧ Inv (j + 1) t') →
      ∃ s', forLoopRetFrom body n (i : Int) s = some (Flow.next s') ∧ Inv (i + n) s' := by
  induction n with
  | zero => intro i s hs _; exact ⟨s, rfl, hs⟩
  | succ n ih =>
    intro i s hs hstep
    obtain ⟨t, ht, hInv⟩ := hstep i (le_refl i) (by omega) s hs
    obtain ⟨s', hs', hInv'⟩ := ih (i + 1) t hInv
      (fun j hj1 hj2 u hu => hstep j (by omega) (by omega) u hu)
    refine ⟨s', ?_, ?_⟩
    · simp only [forLoopRetFrom, ht, andThen_some]
      rw [← hs']; congr 1
    · rw [show i + (n + 1) = i + 1 + n by omega]; exact hInv'

/-- A loop none of whose iterations returns. -/
theorem forLoopRet_next {ρ σ : Type} (body : Int → σ → Option (Flow ρ σ))
    (Inv : Nat → σ → Prop) (n : Nat) (s : σ) (h0 : Inv 0 s)
    (hstep : ∀ j, j < n → ∀ t, Inv j t →
      ∃ t', body (j : Int) t = some (Flow.next t') ∧ Inv (j + 1) t') :
    ∃ s', forLoopRet (n : Int) body s = some (Flow.next s') ∧ Inv n s' := by
  have h := forLoopRetFrom_next body Inv n 0 s h0 (fun j _ hj t ht => hstep j (by omega) t ht)
  simpa [forLoopRet] using h

theorem forLoopRetFrom_ret {ρ σ : Type} (body : Int → σ → Option (Flow ρ σ))
    (Inv : Nat → σ → Prop) (Q : ρ → Prop) (m : Nat) : ∀ (n i : Nat) (s : σ), i ≤ m →
      m < i + n → Inv i s →
      (∀ j, i ≤ j → j < m → ∀ t, Inv j t →
        ∃ t', body (j : Int) t = some (Flow.next t') ∧ Inv (j + 1) t') →
      (∀ t, Inv m t → ∃ r, body (m : Int) t = some (Flow.ret r) ∧ Q r) →
      ∃ r, forLoopRetFrom body n (i : Int) s = some (Flow.ret r) ∧ Q r := by
  intro n
  induction n with
  | zero => intro i s h1 h2; omega
  | succ n ih =>
    intro i s him hmn hs hstep hret
    rcases Nat.lt_or_ge i m with hlt | hge
    · obtain ⟨t, ht, hInv⟩ := hstep i (le_refl i) hlt s hs
      obtain ⟨r, hr, hQ⟩ := ih (i + 1) t (by omega) (by omega) hInv
        (fun j hj1 hj2 u hu => hstep j (by omega) hj2 u hu) hret
      refine ⟨r, ?_, hQ⟩
      simp only [forLoopRetFrom, ht, andThen_some]
      rw [← hr]; congr 1
    · have him' : i = m := by omega
      subst him'
      obtain ⟨r, hr, hQ⟩ := hret s hs
      exact ⟨r, by simp only [forLoopRetFrom, hr, andThen_some], hQ⟩

/-- A loop whose iteration `m` is the first one to return. -/
theorem forLoopRet_ret {ρ σ : Type} (body : Int → σ → Option (Flow ρ σ))
    (Inv : Nat → σ → Prop) (Q : ρ → Prop) (n m : Nat) (hm : m < n) (s : σ) (h0 : Inv 0 s)
    (hstep : ∀ j, j < m → ∀ t, Inv j t →
      ∃ t', body (j : Int) t = some (Flow.next t') ∧ Inv (j + 1) t')
    (hret : ∀ t, Inv m t → ∃ r, body (m : Int) t = some (Flow.ret r) ∧ Q r) :
    ∃ r, forLoopRet (n : Int) body s = some (Flow.ret r) ∧ Q r := by
  have h := forLoopRetFrom_ret body Inv Q m n 0 s (Nat.zero_le m) (by omega) h0
    (fun j _ hj t ht => hstep j hj t ht) hret
  simpa [forLoopRet] using h

end EmbeddingFacts

/-! ## Runs of the embedding lookup -/

section TokenForward

theorem getElem?_elem {α : Type} [Zero α] (buf : List α) (n : Nat) (hn : n < buf.length) :
    buf[n]? = some (elem buf n) := by
  rw [elem, List.getD_eq_getElem?_getD, List.getElem?_eq_getElem hn]
  rfl

/-- The body of the lookup loops at a position whose token is in range: the
row of the token is copied and the loop goes on. -/
theorem token_step_next {α : Type} [Zero α] (ops : FloatOps α) (V : Int) (D q : Nat) (table tokens orig t : List α)
    (hq : q < tokens.length) (hid0 : 0 ≤ tokenId ops tokens q)
    (hidV : tokenId ops tokens q < V) (htab : V * (D : Int) ≤ (table.length : Int))
    (hc : q * D + D ≤ orig.length)
    (ht : Filled orig (lookupSpec ops table tokens D) (q * D) t)
    (iq io : Int) (hiq : iq = (q : Int)) (hio : io = ((q * D : Nat) : Int)) :
    ∃ t', ((readAt tokens iq).andThen fun tk =>
        if ops.toInt tk ≥ V then some (Flow.ret (false, t)) else
        (memcpy t io table (ops.toInt tk * (D : Int)) (D : Int)).andThen
          fun out_data => some (Flow.next out_data)) =
        some (Flow.next t' : Flow (Bool × List α) (List α)) ∧
      Filled orig (lookupSpec ops table tokens D) (q * D + D) t' := by
  subst hiq
  have hread : readAt tokens (q : Int) = some tokens[q] := by
    rw [readAt_natCast, List.getElem?_eq_getElem hq]
  have hid : tokenId ops tokens q = ops.toInt tokens[q] := by
    simp only [tokenId, List.getElem?_eq_getElem hq]
  rw [hread, andThen_some, if_neg (by rw [← hid]; omega)]
  rw [← hid]
  obtain ⟨n, hn⟩ := Int.eq_ofNat_of_zero_le hid0
  have hbound : n * D + D ≤ table.length := by
    have h1 : ((n : Int) + 1) * (D : Int) ≤ V * (D : Int) :=
      mul_le_mul_of_nonneg_right (by omega) (by omega)
    have h2 : (((n * D + D : Nat)) : Int) ≤ (table.length : Int) := by
      push_cast; linarith
    exact_mod_cast h2
  obtain ⟨t', h1, h2⟩ := ht.memcpy table (n * D) D hc hbound
    (fun x hx => by
      rw [getElem?_elem table (n * D + x) (by omega)]
      simp only [lookupSpec, idx_div hx, idx_mod hx, hn, Int.toNat_ofNat])
    io (tokenId ops tokens q * (D : Int)) (D : Int) hio (by rw [hn]; push_cast; rfl) rfl
  exact ⟨t', by rw [h1, andThen_some], h2⟩

/-- The body of the lookup loops at a position whose token id is at least
`vocab_size`: the function returns false with the buffer as it stands. -/
theorem token_step_ret {α : Type} (ops : FloatOps α) (V : Int) (D q : Nat) (table tokens t : List α)
    (hq : q < tokens.length) (hidV : V ≤ tokenId ops tokens q)
    (iq io : Int) (hiq : iq = (q : Int)) :
    ((readAt tokens iq).andThen fun tk =>
        if ops.toInt tk ≥ V then some (Flow.ret (false, t)) else
        (memcpy t io table (ops.toInt tk * (D : Int)) (D : Int)).andThen
          fun out_data => some (Flow.next out_data)) =
        some (Flow.ret (false, t) : Flow (Bool × List α) (List α)) := by
  subst hiq
  have hread : readAt tokens (q : Int) = some tokens[q] := by
    rw [readAt_natCast, List.getElem?_eq_getElem hq]
  have hid : tokenId ops tokens q = ops.toInt tokens[q] := by
    simp only [tokenId, List.getElem?_eq_getElem hq]
  rw [hread, andThen_some, if_pos (by rw [← hid]; omega)]

end TokenForward

section TokenLoops

theorem orTrue_of_next {σ : Type} (loop : Option (Flow (Bool × σ) σ)) (P : σ → Prop)
    (h : ∃ s', loop = some (Flow.next s') ∧ P s') :
    ∃ out, loop.map Flow.orTrue = some (true, out) ∧ P out := by
  obtain ⟨s', h1, h2⟩ := h
  exact ⟨s', by rw [h1]; rfl, h2⟩

theorem orTrue_of_ret {σ : Type} (loop : Option (Flow (Bool × σ) σ)) (Q : Bool × σ → Prop)
    (h : ∃ r, loop = some (Flow.ret r) ∧ Q r) :
    ∃ r, loop.map Flow.orTrue = some r ∧ Q r := by
  obtain ⟨r, h1, h2⟩ := h
  exact ⟨r, by rw [h1]; rfl, h2⟩

/-- A loop with `return` whose every iteration fills the next `w` elements
and goes on. -/
theorem Filled.levelNext {α ρ : Type} {orig : List α} {spec : Nat → α} (w n base : Nat)
    (body : Int → List α → Option (Flow ρ (List α)))
    (hstep : ∀ i, i < n → ∀ s, Filled orig spec (base + i * w) s →
      ∃ s', body (i : Int) s = some (Flow.next s') ∧ Filled orig spec (base + i * w + w) s')
    (s : List α) (hs : Filled orig spec base s) :
    ∃ s', forLoopRet (n : Int) body s = some (Flow.next s') ∧
      Filled orig spec (base + n * w) s' := by
  refine forLoopRet_next body (fun i t => Filled orig spec (base + i * w) t) n s
    (by simpa using hs) ?_
  intro j hj t ht
  obtain ⟨t', h1, h2⟩ := hstep j hj t ht
  refine ⟨t', h1, ?_⟩
  show Filled orig spec (base + (j + 1) * w) t'
  rw [show base + (j + 1) * w = base + j * w + w by ring]; exact h2

/-- A loop with `return` whose iterations before `m` fill `w` elements each
and whose iteration `m` returns. -/
theorem Filled.levelRet {α ρ : Type} {orig : List α} {spec : Nat → α} (w n m base : Nat)
    (hm : m < n) (Q : ρ → Prop) (body : Int → List α → Option (Flow ρ (List α)))
    (hstep : ∀ i, i < m → ∀ s, Filled orig spec (base + i * w) s →
      ∃ s', body (i : Int) s = some (Flow.next s') ∧ Filled orig spec (base + i * w + w) s')
    (hret : ∀ s, Filled orig spec (base + m * w) s →
      ∃ r, body (m : Int) s = some (Flow.ret r) ∧ Q r)
    (s : List α) (hs : Filled orig spec base s) :
    ∃ r, forLoopRet (n : Int) body s = some (Flow.ret r) ∧ Q r := by
  refine forLoopRet_ret body (fun i t => Filled orig spec (base + i * w) t) Q n m hm s
    (by simpa using hs) ?_ hret
  intro j hj t ht
  obtain ⟨t', h1, h2⟩ := hstep j hj t ht
  refine ⟨t', h1, ?_⟩
  show Filled orig spec (base + (j + 1) * w) t'
  rw [show base + (j + 1) * w = base + j * w + w by ring]; exact h2

/-- The lookup on tokens that are all in range: the function returns true
and every output row holds the table row of its token. -/
theorem token_forward_full {α : Type} [Zero α] (ops : FloatOps α)
    (emb : Forward.TokenEmbedding α) (B S D : Nat) (tokens output : Tensor α)
    (ht : tokens.shape = [(B : Int), (S : Int)]) (htd : tokens.data.length = B * S)
    (ho : output.shape = [(B : Int), (S : Int), (D : Int)])
    (hod : output.data.length = B * S * D) (hD : emb.embedding_dim = (D : Int))
    (htab : emb.vocab_size * (D : Int) ≤ (emb.embedding_matrix.data.length : Int))
    (hids : ∀ q, q < B * S →
      0 ≤ tokenId ops tokens.data q ∧ tokenId ops tokens.data q < emb.vocab_size) :
    ∃ out, Forward.token_embedding_forward ops emb tokens output = some (true, out) ∧
      Filled output.data (lookupSpec ops emb.embedding_matrix.data tokens.data D)
        (B * S * D) out := by
  simp only [Forward.token_embedding_forward, Tensor.num_dims, Tensor.dim, ht, ho, hD]
  simp only [List.length_cons, List.length_nil, List.getElem?_cons_zero,
    List.getElem?_cons_succ, andThen_some, ne_eq, not_true_eq_false, ite_false, if_false]
  rw [if_neg (by norm_num), if_neg (by norm_num)]
  refine orTrue_of_next _ _ ?_
  rw [show B * S * D = 0 + B * (S * D) by ring]
  refine Filled.levelNext (S * D) B 0 _ ?_ output.data (Filled.start _ _)
  intro b hb s hs
  refine Filled.levelNext D S (0 + b * (S * D)) _ ?_ s hs
  intro i hi t ht'
  have hq : b * S + i < B * S := idx_lt hb hi
  rw [show 0 + b * (S * D) + i * D = (b * S + i) * D by ring] at ht' ⊢
  exact token_step_next ops emb.vocab_size D (b * S + i) emb.embedding_matrix.data tokens.data
    output.data t (by rw [htd]; exact hq) (hids _ hq).1 (hids _ hq).2 htab
    (by rw [hod]; exact idx_le D hq) ht' _ _ (by push_cast; ring) (by push_cast; ring)

theorem lt_of_lt_div {b p S i : Nat} (hb : b < p / S) (hi : i < S) : b * S + i < p := by
  have h1 := idx_le S hb
  have h2 := Nat.div_add_mod' p S
  omega

/-- The lookup on tokens whose first id at or above `vocab_size` is at flat
position `p`, the ids before it being in range: the function returns false,
the rows before `p` hold the table rows and the rest of the buffer is as
supplied. -/
theorem token_forward_exit {α : Type} [Zero α] (ops : FloatOps α)
    (emb : Forward.TokenEmbedding α) (B S D p : Nat) (tokens output : Tensor α)
    (ht : tokens.shape = [(B : Int), (S : Int)]) (htd : tokens.data.length = B * S)
    (ho : output.shape = [(B : Int), (S : Int), (D : Int)])
    (hod : output.data.length = B * S * D) (hD : emb.embedding_dim = (D : Int))
    (htab : emb.vocab_size * (D : Int) ≤ (emb.embedding_matrix.data.length : Int))
    (hp : p < B * S) (hbad : emb.vocab_size ≤ tokenId ops tokens.data p)
    (hids : ∀ q, q < p →
      0 ≤ tokenId ops tokens.data q ∧ tokenId ops tokens.data q < emb.vocab_size) :
    ∃ r, Forward.token_embedding_forward ops emb tokens output = some r ∧ r.1 = false ∧
      Filled output.data (lookupSpec ops emb.embedding_matrix.data tokens.data D)
        (p * D) r.2 := by
  simp only [Forward.token_embedding_forward, Tensor.num_dims, Tensor.dim, ht, ho, hD]
  simp only [List.length_cons, List.length_nil, List.getElem?_cons_zero,
    List.getElem?_cons_succ, andThen_some, ne_eq, not_true_eq_false, ite_false, if_false]
  rw [if_neg (by norm_num), if_neg (by norm_num)]
  obtain ⟨hb0, hs0⟩ := div_mod_lt hp
  have hpe := Nat.div_add_mod' p S
  refine orTrue_of_ret _ (fun r => r.1 = false ∧
    Filled output.data (lookupSpec ops emb.embedding_matrix.data tokens.data D) (p * D) r.2) ?_
  refine Filled.levelRet (S * D) B (p / S) 0 hb0 _ _ ?_ ?_ output.data
    (Filled.start output.data (lookupSpec ops emb.embedding_matrix.data tokens.data D))
  · intro b hb s hs
    refine Filled.levelNext D S (0 + b * (S * D)) _ ?_ s hs
    intro i hi t ht'
    have hq : b * S + i < B * S := idx_lt (by omega) hi
    have hqp : b * S + i < p := lt_of_lt_div hb hi
    rw [show 0 + b * (S * D) + i * D = (b * S + i) * D by ring] at ht' ⊢
    exact token_step_next ops emb.vocab_size D (b * S + i) emb.embedding_matrix.data
      tokens.data output.data t (by rw [htd]; exact hq) (hids _ hqp).1 (hids _ hqp).2 htab
      (by rw [hod]; exact idx_le D hq) ht' _ _ (by push_cast; ring) (by push_cast; ring)
  · intro s hs
    refine Filled.levelRet D S (p % S) (0 + p / S * (S * D)) hs0 _ _ ?_ ?_ s hs
    · intro i hi t ht'
      have hq : p / S * S + i < B * S := idx_lt hb0 (by omega)
      have hqp : p / S * S + i < p := by omega
      rw [show 0 + p / S * (S * D) + i * D = (p / S * S + i) * D by ring] at ht' ⊢
      exact token_step_next ops emb.vocab_size D (p / S * S + i) emb.embedding_matrix.data
        tokens.data output.data t (by rw [htd]; exact hq) (hids _ hqp).1 (hids _ hqp).2 htab
        (by rw [hod]; exact idx_le D hq) ht' _ _ (by push_cast; ring) (by push_cast; ring)
    · intro t ht'
      rw [show 0 + p / S * (S * D) + p % S * D = (p / S * S + p % S) * D by ring, hpe] at ht'
      refine ⟨(false, t), ?_, rfl, ht'⟩
      exact token_step_ret ops emb.vocab_size D p emb.embedding_matrix.data tokens.data t
        (by rw [htd]; exact hp) hbad _ _ (by exact_mod_cast hpe)

end TokenLoops

section TokenReject

theorem token_forward_reject {α : Type} (ops : FloatOps α) (emb : Forward.TokenEmbedding α)
    (tokens output : Tensor α)
    (h : ¬ Forward.contract_token emb.embedding_dim tokens output) :
    Forward.token_embedding_forward ops emb tokens output = some (false, output.data) := by
  by_cases ht : tokens.shape.length = 2
  · obtain ⟨a, b, ht'⟩ := List.length_eq_two.1 ht
    by_cases ho : output.shape.length = 3
    · obtain ⟨e, f, g, ho'⟩ := List.length_eq_three.1 ho
      simp [Forward.contract_token, Forward.token_embedding_forward, num_dims_eq_two,
        num_dims_eq_three, Tensor.dim, ht', ho'] at h ⊢
      intro h1 h2 h3
      exact absurd h3 (h h1 h2)
    · simp [Forward.token_embedding_forward, num_dims_eq_two, num_dims_eq_three, Tensor.dim,
        ht', ho]
  · simp [Forward.token_embedding_forward, num_dims_eq_two, ht]

theorem token_forward_reject_01 {α : Type}
    (lookup : Tensor α → Tensor α → Tensor α → Int → Int → Int → Option (Bool × List α))
    (emb : Forward.TokenEmbedding α) (tokens output : Tensor α)
    (h : ¬ Forward.contract_token emb.embedding_dim tokens output) :
    ForwardBackward.token_embedding_forward lookup emb tokens output =
      some (false, output.data) := by
  by_cases ht : tokens.shape.length = 2
  · obtain ⟨a, b, ht'⟩ := List.length_eq_two.1 ht
    by_cases ho : output.shape.length = 3
    · obtain ⟨e, f, g, ho'⟩ := List.length_eq_three.1 ho
      simp [Forward.contract_token, ForwardBackward.token_embedding_forward, num_dims_eq_two,
        num_dims_eq_three, Tensor.dim, ht', ho'] at h ⊢
      intro h1 h2 h3
      exact absurd h3 (h h1 h2)
    · simp [ForwardBackward.token_embedding_forward, num_dims_eq_two, num_dims_eq_three,
        Tensor.dim, ht', ho]
  · simp [ForwardBackward.token_embedding_forward, num_dims_eq_two, ht]

end TokenReject

/-! ## Embedding lookup -/

section EmbeddingClaims

/-- C11: for a table of `vocab_size` rows of length `D`, tokens of shape
`[B,S]` whose ids all lie in `[0, vocab_size)` and an output of shape
`[B,S,D]`, `token_embedding_forward` returns true and
`output[b,s,d] = table[id(b,s)*D + d]`; the table `{0:[1,1], 1:[2,2]}` with
tokens `[[0,1]]` gives `[[[1,1],[2,2]]]`. -/
theorem token_embedding_forward_correct {α : Type} [Zero α] (ops : FloatOps α)
    (embedding : Forward.TokenEmbedding α) (B S D : Nat) (tokens output : Tensor α)
    (ht : tokens.shape = [(B : Int), (S : Int)]) (htw : tokens.wf)
    (ho : output.shape = [(B : Int), (S : Int), (D : Int)]) (how : output.wf)
    (hD : embedding.embedding_dim = (D : Int))
    (htab : embedding.vocab_size * (D : Int) ≤ (embedding.embedding_matrix.data.length : Int))
    (hids : ∀ b, b < B → ∀ s, s < S →
      0 ≤ tokenId ops tokens.data (b * S + s) ∧
        tokenId ops tokens.data (b * S + s) < embedding.vocab_size) :
    (∃ out, Forward.token_embedding_forward ops embedding tokens output = some (true, out) ∧
      out.length = B * S * D ∧
      ∀ b s d, b < B → s < S → d < D →
        out[(b * S + s) * D + d]? =
          some (elem embedding.embedding_matrix.data
            ((tokenId ops tokens.data (b * S + s)).toNat * D + d))) ∧
    Forward.token_embedding_forward sampleOps sampleTable sampleTokens sampleEmbOut =
      some (true, [1, 1, 2, 2]) := by
  refine ⟨?_, by decide⟩
  have htd := wf_length htw [B, S] (by simp [ht])
  have hod := wf_length how [B, S, D] (by simp [ho])
  simp only [List.prod_cons, List.prod_nil, Nat.mul_one, ← Nat.mul_assoc] at htd hod
  have hids' : ∀ q, q < B * S →
      0 ≤ tokenId ops tokens.data q ∧ tokenId ops tokens.data q < embedding.vocab_size := by
    intro q hq
    obtain ⟨h1, h2⟩ := div_mod_lt hq
    have := hids (q / S) h1 (q % S) h2
    rwa [Nat.div_add_mod' q S] at this
  obtain ⟨out, hrun, hlen, hget, _⟩ :=
    token_forward_full ops embedding B S D tokens output ht htd ho hod hD htab hids'
  refine ⟨out, hrun, by rw [hlen, hod], ?_⟩
  intro b s d hb hs hd
  rw [hget _ (idx_lt (idx_lt hb hs) hd)]
  simp only [lookupSpec, idx_div hd, idx_mod hd]

theorem token_embedding_forward_correct_witness :
    (sampleTokens.shape = [((1 : Nat) : Int), ((2 : Nat) : Int)] ∧ sampleTokens.wf ∧
      sampleEmbOut.shape = [((1 : Nat) : Int), ((2 : Nat) : Int), ((2 : Nat) : Int)] ∧
      sampleEmbOut.wf ∧ sampleTable.embedding_dim = ((2 : Nat) : Int) ∧
      sampleTable.vocab_size * ((2 : Nat) : Int) ≤
        (sampleTable.embedding_matrix.data.length : Int) ∧
      ∀ b, b < 1 → ∀ s, s < 2 →
        0 ≤ tokenId sampleOps sampleTokens.data (b * 2 + s) ∧
          tokenId sampleOps sampleTokens.data (b * 2 + s) < sampleTable.vocab_size) ∧
    ∃ out, Forward.token_embedding_forward sampleOps sampleTable sampleTokens sampleEmbOut =
        some (true, out) ∧ out.length = 1 * 2 * 2 :=
  ⟨by decide,
    let ⟨out, h, hlen, _⟩ := (token_embedding_forward_correct sampleOps sampleTable 1 2 2
      sampleTokens sampleEmbOut (by decide) (by decide) (by decide) (by decide) (by decide)
      (by decide) (by decide)).1
    ⟨out, h, hlen⟩⟩

/-- C12, as stated, fails: with tokens `[[0,2]]` and a 2-row table the id 2 is
rejected only after row 0 has been copied, so the function returns false with
the buffer `[1,1,7,7]` and not the `[7,7,7,7]` it was given. -/
theorem token_embedding_forward_writes_before_reject :
    sampleTable.vocab_size ≤ tokenId sampleOps sampleTokensBad.data 1 ∧
    Forward.token_embedding_forward sampleOps sampleTable sampleTokensBad sampleEmbOut =
      some (false, [1, 1, 7, 7]) ∧
    Forward.token_embedding_forward sampleOps sampleTable sampleTokensBad sampleEmbOut ≠
      some (false, sampleEmbOut.data) := by
  decide

/-- C12, amended: when the first token id at or above `vocab_size` is at flat
position `p` and every id before it lies in `[0, vocab_size)`,
`token_embedding_forward` returns false; the output elements from index `p*D`
on are identical to their contents before the call and the rows before `p`
hold the copied table rows, so the whole buffer is untouched when the
offending id is the first token. -/
theorem token_embedding_forward_out_of_vocab {α : Type} [Zero α] (ops : FloatOps α)
    (embedding : Forward.TokenEmbedding α) (B S D p : Nat) (tokens output : Tensor α)
    (ht : tokens.shape = [(B : Int), (S : Int)]) (htw : tokens.wf)
    (ho : output.shape = [(B : Int), (S : Int), (D : Int)]) (how : output.wf)
    (hD : embedding.embedding_dim = (D : Int))
    (htab : embedding.vocab_size * (D : Int) ≤ (embedding.embedding_matrix.data.length : Int))
    (hp : p < B * S) (hbad : embedding.vocab_size ≤ tokenId ops tokens.data p)
    (hids : ∀ q, q < p →
      0 ≤ tokenId ops tokens.data q ∧ tokenId ops tokens.data q < embedding.vocab_size) :
    ∃ out, Forward.token_embedding_forward ops embedding tokens output = some (false, out) ∧
      out.length = output.data.length ∧
      (∀ i, p * D ≤ i → out[i]? = output.data[i]?) ∧
      (∀ q d, q < p → d < D →
        out[q * D + d]? =
          some (elem embedding.embedding_matrix.data
            ((tokenId ops tokens.data q).toNat * D + d))) ∧
      (p = 0 → out = output.data) := by
  have htd := wf_length htw [B, S] (by simp [ht])
  have hod := wf_length how [B, S, D] (by simp [ho])
  simp only [List.prod_cons, List.prod_nil, Nat.mul_one, ← Nat.mul_assoc] at htd hod
  obtain ⟨⟨ret, out⟩, hrun, hret, hlen, hlo, hhi⟩ :=
    token_forward_exit ops embedding B S D p tokens output ht htd ho hod hD htab hp hbad hids
  simp only at hret hlen hlo hhi
  subst hret
  refine ⟨out, hrun, hlen, hhi, ?_, ?_⟩
  · intro q d hq hd
    rw [hlo _ (idx_lt hq hd)]
    simp only [lookupSpec, idx_div hd, idx_mod hd]
  · intro hp0
    subst hp0
    exact List.ext_getElem? (fun i => hhi i (by omega))

theorem token_embedding_forward_out_of_vocab_witness :
    (sampleTokensBad.shape = [((1 : Nat) : Int), ((2 : Nat) : Int)] ∧ sampleTokensBad.wf ∧
      sampleEmbOut.shape = [((1 : Nat) : Int), ((2 : Nat) : Int), ((2 : Nat) : Int)] ∧
      sampleEmbOut.wf ∧ sampleTable.embedding_dim = ((2 : Nat) : Int) ∧
      sampleTable.vocab_size * ((2 : Nat) : Int) ≤
        (sampleTable.embedding_matrix.data.length : Int) ∧
      1 < 1 * 2 ∧ sampleTable.vocab_size ≤ tokenId sampleOps sampleTokensBad.data 1 ∧
      ∀ q, q < 1 →
        0 ≤ tokenId sampleOps sampleTokensBad.data q ∧
          tokenId sampleOps sampleTokensBad.data q < sampleTable.vocab_size) ∧
    ∃ out, Forward.token_embedding_forward sampleOps sampleTable sampleTokensBad sampleEmbOut =
        some (false, out) ∧
      ∀ i, 1 * 2 ≤ i → out[i]? = sampleEmbOut.data[i]? :=
  ⟨by decide,
    let ⟨out, h, _, hhi, _⟩ := token_embedding_forward_out_of_vocab sampleOps sampleTable 1 2 2 1
      sampleTokensBad sampleEmbOut (by decide) (by decide) (by decide) (by decide) (by decide)
      (by decide) (by decide) (by decide) (by decide)
    ⟨out, h, hhi⟩⟩

/-- C13: `token_embedding_forward` does not reject a negative token id: the
only test is `token >= vocab_size`, so on the tokens `[[-1]]` the run goes on to
copy from the table at offset `-2`, an access outside the table, instead of
returning false. -/
theorem token_embedding_forward_negative_id :
    tokenId sampleOps sampleTokensNeg.data 0 = -1 ∧
    Forward.contract_token sampleTable.embedding_dim sampleTokensNeg sampleEmbOut1 ∧
    Forward.token_embedding_forward sampleOps sampleTable sampleTokensNeg sampleEmbOut1 = none ∧
    memcpy sampleEmbOut1.data 0 sampleTable.embedding_matrix.data (-1 * 2) 2 = none := by
  decide

/-- C14: both `token_embedding_forward` implementations validate before
writing: if tokens is not of rank 2 or the output is not of rank 3 and shape
`[tokens.dim0, tokens.dim1, embedding_dim]`, they return false with the output
buffer as supplied, and the `01token_embedding` variant does so whatever
`perform_embedding_lookup` is, that is, without calling it. -/
theorem token_embedding_forward_validates {α : Type} (ops : FloatOps α)
    (embedding : Forward.TokenEmbedding α) (tokens output : Tensor α)
    (h : ¬ Forward.contract_token embedding.embedding_dim tokens output) :
    Forward.token_embedding_forward ops embedding tokens output = some (false, output.data) ∧
    ∀ perform_embedding_lookup :
      Tensor α → Tensor α → Tensor α → Int → Int → Int → Option (Bool × List α),
      ForwardBackward.token_embedding_forward perform_embedding_lookup embedding tokens output =
        some (false, output.data) :=
  ⟨token_forward_reject ops embedding tokens output h,
    fun lookup => token_forward_reject_01 lookup embedding tokens output h⟩

theorem token_embedding_forward_validates_witness :
    ¬ Forward.contract_token sampleTable.embedding_dim sampleTokens sampleEmbOut1 ∧
    Forward.token_embedding_forward sampleOps sampleTable sampleTokens sampleEmbOut1 =
      some (false, sampleEmbOut1.data) ∧
    ForwardBackward.token_embedding_forward (fun _ _ _ _ _ _ => none) sampleTable sampleTokens
      sampleEmbOut1 = some (false, sampleEmbOut1.data) :=
  ⟨by decide,
    (token_embedding_forward_validates sampleOps sampleTable sampleTokens sampleEmbOut1
      (by decide)).1,
    (token_embedding_forward_validates sampleOps sampleTable sampleTokens sampleEmbOut1
      (by decide)).2 _⟩

end EmbeddingClaims

/-! ## Construction of the positional encoding -/

section PositionalCreate

theorem forLoopFromBy2_inv {σ : Type} (body : Int → σ → Option σ) (Inv : Nat → σ → Prop)
    (n : Nat) : ∀ (j : Nat) (s : σ), Inv j s →
      (∀ k, j ≤ k → k < j + n → ∀ t, Inv k t →
        ∃ t', body ((2 * k : Nat) : Int) t = some t' ∧ Inv (k + 1) t') →
      ∃ s', forLoopFromBy 2 body n ((2 * j : Nat) : Int) s = some s' ∧ Inv (j + n) s' := by
  induction n with
  | zero => intro j s hs _; exact ⟨s, rfl, hs⟩
  | succ n ih =>
    intro j s hs hstep
    obtain ⟨t, ht, hInv⟩ := hstep j (le_refl j) (by omega) s hs
    obtain ⟨s', hs', hInv'⟩ := ih (j + 1) t hInv
      (fun k hk1 hk2 u hu => hstep k (by omega) (by omega) u hu)
    refine ⟨s', ?_, ?_⟩
    · simp only [forLoopFromBy, ht, andThen_some]
      rw [← hs']; congr 1
    · rw [show j + (n + 1) = j + 1 + n by omega]; exact hInv'

/-- The loop `for (i = 0; i < D; i += 2)` with an invariant on the number of
iterations done. -/
theorem forLoopBy2_inv {σ : Type} (body : Int → σ → Option σ) (Inv : Nat → σ → Prop)
    (D : Nat) (s : σ) (h0 : Inv 0 s)
    (hstep : ∀ j, 2 * j < D → ∀ t, Inv j t →
      ∃ t', body ((2 * j : Nat) : Int) t = some t' ∧ Inv (j + 1) t') :
    ∃ s', forLoopBy2 (D : Int) body s = some s' ∧ Inv ((D + 1) / 2) s' := by
  have hn : (((D : Int) + 1) / 2).toNat = (D + 1) / 2 := by omega
  have h := forLoopFromBy2_inv body Inv ((D + 1) / 2) 0 s h0
    (fun k _ hk t ht => hstep k (by omega) t ht)
  simpa [forLoopBy2, hn] using h

/-- The loop over one row of the table: a sine at every even index and a
cosine at the odd index after it, when there is one. -/
theorem Filled.byTwo {α : Type} {orig : List α} {spec : Nat → α} (D base : Nat)
    (ix1 ix2 : Int → Int) (sv cv : Int → α)
    (h1 : ∀ i : Nat, i < D → ix1 (i : Int) = ((base + i : Nat) : Int))
    (h2 : ∀ i : Nat, i + 1 < D → ix2 (i : Int) = ((base + i + 1 : Nat) : Int))
    (hsv : ∀ j, 2 * j < D → sv ((2 * j : Nat) : Int) = spec (base + 2 * j))
    (hcv : ∀ j, 2 * j + 1 < D → cv ((2 * j : Nat) : Int) = spec (base + 2 * j + 1))
    (hc : base + D ≤ orig.length) (s : List α) (hs : Filled orig spec base s) :
    ∃ s', forLoopBy2 (D : Int) (fun i data =>
        (writeAt data (ix1 i) (sv i)).andThen fun data =>
        if i + 1 < (D : Int) then writeAt data (ix2 i) (cv i) else some data) s = some s' ∧
      Filled orig spec (base + D) s' := by
  have hstep : ∀ j, 2 * j < D → ∀ t, Filled orig spec (base + min (2 * j) D) t →
      ∃ t', (fun i data =>
        (writeAt data (ix1 i) (sv i)).andThen fun data =>
        if i + 1 < (D : Int) then writeAt data (ix2 i) (cv i) else some data)
          ((2 * j : Nat) : Int) t = some t' ∧
        Filled orig spec (base + min (2 * (j + 1)) D) t' := by
    intro j hj t ht
    have hm : min (2 * j) D = 2 * j := by omega
    simp only [hm] at ht
    obtain ⟨t1, hw1, hF1⟩ := ht.write (by omega) (ix1 ((2 * j : Nat) : Int))
      (sv ((2 * j : Nat) : Int)) (h1 (2 * j) hj) (hsv j hj)
    simp only [hw1, andThen_some]
    by_cases hodd : 2 * j + 1 < D
    · rw [if_pos (by push_cast; omega)]
      obtain ⟨t2, hw2, hF2⟩ := hF1.write (by omega) (ix2 ((2 * j : Nat) : Int))
        (cv ((2 * j : Nat) : Int)) (h2 (2 * j) hodd) (hcv j hodd)
      refine ⟨t2, hw2, ?_⟩
      have hm2 : min (2 * (j + 1)) D = 2 * j + 1 + 1 := by omega
      simp only [hm2]
      rw [show base + (2 * j + 1 + 1) = base + 2 * j + 1 + 1 by omega]
      exact hF2
    · rw [if_neg (by push_cast; omega)]
      refine ⟨t1, rfl, ?_⟩
      have hm2 : min (2 * (j + 1)) D = 2 * j + 1 := by omega
      simp only [hm2]
      rw [show base + (2 * j + 1) = base + 2 * j + 1 by omega]
      exact hF1
  obtain ⟨s', hrun, hInv⟩ := forLoopBy2_inv
    (fun i data =>
        (writeAt data (ix1 i) (sv i)).andThen fun data =>
        if i + 1 < (D : Int) then writeAt data (ix2 i) (cv i) else some data)
    (fun j t => Filled orig spec (base + min (2 * j) D) t) D s (by simpa using hs) hstep
  refine ⟨s', hrun, ?_⟩
  have : min (2 * ((D + 1) / 2)) D = D := by omega
  simpa [this] using hInv

theorem peEntry_even {α : Type} (ops : FloatOps α) (D pos j : Nat) :
    peEntry ops D pos (2 * j) = ops.sinf (peAngle ops D pos (2 * j)) := by
  simp [peEntry]

theorem peEntry_odd {α : Type} (ops : FloatOps α) (D pos j : Nat) :
    peEntry ops D pos (2 * j + 1) = ops.cosf (peAngle ops D pos (2 * j)) := by
  have h : (2 * j + 1) % 2 ≠ 0 := by omega
  simp [peEntry, h]

/-- The tensor variant fills every batch slice of the allocated tensor. -/
theorem pe_create_run {α : Type} (ops : FloatOps α) (B M D : Nat)
    (tensor_create : List Int → Int → Option (Tensor α)) (t : Tensor α)
    (halloc : tensor_create [(B : Int), (M : Int), (D : Int)] 3 = some t)
    (htd : t.data.length = B * M * D) :
    ∃ data, Forward.positional_encoding_create ops (B : Int) tensor_create (M : Int) (D : Int)
        = some (some ⟨(M : Int), (D : Int), ⟨data, t.shape⟩⟩) ∧
      Filled t.data (peSpec ops M D) (B * M * D) data := by
  have hloops : ∃ data, forLoop (B : Int) (fun batch data =>
      forLoop (M : Int) (fun pos data =>
        forLoopBy2 (D : Int) (fun i data =>
          let angle := ops.div (ops.ofInt pos)
            (ops.powf (ops.ofInt 10000) (ops.div (ops.ofInt i) (ops.ofInt (D : Int))))
          let idx := (batch * (M : Int) * (D : Int)) + (pos * (D : Int)) + i
          (writeAt data idx (ops.sinf angle)).andThen fun data =>
          if i + 1 < (D : Int) then writeAt data (idx + 1) (ops.cosf angle)
          else some data) data) data) t.data = some data ∧
      Filled t.data (peSpec ops M D) (B * M * D) data := by
    rw [show B * M * D = 0 + B * (M * D) by ring]
    refine Filled.level (M * D) B 0 _ ?_ t.data (Filled.start _ _)
    intro b hb s hs
    refine Filled.level D M (0 + b * (M * D)) _ ?_ s hs
    intro pos hpos u hu
    have hspec : ∀ i, i < D →
        peSpec ops M D (0 + b * (M * D) + pos * D + i) = peEntry ops D pos i := by
      intro i hi
      rw [show 0 + b * (M * D) + pos * D + i = (b * M + pos) * D + i by ring]
      simp only [peSpec, idx_div hi, idx_mod hi, idx_mod hpos]
    refine Filled.byTwo D (0 + b * (M * D) + pos * D)
      (fun i => ((b : Int) * (M : Int) * (D : Int)) + ((pos : Int) * (D : Int)) + i)
      (fun i => ((b : Int) * (M : Int) * (D : Int)) + ((pos : Int) * (D : Int)) + i + 1)
      (fun i => ops.sinf (ops.div (ops.ofInt (pos : Int))
        (ops.powf (ops.ofInt 10000) (ops.div (ops.ofInt i) (ops.ofInt (D : Int))))))
      (fun i => ops.cosf (ops.div (ops.ofInt (pos : Int))
        (ops.powf (ops.ofInt 10000) (ops.div (ops.ofInt i) (ops.ofInt (D : Int))))))
      ?_ ?_ ?_ ?_ ?_ u hu
    · intro i _; push_cast; ring
    · intro i _; push_cast; ring
    · intro j hj
      rw [hspec _ hj, peEntry_even]; rfl
    · intro j hj
      rw [show 0 + b * (M * D) + pos * D + 2 * j + 1 = 0 + b * (M * D) + pos * D + (2 * j + 1)
        by ring, hspec _ hj, peEntry_odd]; rfl
    · rw [htd, show 0 + b * (M * D) + pos * D + D = (b * M + pos) * D + D by ring]
      exact idx_le D (idx_lt hb hpos)
  obtain ⟨data, hrun, hF⟩ := hloops
  refine ⟨data, ?_, hF⟩
  simp only [Forward.positional_encoding_create, halloc]
  rw [hrun]; rfl

/-- The float-array variant fills the allocated table. -/
theorem pe_create_array_run {α : Type} (ops : FloatOps α) (M D : Nat)
    (malloc : Int → Option (List α)) (buf : List α)
    (halloc : malloc ((M : Int) * (D : Int)) = some buf) (hbuf : buf.length = M * D) :
    ∃ data, FloatArray.positional_encoding_create ops malloc (M : Int) (D : Int)
        = some (some ⟨(M : Int), (D : Int), data⟩) ∧
      Filled buf (peSpec ops M D) (M * D) data := by
  have hloops : ∃ data, forLoop (M : Int) (fun pos data =>
      forLoopBy2 (D : Int) (fun i data =>
        let angle := ops.div (ops.ofInt pos)
          (ops.powf (ops.ofInt 10000) (ops.div (ops.ofInt i) (ops.ofInt (D : Int))))
        (writeAt data (pos * (D : Int) + i) (ops.sinf angle)).andThen fun data =>
        if i + 1 < (D : Int) then writeAt data (pos * (D : Int) + i + 1) (ops.cosf angle)
        else some data) data) buf = some data ∧
      Filled buf (peSpec ops M D) (M * D) data := by
    rw [show M * D = 0 + M * D by ring]
    refine Filled.level D M 0 _ ?_ buf (Filled.start _ _)
    intro pos hpos u hu
    have hspec : ∀ i, i < D → peSpec ops M D (0 + pos * D + i) = peEntry ops D pos i := by
      intro i hi
      rw [Nat.zero_add]
      simp only [peSpec, idx_div hi, idx_mod hi, Nat.mod_eq_of_lt hpos]
    refine Filled.byTwo D (0 + pos * D)
      (fun i => (pos : Int) * (D : Int) + i) (fun i => (pos : Int) * (D : Int) + i + 1)
      (fun i => ops.sinf (ops.div (ops.ofInt (pos : Int))
        (ops.powf (ops.ofInt 10000) (ops.div (ops.ofInt i) (ops.ofInt (D : Int))))))
      (fun i => ops.cosf (ops.div (ops.ofInt (pos : Int))
        (ops.powf (ops.ofInt 10000) (ops.div (ops.ofInt i) (ops.ofInt (D : Int))))))
      ?_ ?_ ?_ ?_ ?_ u hu
    · intro i _; push_cast; ring
    · intro i _; push_cast; ring
    · intro j hj
      rw [hspec _ hj, peEntry_even]; rfl
    · intro j hj
      rw [show 0 + pos * D + 2 * j + 1 = 0 + pos * D + (2 * j + 1) by ring, hspec _ hj,
        peEntry_odd]; rfl
    · rw [hbuf, Nat.zero_add]
      exact idx_le D hpos
  obtain ⟨data, hrun, hF⟩ := hloops
  refine ⟨data, ?_, hF⟩
  simp only [FloatArray.positional_encoding_create, halloc]
  rw [hrun]; rfl

end PositionalCreate

/-! ## Positional encoding table -/

section PositionalCreateClaims

/-- C15: `positional_encoding_create` fills every entry of the table, in the
tensor variant of every batch slice: for all `pos < max_seq_length` and
`i < D`, `encoding[pos,i]` is `sin(pos / 10000^(i/D))` when `i` is even and
`cos(pos / 10000^((i-1)/D))` when `i` is odd, for `D` even or odd, whatever
functions stand for `sinf`, `cosf`, `powf` and the division, the real ones
included. -/
theorem positional_encoding_create_table {α : Type} (ops : FloatOps α) (B M D : Nat)
    (tensor_create : List Int → Int → Option (Tensor α)) (t : Tensor α)
    (halloc : tensor_create [(B : Int), (M : Int), (D : Int)] 3 = some t)
    (hts : t.shape = [(B : Int), (M : Int), (D : Int)]) (htw : t.wf)
    (malloc : Int → Option (List α)) (buf : List α)
    (hmalloc : malloc ((M : Int) * (D : Int)) = some buf) (hbuf : buf.length = M * D) :
    (∃ pe, Forward.positional_encoding_create ops (B : Int) tensor_create (M : Int) (D : Int)
        = some (some pe) ∧
      pe.max_seq_length = (M : Int) ∧ pe.encoding_dim = (D : Int) ∧
      pe.encodings.shape = [(B : Int), (M : Int), (D : Int)] ∧
      pe.encodings.data.length = B * M * D ∧
      ∀ b pos i, b < B → pos < M → i < D →
        pe.encodings.data[b * M * D + pos * D + i]? = some (peEntry ops D pos i)) ∧
    (∃ pe, FloatArray.positional_encoding_create ops malloc (M : Int) (D : Int)
        = some (some pe) ∧
      pe.max_seq_length = (M : Int) ∧ pe.encoding_dim = (D : Int) ∧
      pe.encodings.length = M * D ∧
      ∀ pos i, pos < M → i < D → pe.encodings[pos * D + i]? = some (peEntry ops D pos i)) := by
  have htd := wf_length htw [B, M, D] (by simp [hts])
  simp only [List.prod_cons, List.prod_nil, Nat.mul_one, ← Nat.mul_assoc] at htd
  obtain ⟨data, hrun, hlen, hget, _⟩ := pe_create_run ops B M D tensor_create t halloc htd
  obtain ⟨data', hrun', hlen', hget', _⟩ := pe_create_array_run ops M D malloc buf hmalloc hbuf
  refine ⟨⟨_, hrun, rfl, rfl, hts, by rw [hlen, htd], ?_⟩, ⟨_, hrun', rfl, rfl,
    by rw [hlen', hbuf], ?_⟩⟩
  · intro b pos i hb hpos hi
    show data[b * M * D + pos * D + i]? = _
    rw [show b * M * D + pos * D + i = (b * M + pos) * D + i by ring,
      hget _ (idx_lt (idx_lt hb hpos) hi)]
    simp only [peSpec, idx_div hi, idx_mod hi, idx_mod hpos]
  · intro pos i hpos hi
    show data'[pos * D + i]? = _
    rw [hget' _ (idx_lt hpos hi)]
    simp only [peSpec, idx_div hi, idx_mod hi, Nat.mod_eq_of_lt hpos]

theorem positional_encoding_create_table_witness :
    ((fun (shape : List Int) (_ : Int) => some (⟨List.replicate 6 7, shape⟩ : Tensor Int))
        [((1 : Nat) : Int), ((2 : Nat) : Int), ((3 : Nat) : Int)] 3
        = some ⟨List.replicate 6 7, [1, 2, 3]⟩ ∧
      (⟨List.replicate 6 7, [1, 2, 3]⟩ : Tensor Int).shape =
        [((1 : Nat) : Int), ((2 : Nat) : Int), ((3 : Nat) : Int)] ∧
      (⟨List.replicate 6 7, [1, 2, 3]⟩ : Tensor Int).wf ∧
      (fun (n : Int) => some (List.replicate n.toNat (7 : Int)))
        (((2 : Nat) : Int) * ((3 : Nat) : Int)) = some (List.replicate 6 7) ∧
      (List.replicate 6 (7 : Int)).length = 2 * 3) ∧
    ∃ pe, FloatArray.positional_encoding_create sampleOps
        (fun n => some (List.replicate n.toNat 7)) ((2 : Nat) : Int) ((3 : Nat) : Int)
        = some (some pe) ∧
      ∀ pos i, pos < 2 → i < 3 → pe.encodings[pos * 3 + i]? = some (peEntry sampleOps 3 pos i) :=
  ⟨by decide,
    let ⟨pe, h, _, _, _, hget⟩ := (positional_encoding_create_table sampleOps 1 2 3
      (fun shape _ => some ⟨List.replicate 6 7, shape⟩) ⟨List.replicate 6 7, [1, 2, 3]⟩
      (by decide) (by decide) (by decide) (fun n => some (List.replicate n.toNat 7))
      (List.replicate 6 7) (by decide) (by decide)).2
    ⟨pe, h, hget⟩⟩

/-- C16: when `0 / 10000^(i/D)` is `0`, `sinf 0 = 0` and `cosf 0 = 1`, as for
the real functions, row `pos = 0` of the table built by
`positional_encoding_create` is `[0,1,0,1,...]`: entry `i` is `0` for every
even `i < D` and `1` for every odd `i < D`, in every batch slice. -/
theorem positional_encoding_create_row_zero {α : Type} [Zero α] [One α] (ops : FloatOps α)
    (B M D : Nat) (hM : 1 ≤ M)
    (h0 : ∀ i, i < D →
      ops.div (ops.ofInt 0)
        (ops.powf (ops.ofInt 10000) (ops.div (ops.ofInt (i : Int)) (ops.ofInt (D : Int))))
        = ops.ofInt 0)
    (hsin : ops.sinf (ops.ofInt 0) = 0) (hcos : ops.cosf (ops.ofInt 0) = 1)
    (tensor_create : List Int → Int → Option (Tensor α)) (t : Tensor α)
    (halloc : tensor_create [(B : Int), (M : Int), (D : Int)] 3 = some t)
    (hts : t.shape = [(B : Int), (M : Int), (D : Int)]) (htw : t.wf)
    (malloc : Int → Option (List α)) (buf : List α)
    (hmalloc : malloc ((M : Int) * (D : Int)) = some buf) (hbuf : buf.length = M * D) :
    (∃ pe, Forward.positional_encoding_create ops (B : Int) tensor_create (M : Int) (D : Int)
        = some (some pe) ∧
      ∀ b i, b < B → i < D →
        pe.encodings.data[b * M * D + i]? = some (if i % 2 = 0 then 0 else 1)) ∧
    (∃ pe, FloatArray.positional_encoding_create ops malloc (M : Int) (D : Int)
        = some (some pe) ∧
      ∀ i, i < D → pe.encodings[i]? = some (if i % 2 = 0 then 0 else 1)) := by
  have htd := wf_length htw [B, M, D] (by simp [hts])
  simp only [List.prod_cons, List.prod_nil, Nat.mul_one, ← Nat.mul_assoc] at htd
  obtain ⟨data, hrun, hlen, hget, _⟩ := pe_create_run ops B M D tensor_create t halloc htd
  obtain ⟨data', hrun', hlen', hget', _⟩ := pe_create_array_run ops M D malloc buf hmalloc hbuf
  have hentry : ∀ i, i < D → peEntry ops D 0 i = if i % 2 = 0 then 0 else 1 := by
    intro i hi
    have ha : ∀ k, k < D → peAngle ops D 0 k = ops.ofInt 0 := by
      intro k hk
      simp only [peAngle, Nat.cast_zero]
      exact h0 k hk
    unfold peEntry
    by_cases he : i % 2 = 0
    · rw [if_pos he, if_pos he, ha i hi, hsin]
    · rw [if_neg he, if_neg he, ha (i - 1) (by omega), hcos]
  refine ⟨⟨_, hrun, ?_⟩, ⟨_, hrun', ?_⟩⟩
  · intro b i hb hi
    show data[b * M * D + i]? = _
    rw [show b * M * D + i = (b * M + 0) * D + i by ring,
      hget _ (idx_lt (idx_lt hb hM) hi)]
    simp only [peSpec, idx_div hi, idx_mod hi, idx_mod (show 0 < M from hM)]
    exact congrArg some (hentry i hi)
  · intro i hi
    show data'[i]? = _
    have hiM : i < M * D := by
      have := idx_lt (show 0 < M from hM) hi
      omega
    rw [hget' i hiM]
    simp only [peSpec, Nat.div_eq_of_lt hi, Nat.mod_eq_of_lt hi, Nat.zero_mod]
    exact congrArg some (hentry i hi)

theorem positional_encoding_create_row_zero_witness :
    ∃ ops : FloatOps ℝ,
      ops.ofInt = (fun (n : Int) => (n : ℝ)) ∧ ops.div = (fun a b => a / b) ∧
      ops.powf = (fun a b => a ^ b) ∧ ops.sinf = Real.sin ∧ ops.cosf = Real.cos ∧
      (1 ≤ 2 ∧
        (∀ i : Nat, i < 3 →
          ops.div (ops.ofInt 0)
            (ops.powf (ops.ofInt 10000) (ops.div (ops.ofInt (i : Int)) (ops.ofInt ((3 : Nat) : Int))))
            = ops.ofInt 0) ∧
        ops.sinf (ops.ofInt 0) = 0 ∧ ops.cosf (ops.ofInt 0) = 1) ∧
      ∃ pe, FloatArray.positional_encoding_create ops
          (fun n => some (List.replicate n.toNat 0)) ((2 : Nat) : Int) ((3 : Nat) : Int)
          = some (some pe) ∧
        ∀ i, i < 3 → pe.encodings[i]? = some (if i % 2 = 0 then 0 else 1) :=
  ⟨⟨fun x => ⌊x⌋, fun (n : Int) => (n : ℝ), fun a b => a / b, fun a b => a ^ b, Real.sin, Real.cos⟩,
    rfl, rfl, rfl, rfl, rfl,
    ⟨by decide, by intro i _; simp, by simp, by simp⟩,
    (positional_encoding_create_row_zero
      ⟨fun x => ⌊x⌋, fun (n : Int) => (n : ℝ), fun a b => a / b, fun a b => a ^ b, Real.sin, Real.cos⟩
      1 2 3 (by decide) (by intro i _; simp) (by simp) (by simp)
      (fun shape _ => some ⟨List.replicate 6 0, shape⟩)
      ⟨List.replicate 6 0, [((1 : Nat) : Int), ((2 : Nat) : Int), ((3 : Nat) : Int)]⟩
      rfl rfl (by simp [Tensor.wf])
      (fun n => some (List.replicate n.toNat 0)) (List.replicate 6 0) (by simp)
      (by simp)).2⟩

end PositionalCreateClaims

/-! ## Runs of the positional encoding step -/

section PositionalForward

/-- The statement `data[i] += e` at the frontier of a partially updated
buffer. -/
theorem Filled.addAt {α : Type} [Zero α] [Add α] {orig : List α} {spec : Nat → α} {c : Nat}
    {s : List α} (hs : Filled orig spec c s) (hc : c < orig.length) (enc : List α)
    (idx eidx : Int) (e : α) (hidx : idx = (c : Int)) (he : readAt enc eidx = some e)
    (hv : spec c = elem orig c + e) :
    ∃ s', ((readAt s idx).andThen fun x =>
        (readAt enc eidx).andThen fun y => writeAt s idx (x + y)) = some s' ∧
      Filled orig spec (c + 1) s' := by
  have hread : readAt s idx = some (elem orig c) := by
    rw [hidx, readAt_natCast, hs.2.2 c (le_refl c), getElem?_elem orig c hc]
  rw [hread, andThen_some, he, andThen_some]
  exact hs.write hc idx _ hidx hv.symm

theorem pe_forward_run {α : Type} [Zero α] [Add α] (pe : Forward.PositionalEncoding α)
    (B S D : Nat) (input : Tensor α)
    (hi : input.shape = [(B : Int), (S : Int), (D : Int)])
    (hid : input.data.length = B * S * D) (hdim : pe.encoding_dim = (D : Int))
    (hmax : (S : Int) ≤ pe.max_seq_length) (henc : S * D ≤ pe.encodings.data.length) :
    ∃ out, Forward.positional_encoding_forward pe input = some (true, out) ∧
      Filled input.data (addSpec input.data pe.encodings.data S D) (B * S * D) out := by
  have hmax' : ¬ pe.max_seq_length < (S : Int) := not_lt.2 hmax
  simp only [Forward.positional_encoding_forward, Tensor.num_dims, Tensor.dim, hi, hdim]
  simp only [List.length_cons, List.length_nil, List.getElem?_cons_zero,
    List.getElem?_cons_succ, andThen_some, ne_eq, not_true_eq_false, ite_false, if_false,
    gt_iff_lt, hmax', Option.map_eq_some', Prod.mk.injEq, true_and, exists_eq_right]
  rw [if_neg (by norm_num)]
  simp only [Option.map_eq_some', Prod.mk.injEq, true_and, exists_eq_right]
  rw [show B * S * D = 0 + B * (S * D) by ring]
  refine Filled.level (S * D) B 0 _ ?_ input.data (Filled.start _ _)
  intro b hb s hs
  refine Filled.level D S (0 + b * (S * D)) _ ?_ s hs
  intro i hi' t ht
  have h := @Filled.level α input.data (addSpec input.data pe.encodings.data S D) 1 D
    (0 + b * (S * D) + i * D)
    (fun d data =>
      (readAt data (((b : Int) * (S : Int) + (i : Int)) * (D : Int) + d)).andThen fun x =>
      (readAt pe.encodings.data ((i : Int) * (D : Int) + d)).andThen fun e =>
      writeAt data (((b : Int) * (S : Int) + (i : Int)) * (D : Int) + d) (x + e)) ?_ t ht
  · simpa using h
  · intro d hd u hu
    simp only [Nat.mul_one] at hu ⊢
    have hlt : (b * S + i) * D + d < B * S * D := idx_lt (idx_lt hb hi') hd
    refine hu.addAt (by
        rw [hid, show 0 + b * (S * D) + i * D + d = (b * S + i) * D + d by ring]
        exact hlt) pe.encodings.data _ _
      (elem pe.encodings.data (i * D + d)) (by push_cast; ring) ?_ ?_
    · exact readAt_of_lt _ _ _ (by push_cast; ring) (by have := idx_lt hi' hd; omega)
    · rw [show 0 + b * (S * D) + i * D + d = (b * S + i) * D + d by ring]
      simp only [addSpec, idx_div hd, idx_mod hd, idx_mod hi']

theorem memcpy_all {α : Type} (dst src : List α) (n : Int) (hn : n = (dst.length : Int))
    (hlen : src.length = dst.length) : memcpy dst 0 src 0 n = some src := by
  subst hn
  have h := memcpy_natCast dst src 0 0 dst.length (by omega) (by omega)
  simp only [Nat.cast_zero, List.take_zero, List.drop_zero, Nat.zero_add, List.nil_append,
    List.drop_length, List.append_nil] at h
  rw [h, ← hlen, List.take_length]

end PositionalForward

/-! ## Positional encoding step and the whole embedding -/

section PositionalForwardClaims

/-- C17: for an input of shape `[B,S,D]` with `D == encoding_dim` and
`S <= max_seq_length`, `positional_encoding_forward` returns true and adds the
table in place, broadcast over the batch axis:
`new input[b,s,d] = old input[b,s,d] + encoding[s,d]`. -/
theorem positional_encoding_forward_adds {α : Type} [Zero α] [Add α]
    (pos_enc : Forward.PositionalEncoding α) (B S D : Nat) (input : Tensor α)
    (hi : input.shape = [(B : Int), (S : Int), (D : Int)]) (hiw : input.wf)
    (hdim : pos_enc.encoding_dim = (D : Int)) (hmax : (S : Int) ≤ pos_enc.max_seq_length)
    (henc : pos_enc.max_seq_length * (D : Int) ≤ (pos_enc.encodings.data.length : Int)) :
    ∃ out, Forward.positional_encoding_forward pos_enc input = some (true, out) ∧
      out.length = B * S * D ∧
      ∀ b s d, b < B → s < S → d < D →
        out[(b * S + s) * D + d]? =
          some (elem input.data ((b * S + s) * D + d) +
            elem pos_enc.encodings.data (s * D + d)) := by
  have hid := wf_length hiw [B, S, D] (by simp [hi])
  simp only [List.prod_cons, List.prod_nil, Nat.mul_one, ← Nat.mul_assoc] at hid
  have henc' : S * D ≤ pos_enc.encodings.data.length := by
    have h1 : (S : Int) * (D : Int) ≤ pos_enc.max_seq_length * (D : Int) :=
      mul_le_mul_of_nonneg_right hmax (by omega)
    have h2 : ((S * D : Nat) : Int) ≤ (pos_enc.encodings.data.length : Int) := by
      push_cast; linarith
    exact_mod_cast h2
  obtain ⟨out, hrun, hlen, hget, _⟩ := pe_forward_run pos_enc B S D input hi hid hdim hmax henc'
  refine ⟨out, hrun, by rw [hlen, hid], ?_⟩
  intro b s d hb hs hd
  rw [hget _ (idx_lt (idx_lt hb hs) hd)]
  simp only [addSpec, idx_div hd, idx_mod hd, idx_mod hs]

theorem positional_encoding_forward_adds_witness :
    (sampleSeq.shape = [((1 : Nat) : Int), ((2 : Nat) : Int), ((2 : Nat) : Int)] ∧
      sampleSeq.wf ∧ samplePE2.encoding_dim = ((2 : Nat) : Int) ∧
      ((2 : Nat) : Int) ≤ samplePE2.max_seq_length ∧
      samplePE2.max_seq_length * ((2 : Nat) : Int) ≤
        (samplePE2.encodings.data.length : Int)) ∧
    ∃ out, Forward.positional_encoding_forward samplePE2 sampleSeq = some (true, out) ∧
      out.length = 1 * 2 * 2 :=
  ⟨by decide,
    let ⟨out, h, hlen, _⟩ := positional_encoding_forward_adds samplePE2 1 2 2 sampleSeq
      (by decide) (by decide) (by decide) (by decide) (by decide)
    ⟨out, h, hlen⟩⟩

/-- C18: the truncation of `positional_encoding_forward` addresses the input
with the clamped length as row stride. With two sequences of two positions and
a one-row table `[[10]]`, the input `[[1,2],[3,4]]` becomes `[[11,12],[3,4]]`:
position `[0,1]`, beyond the table, has received the encoding, and position
`[1,0]`, inside the table, has not; the truncation policy gives
`[[11,2],[13,4]]`. -/
theorem positional_encoding_forward_truncation_stride :
    sampleSeqs.shape = [2, 2, 1] ∧ sampleSeqs.data = [1, 2, 3, 4] ∧
    samplePE1.max_seq_length = 1 ∧ samplePE1.encodings.data = [10] ∧
    Forward.positional_encoding_forward samplePE1 sampleSeqs = some (true, [11, 12, 3, 4]) ∧
    Forward.positional_encoding_forward samplePE1 sampleSeqs ≠ some (true, [11, 2, 13, 4]) := by
  decide

/-- C19: when `dropout_forward` with the training flag off returns a tensor
with the contents of its argument, for tokens `[B,S]` with all ids in
`[0, vocab_size)`, `S <= max_seq_length` and an output `[B,S,D]`,
`transformer_embedding_forward` returns true with
`output[b,s,d] = table[id(b,s)*D + d] + encoding[s,d]`; and it returns false
whenever `token_embedding_forward` or `positional_encoding_forward` does. -/
theorem transformer_embedding_forward_correct {α : Type} [Zero α] [Add α] (ops : FloatOps α)
    (dropout_forward : Tensor α → α → Bool → Option (Tensor α)) (dropout_prob : α)
    (trans_emb : Forward.TransformerEmbedding α) (B S D : Nat) (tokens output : Tensor α)
    (hdrop : ∀ x : Tensor α, ∃ y, dropout_forward x dropout_prob false = some y ∧
      y.data = x.data)
    (ht : tokens.shape = [(B : Int), (S : Int)]) (htw : tokens.wf)
    (ho : output.shape = [(B : Int), (S : Int), (D : Int)]) (how : output.wf)
    (hD : trans_emb.token_embedding.embedding_dim = (D : Int))
    (htab : trans_emb.token_embedding.vocab_size * (D : Int) ≤
      (trans_emb.token_embedding.embedding_matrix.data.length : Int))
    (hids : ∀ b, b < B → ∀ s, s < S →
      0 ≤ tokenId ops tokens.data (b * S + s) ∧
        tokenId ops tokens.data (b * S + s) < trans_emb.token_embedding.vocab_size)
    (hdim : trans_emb.positional_encoding.encoding_dim = (D : Int))
    (hmax : (S : Int) ≤ trans_emb.positional_encoding.max_seq_length)
    (henc : trans_emb.positional_encoding.max_seq_length * (D : Int) ≤
      (trans_emb.positional_encoding.encodings.data.length : Int)) :
    (∃ out, Forward.transformer_embedding_forward ops dropout_forward dropout_prob trans_emb
        tokens output = some (true, out) ∧
      out.length = B * S * D ∧
      ∀ b s d, b < B → s < S → d < D →
        out[(b * S + s) * D + d]? =
          some (elem trans_emb.token_embedding.embedding_matrix.data
              ((tokenId ops tokens.data (b * S + s)).toNat * D + d) +
            elem trans_emb.positional_encoding.encodings.data (s * D + d))) ∧
    (∀ (te : Forward.TransformerEmbedding α) (tk o : Tensor α) (d : List α),
      Forward.token_embedding_forward ops te.token_embedding tk o = some (false, d) →
      Forward.transformer_embedding_forward ops dropout_forward dropout_prob te tk o
        = some (false, d)) ∧
    (∀ (te : Forward.TransformerEmbedding α) (tk o : Tensor α) (d1 d2 : List α),
      Forward.token_embedding_forward ops te.token_embedding tk o = some (true, d1) →
      Forward.positional_encoding_forward te.positional_encoding ⟨d1, o.shape⟩
        = some (false, d2) →
      Forward.transformer_embedding_forward ops dropout_forward dropout_prob te tk o
        = some (false, d2)) := by
  refine ⟨?_, ?_, ?_⟩
  · have htd := wf_length htw [B, S] (by simp [ht])
    have hod := wf_length how [B, S, D] (by simp [ho])
    simp only [List.prod_cons, List.prod_nil, Nat.mul_one, ← Nat.mul_assoc] at htd hod
    have hids' : ∀ q, q < B * S → 0 ≤ tokenId ops tokens.data q ∧
        tokenId ops tokens.data q < trans_emb.token_embedding.vocab_size := by
      intro q hq
      obtain ⟨h1, h2⟩ := div_mod_lt hq
      have := hids (q / S) h1 (q % S) h2
      rwa [Nat.div_add_mod' q S] at this
    obtain ⟨d1, hrun1, hlen1, hget1, _⟩ := token_forward_full ops trans_emb.token_embedding
      B S D tokens output ht htd ho hod hD htab hids'
    have henc' : S * D ≤ trans_emb.positional_encoding.encodings.data.length := by
      have h1 : (S : Int) * (D : Int) ≤
          trans_emb.positional_encoding.max_seq_length * (D : Int) :=
        mul_le_mul_of_nonneg_right hmax (by omega)
      have h2 : ((S * D : Nat) : Int) ≤
          (trans_emb.positional_encoding.encodings.data.length : Int) := by
        push_cast; linarith
      exact_mod_cast h2
    obtain ⟨d2, hrun2, hlen2, hget2, _⟩ := pe_forward_run trans_emb.positional_encoding B S D
      ⟨d1, output.shape⟩ ho (by rw [hlen1, hod]) hdim hmax henc'
    obtain ⟨y, hy, hydata⟩ := hdrop ⟨d2, output.shape⟩
    have hsize : calculate_total_size output.shape output.num_dims = (d2.length : Int) := by
      have hl : d2.length = B * S * D := by
        rw [hlen2]; exact (hlen1.trans hod)
      simp [calculate_total_size, Tensor.num_dims, ho, hl, Nat.mul_assoc, mul_assoc]
    have hcopy := memcpy_all d2 y.data _ hsize (by rw [hydata])
    refine ⟨y.data, ?_, ?_, ?_⟩
    · simp only [Forward.transformer_embedding_forward, hrun1, andThen_some, hrun2, hy, hcopy]
      simp
    · rw [hydata]
      exact hlen2.trans (hlen1.trans hod)
    · intro b s d hb hs hd
      have hlt : (b * S + s) * D + d < B * S * D := idx_lt (idx_lt hb hs) hd
      rw [hydata, hget2 _ hlt]
      simp only [addSpec, idx_div hd, idx_mod hd, idx_mod hs]
      have h1 : elem d1 ((b * S + s) * D + d) =
          elem trans_emb.token_embedding.embedding_matrix.data
            ((tokenId ops tokens.data (b * S + s)).toNat * D + d) := by
        have := hget1 _ hlt
        rw [elem, List.getD_eq_getElem?_getD, this]
        simp only [Option.getD_some, lookupSpec, idx_div hd, idx_mod hd]
      rw [h1]
  · intro te tk o d h
    simp [Forward.transformer_embedding_forward, h]
  · intro te tk o d1 d2 h1 h2
    simp [Forward.transformer_embedding_forward, h1, h2]

theorem transformer_embedding_forward_correct_witness :
    ((∀ x : Tensor Int, ∃ y, (fun (t : Tensor Int) (_ : Int) (_ : Bool) => some t) x 0 false
        = some y ∧ y.data = x.data) ∧
      sampleTokens.shape = [((1 : Nat) : Int), ((2 : Nat) : Int)] ∧ sampleTokens.wf ∧
      sampleEmbOut.shape = [((1 : Nat) : Int), ((2 : Nat) : Int), ((2 : Nat) : Int)] ∧
      sampleEmbOut.wf ∧ sampleTable.embedding_dim = ((2 : Nat) : Int) ∧
      sampleTable.vocab_size * ((2 : Nat) : Int) ≤
        (sampleTable.embedding_matrix.data.length : Int) ∧
      (∀ b, b < 1 → ∀ s, s < 2 →
        0 ≤ tokenId sampleOps sampleTokens.data (b * 2 + s) ∧
          tokenId sampleOps sampleTokens.data (b * 2 + s) < sampleTable.vocab_size) ∧
      samplePE2.encoding_dim = ((2 : Nat) : Int) ∧
      ((2 : Nat) : Int) ≤ samplePE2.max_seq_length ∧
      samplePE2.max_seq_length * ((2 : Nat) : Int) ≤
        (samplePE2.encodings.data.length : Int)) ∧
    ∃ out, Forward.transformer_embedding_forward sampleOps (fun t _ _ => some t) 0
        ⟨sampleTable, samplePE2⟩ sampleTokens sampleEmbOut = some (true, out) ∧
      out.length = 1 * 2 * 2 :=
  ⟨⟨fun x => ⟨x, rfl, rfl⟩, by decide⟩,
    let ⟨out, h, hlen, _⟩ := (transformer_embedding_forward_correct sampleOps
      (fun t _ _ => some t) 0 ⟨sampleTable, samplePE2⟩ 1 2 2 sampleTokens sampleEmbOut
      (fun x => ⟨x, rfl, rfl⟩) (by decide) (by decide) (by decide) (by decide) (by decide)
      (by decide) (by decide) (by decide) (by decide) (by decide)).1
    ⟨out, h, hlen⟩⟩

/-- C20: in the float-array variant the positional encoding is written over
the token embeddings, not added to them: with the table `{0:[1,1], 1:[2,2]}`,
tokens `[0,1]` and encodings `[[10,20],[30,40]]`,
`transformer_embedding_forward` leaves `[10,20,30,40]` in the output, the
encodings alone, where the sum is `[11,21,32,42]`. -/
theorem transformer_embedding_forward_array_overwrites :
    FloatArray.token_embedding_forward sampleArrayEmb.token_embedding [0, 1] [0, 0, 0, 0]
      = some [1, 1, 2, 2] ∧
    FloatArray.transformer_embedding_forward sampleMalloc sampleArrayEmb [0, 1] 2 [7, 7, 7, 7]
      = some [10, 20, 30, 40] ∧
    FloatArray.transformer_embedding_forward sampleMalloc sampleArrayEmb [0, 1] 2 [7, 7, 7, 7]
      ≠ some [11, 21, 32, 42] := by
  decide

end PositionalForwardClaims

/-! ## Whole-family facts: no out-of-range access, empty outputs -/

section FamilyFacts

variable {α : Type} [Zero α] [Add α] [Mul α]

theorem Filled.zero_eq {β : Type} {orig : List β} {spec : Nat → β} {d : List β}
    (h : Filled orig spec 0 d) : d = orig :=
  List.ext_getElem? (fun i => h.2.2 i (Nat.zero_le i))

theorem matmul_2d_accept (l r o : Tensor α) (hlw : l.wf) (hrw : r.wf) (how : o.wf)
    (hc : contract_2d l r o) : ∃ d, tensor_matmul_2d l r o = some (true, d) := by
  obtain ⟨hl, hr, h1, ho, h2, h3⟩ := hc
  obtain ⟨a0, a1, hl'⟩ := List.length_eq_two.1 hl
  obtain ⟨c0, c1, hr'⟩ := List.length_eq_two.1 hr
  obtain ⟨e0, e1, ho'⟩ := List.length_eq_two.1 ho
  simp [Tensor.dim, hl', hr', ho'] at h1 h2 h3
  rw [h1] at hr'
  rw [h2, h3] at ho'
  have ha0 : 0 ≤ a0 := hlw.1 a0 (by simp [hl'])
  have ha1 : 0 ≤ a1 := hlw.1 a1 (by simp [hl'])
  have hc1 : 0 ≤ c1 := hrw.1 c1 (by simp [hr'])
  lift a0 to Nat using ha0
  lift a1 to Nat using ha1
  lift c1 to Nat using hc1
  have hld := wf_length hlw [a0, a1] (by simp [hl'])
  have hrd := wf_length hrw [a1, c1] (by simp [hr'])
  have hod := wf_length how [a0, c1] (by simp [ho'])
  simp only [List.prod_cons, List.prod_nil, Nat.mul_one] at hld hrd hod
  obtain ⟨d, hd, _⟩ := matmul_2d_run a0 a1 c1 l r o hl' hr' ho' hld hrd hod
  exact ⟨d, hd⟩

theorem matmul_3d_accept (l r o : Tensor α) (hlw : l.wf) (hrw : r.wf) (how : o.wf)
    (hc : contract_3d l r o) : ∃ d, tensor_matmul_3d l r o = some (true, d) := by
  obtain ⟨hl, hr, h1, h2, ho, h3, h4, h5⟩ := hc
  obtain ⟨a0, a1, a2, hl'⟩ := List.length_eq_three.1 hl
  obtain ⟨c0, c1, c2, hr'⟩ := List.length_eq_three.1 hr
  obtain ⟨e0, e1, e2, ho'⟩ := List.length_eq_three.1 ho
  simp [Tensor.dim, hl', hr', ho'] at h1 h2 h3 h4 h5
  rw [h1, h2] at hr'
  rw [h3, h4, h5] at ho'
  have ha0 : 0 ≤ a0 := hlw.1 a0 (by simp [hl'])
  have ha1 : 0 ≤ a1 := hlw.1 a1 (by simp [hl'])
  have ha2 : 0 ≤ a2 := hlw.1 a2 (by simp [hl'])
  have hc2 : 0 ≤ c2 := hrw.1 c2 (by simp [hr'])
  lift a0 to Nat using ha0
  lift a1 to Nat using ha1
  lift a2 to Nat using ha2
  lift c2 to Nat using hc2
  have hld := wf_length hlw [a0, a1, a2] (by simp [hl'])
  have hrd := wf_length hrw [a0, a2, c2] (by simp [hr'])
  have hod := wf_length how [a0, a1, c2] (by simp [ho'])
  simp only [List.prod_cons, List.prod_nil, Nat.mul_one, ← Nat.mul_assoc] at hld hrd hod
  obtain ⟨d, hd, _⟩ := matmul_3d_run a0 a1 a2 c2 l r o hl' hr' ho' hld hrd hod
  exact ⟨d, hd⟩

theorem matmul_4d_accept (l r o : Tensor α) (hlw : l.wf) (hrw : r.wf) (how : o.wf)
    (hc : contract_4d l r o) : ∃ d, tensor_matmul_4d l r o = some (true, d) := by
  obtain ⟨hl, hr, h1, h2, h3, ho, h4, h5, h6, h7⟩ := hc
  obtain ⟨a0, a1, a2, a3, hl'⟩ := length_eq_four hl
  obtain ⟨c0, c1, c2, c3, hr'⟩ := length_eq_four hr
  obtain ⟨e0, e1, e2, e3, ho'⟩ := length_eq_four ho
  simp [Tensor.dim, hl', hr', ho'] at h1 h2 h3 h4 h5 h6 h7
  rw [h1, h2, h3] at hr'
  rw [h4, h5, h6, h7] at ho'
  have ha0 : 0 ≤ a0 := hlw.1 a0 (by simp [hl'])
  have ha1 : 0 ≤ a1 := hlw.1 a1 (by simp [hl'])
  have ha2 : 0 ≤ a2 := hlw.1 a2 (by simp [hl'])
  have ha3 : 0 ≤ a3 := hlw.1 a3 (by simp [hl'])
  have hc3 : 0 ≤ c3 := hrw.1 c3 (by simp [hr'])
  lift a0 to Nat using ha0
  lift a1 to Nat using ha1
  lift a2 to Nat using ha2
  lift a3 to Nat using ha3
  lift c3 to Nat using hc3
  have hld := wf_length hlw [a0, a1, a2, a3] (by simp [hl'])
  have hrd := wf_length hrw [a0, a1, a3, c3] (by simp [hr'])
  have hod := wf_length how [a0, a1, a2, c3] (by simp [ho'])
  simp only [List.prod_cons, List.prod_nil, Nat.mul_one, ← Nat.mul_assoc] at hld hrd hod
  obtain ⟨d, hd, _⟩ := matmul_4d_run a0 a1 a2 a3 c3 l r o hl' hr' ho' hld hrd hod
  exact ⟨d, hd⟩

theorem mul_3_2_accept (inp w o : Tensor α) (hiw : inp.wf) (hww : w.wf) (how : o.wf)
    (hc : contract_3_2 inp w o) : ∃ d, tensor_mul_3_2 inp w o = some (true, d) := by
  obtain ⟨hi, hw, ho, h1, h2, h3, h4⟩ := hc
  obtain ⟨a0, a1, a2, hi'⟩ := List.length_eq_three.1 hi
  obtain ⟨c0, c1, hw'⟩ := List.length_eq_two.1 hw
  obtain ⟨e0, e1, e2, ho'⟩ := List.length_eq_three.1 ho
  simp [Tensor.dim, hi', hw', ho'] at h1 h2 h3 h4
  rw [h1] at hw'
  rw [h2, h3, h4] at ho'
  have ha0 : 0 ≤ a0 := hiw.1 a0 (by simp [hi'])
  have ha1 : 0 ≤ a1 := hiw.1 a1 (by simp [hi'])
  have ha2 : 0 ≤ a2 := hiw.1 a2 (by simp [hi'])
  have hc1 : 0 ≤ c1 := hww.1 c1 (by simp [hw'])
  lift a0 to Nat using ha0
  lift a1 to Nat using ha1
  lift a2 to Nat using ha2
  lift c1 to Nat using hc1
  have hid := wf_length hiw [a0, a1, a2] (by simp [hi'])
  have hwd := wf_length hww [a2, c1] (by simp [hw'])
  have hod := wf_length how [a0, a1, c1] (by simp [ho'])
  simp only [List.prod_cons, List.prod_nil, Nat.mul_one, ← Nat.mul_assoc] at hid hwd hod
  obtain ⟨d, hd, _⟩ := mul_3_2_run a0 a1 a2 c1 inp w o hi' hw' ho' hid hwd hod
  exact ⟨d, hd⟩

theorem mul_4d_2d_accept (inp w o : Tensor α) (hiw : inp.wf) (hww : w.wf) (how : o.wf)
    (hc : contract_4d_2d inp w o) : ∃ d, tensor_mul_4d_2d inp w o = some (true, d) := by
  obtain ⟨hi, hw, h1, ho, h2, h3, h4, h5⟩ := hc
  obtain ⟨a0, a1, a2, a3, hi'⟩ := length_eq_four hi
  obtain ⟨c0, c1, hw'⟩ := List.length_eq_two.1 hw
  obtain ⟨e0, e1, e2, e3, ho'⟩ := length_eq_four ho
  simp [Tensor.dim, hi', hw', ho'] at h1 h2 h3 h4 h5
  rw [h1] at hw'
  rw [h2, h3, h4, h5] at ho'
  have ha0 : 0 ≤ a0 := hiw.1 a0 (by simp [hi'])
  have ha1 : 0 ≤ a1 := hiw.1 a1 (by simp [hi'])
  have ha2 : 0 ≤ a2 := hiw.1 a2 (by simp [hi'])
  have ha3 : 0 ≤ a3 := hiw.1 a3 (by simp [hi'])
  have hc1 : 0 ≤ c1 := hww.1 c1 (by simp [hw'])
  lift a0 to Nat using ha0
  lift a1 to Nat using ha1
  lift a2 to Nat using ha2
  lift a3 to Nat using ha3
  lift c1 to Nat using hc1
  have hid := wf_length hiw [a0, a1, a2, a3] (by simp [hi'])
  have hwd := wf_length hww [a3, c1] (by simp [hw'])
  have hod := wf_length how [a0, a1, a2, c1] (by simp [ho'])
  simp only [List.prod_cons, List.prod_nil, Nat.mul_one, ← Nat.mul_assoc] at hid hwd hod
  obtain ⟨d, hd, _⟩ := mul_4d_2d_run a0 a1 a2 a3 c1 inp w o hi' hw' ho' hid hwd hod
  exact ⟨d, hd⟩

end FamilyFacts

/-! ## Whole-family claims -/

section FamilyClaims

variable {α : Type} [Zero α] [Add α] [Mul α]

/-- C21: a zero-length batch or row/sequence dimension is legal for the whole
matmul family: with shapes that are otherwise consistent, each of the six
kernels returns true and the output buffer, which has no element, is the one
the caller supplied; a write would be an access outside it. -/
theorem matmul_family_zero_dims :
    (∀ (M K N : Nat) (left right output : Tensor α),
      left.shape = [(M : Int), (K : Int)] → left.wf →
      right.shape = [(K : Int), (N : Int)] → right.wf →
      output.shape = [(M : Int), (N : Int)] → output.wf → M = 0 →
      tensor_matmul_2d left right output = some (true, output.data) ∧
        output.data.length = 0) ∧
    (∀ (B M K N : Nat) (left right output : Tensor α),
      left.shape = [(B : Int), (M : Int), (K : Int)] → left.wf →
      right.shape = [(B : Int), (K : Int), (N : Int)] → right.wf →
      output.shape = [(B : Int), (M : Int), (N : Int)] → output.wf → B = 0 ∨ M = 0 →
      tensor_matmul_3d left right output = some (true, output.data) ∧
        output.data.length = 0) ∧
    (∀ (B1 B2 M K N : Nat) (left right output : Tensor α),
      left.shape = [(B1 : Int), (B2 : Int), (M : Int), (K : Int)] → left.wf →
      right.shape = [(B1 : Int), (B2 : Int), (K : Int), (N : Int)] → right.wf →
      output.shape = [(B1 : Int), (B2 : Int), (M : Int), (N : Int)] → output.wf →
      B1 = 0 ∨ B2 = 0 ∨ M = 0 →
      tensor_matmul_4d left right output = some (true, output.data) ∧
        output.data.length = 0) ∧
    (∀ (B S Din Dout : Nat) (input weight output : Tensor α),
      input.shape = [(B : Int), (S : Int), (Din : Int)] → input.wf →
      weight.shape = [(Din : Int), (Dout : Int)] → weight.wf →
      output.shape = [(B : Int), (S : Int), (Dout : Int)] → output.wf → B = 0 ∨ S = 0 →
      tensor_mul_3_2 input weight output = some (true, output.data) ∧
        output.data.length = 0) ∧
    (∀ (B1 B2 S D1 D2 : Nat) (input weight output : Tensor α),
      input.shape = [(B1 : Int), (B2 : Int), (S : Int), (D1 : Int)] → input.wf →
      weight.shape = [(D1 : Int), (D2 : Int)] → weight.wf →
      output.shape = [(B1 : Int), (B2 : Int), (S : Int), (D2 : Int)] → output.wf →
      B1 = 0 ∨ B2 = 0 ∨ S = 0 →
      tensor_mul_4d_2d input weight output = some (true, output.data) ∧
        output.data.length = 0) ∧
    (∀ (B H S D : Nat) (scale : α) (input1 input2 output : Tensor α),
      input1.shape = [(B : Int), (H : Int), (S : Int), (D : Int)] → input1.wf →
      input2.shape = [(B : Int), (H : Int), (S : Int), (D : Int)] → input2.wf →
      output.shape = [(B : Int), (H : Int), (S : Int), (S : Int)] → output.wf →
      B = 0 ∨ H = 0 ∨ S = 0 →
      tensor_mul_4d_transpose input1 input2 scale output = some (true, output.data) ∧
        output.data.length = 0) := by
  refine ⟨?_, ?_, ?_, ?_, ?_, ?_⟩
  · intro M K N l r o hl hlw hr hrw ho how hz
    have hld := wf_length hlw [M, K] (by simp [hl])
    have hrd := wf_length hrw [K, N] (by simp [hr])
    have hod := wf_length how [M, N] (by simp [ho])
    simp only [List.prod_cons, List.prod_nil, Nat.mul_one] at hld hrd hod
    obtain ⟨d, hd, hF⟩ := matmul_2d_run M K N l r o hl hr ho hld hrd hod
    have h0 : M * N = 0 := by subst hz; simp
    rw [h0] at hF hod
    rw [hd, hF.zero_eq]
    exact ⟨rfl, hod⟩
  · intro B M K N l r o hl hlw hr hrw ho how hz
    have hld := wf_length hlw [B, M, K] (by simp [hl])
    have hrd := wf_length hrw [B, K, N] (by simp [hr])
    have hod := wf_length how [B, M, N] (by simp [ho])
    simp only [List.prod_cons, List.prod_nil, Nat.mul_one, ← Nat.mul_assoc] at hld hrd hod
    obtain ⟨d, hd, hF⟩ := matmul_3d_run B M K N l r o hl hr ho hld hrd hod
    have h0 : B * M * N = 0 := by rcases hz with h | h <;> subst h <;> simp
    rw [h0] at hF hod
    rw [hd, hF.zero_eq]
    exact ⟨rfl, hod⟩
  · intro B1 B2 M K N l r o hl hlw hr hrw ho how hz
    have hld := wf_length hlw [B1, B2, M, K] (by simp [hl])
    have hrd := wf_length hrw [B1, B2, K, N] (by simp [hr])
    have hod := wf_length how [B1, B2, M, N] (by simp [ho])
    simp only [List.prod_cons, List.prod_nil, Nat.mul_one, ← Nat.mul_assoc] at hld hrd hod
    obtain ⟨d, hd, hF⟩ := matmul_4d_run B1 B2 M K N l r o hl hr ho hld hrd hod
    have h0 : B1 * B2 * M * N = 0 := by rcases hz with h | h | h <;> subst h <;> simp
    rw [h0] at hF hod
    rw [hd, hF.zero_eq]
    exact ⟨rfl, hod⟩
  · intro B S Din Dout inp w o hi hiw hw hww ho how hz
    have hid := wf_length hiw [B, S, Din] (by simp [hi])
    have hwd := wf_length hww [Din, Dout] (by simp [hw])
    have hod := wf_length how [B, S, Dout] (by simp [ho])
    simp only [List.prod_cons, List.prod_nil, Nat.mul_one, ← Nat.mul_assoc] at hid hwd hod
    obtain ⟨d, hd, hF⟩ := mul_3_2_run B S Din Dout inp w o hi hw ho hid hwd hod
    have h0 : B * S * Dout = 0 := by rcases hz with h | h <;> subst h <;> simp
    rw [h0] at hF hod
    rw [hd, hF.zero_eq]
    exact ⟨rfl, hod⟩
  · intro B1 B2 S D1 D2 inp w o hi hiw hw hww ho how hz
    have hid := wf_length hiw [B1, B2, S, D1] (by simp [hi])
    have hwd := wf_length hww [D1, D2] (by simp [hw])
    have hod := wf_length how [B1, B2, S, D2] (by simp [ho])
    simp only [List.prod_cons, List.prod_nil, Nat.mul_one, ← Nat.mul_assoc] at hid hwd hod
    obtain ⟨d, hd, hF⟩ := mul_4d_2d_run B1 B2 S D1 D2 inp w o hi hw ho hid hwd hod
    have h0 : B1 * B2 * S * D2 = 0 := by rcases hz with h | h | h <;> subst h <;> simp
    rw [h0] at hF hod
    rw [hd, hF.zero_eq]
    exact ⟨rfl, hod⟩
  · intro B H S D scale q k o hq hqw hk hkw ho how hz
    have hqd := wf_length hqw [B, H, S, D] (by simp [hq])
    have hkd := wf_length hkw [B, H, S, D] (by simp [hk])
    have hod := wf_length how [B, H, S, S] (by simp [ho])
    simp only [List.prod_cons, List.prod_nil, Nat.mul_one, ← Nat.mul_assoc] at hqd hkd hod
    obtain ⟨d, hd, hF⟩ := mul_4d_transpose_run B H S D q k o scale hq hqd hkd hod
    have h0 : B * H * S * S = 0 := by rcases hz with h | h | h <;> subst h <;> simp
    rw [h0] at hF hod
    rw [hd, hF.zero_eq]
    exact ⟨rfl, hod⟩

theorem matmul_family_zero_dims_witness :
    (sampleEmptyLeft.shape = [((0 : Nat) : Int), ((3 : Nat) : Int)] ∧ sampleEmptyLeft.wf ∧
      sampleRight.shape = [((3 : Nat) : Int), ((2 : Nat) : Int)] ∧ sampleRight.wf ∧
      sampleEmptyOut.shape = [((0 : Nat) : Int), ((2 : Nat) : Int)] ∧ sampleEmptyOut.wf ∧
      0 = 0) ∧
    tensor_matmul_2d sampleEmptyLeft sampleRight sampleEmptyOut
      = some (true, sampleEmptyOut.data) ∧ sampleEmptyOut.data.length = 0 :=
  ⟨by decide, matmul_family_zero_dims.1 0 3 2 sampleEmptyLeft sampleRight sampleEmptyOut
    (by decide) (by decide) (by decide) (by decide) (by decide) (by decide) rfl⟩

/-- C22: validation makes every buffer access in-bounds: on tensors with
`len(data) == product(dims)` and non-negative dims, each of
`tensor_matmul_2d`, `tensor_matmul_3d`, `tensor_matmul_4d`, `tensor_mul_3_2`
and `tensor_mul_4d_2d` runs to its return, accepted or rejected, without any
access outside a shape array or a data buffer. -/
theorem matmul_family_in_bounds (a b output : Tensor α) (haw : a.wf) (hbw : b.wf)
    (how : output.wf) :
    (∃ res, tensor_matmul_2d a b output = some res) ∧
    (∃ res, tensor_matmul_3d a b output = some res) ∧
    (∃ res, tensor_matmul_4d a b output = some res) ∧
    (∃ res, tensor_mul_3_2 a b output = some res) ∧
    (∃ res, tensor_mul_4d_2d a b output = some res) := by
  refine ⟨?_, ?_, ?_, ?_, ?_⟩
  · by_cases hc : contract_2d a b output
    · obtain ⟨d, hd⟩ := matmul_2d_accept a b output haw hbw how hc
      exact ⟨_, hd⟩
    · exact ⟨_, matmul_2d_reject a b output hc⟩
  · by_cases hc : contract_3d a b output
    · obtain ⟨d, hd⟩ := matmul_3d_accept a b output haw hbw how hc
      exact ⟨_, hd⟩
    · exact ⟨_, matmul_3d_reject a b output hc⟩
  · by_cases hc : contract_4d a b output
    · obtain ⟨d, hd⟩ := matmul_4d_accept a b output haw hbw how hc
      exact ⟨_, hd⟩
    · exact ⟨_, matmul_4d_reject a b output hc⟩
  · by_cases hc : contract_3_2 a b output
    · obtain ⟨d, hd⟩ := mul_3_2_accept a b output haw hbw how hc
      exact ⟨_, hd⟩
    · exact ⟨_, mul_3_2_reject a b output hc⟩
  · by_cases hc : contract_4d_2d a b output
    · obtain ⟨d, hd⟩ := mul_4d_2d_accept a b output haw hbw how hc
      exact ⟨_, hd⟩
    · exact ⟨_, mul_4d_2d_reject a b output hc⟩

theorem matmul_family_in_bounds_witness :
    (sampleLeft.wf ∧ sampleRight.wf ∧ sampleOut.wf) ∧
    (∃ res, tensor_matmul_2d sampleLeft sampleRight sampleOut = some res) ∧
    (∃ res, tensor_matmul_3d sampleLeft sampleRight sampleOut = some res) :=
  ⟨by decide,
    (matmul_family_in_bounds sampleLeft sampleRight sampleOut (by decide) (by decide)
      (by decide)).1,
    (matmul_family_in_bounds sampleLeft sampleRight sampleOut (by decide) (by decide)
      (by decide)).2.1⟩

end FamilyClaims

section RemainingClaims

/-- C23: `positional_encoding_forward` validates before mutating: for an input
whose rank is not 3 or whose last dimension differs from
`pos_enc.encoding_dim`, it returns false and the input buffer is unchanged. -/
theorem positional_encoding_forward_validates {α : Type} [Add α]
    (pos_enc : Forward.PositionalEncoding α) (input : Tensor α)
    (h : input.shape.length ≠ 3 ∨ input.dim 2 ≠ some pos_enc.encoding_dim) :
    Forward.positional_encoding_forward pos_enc input = some (false, input.data) := by
  by_cases hi : input.shape.length = 3
  · obtain ⟨a, b, c, hi'⟩ := List.length_eq_three.1 hi
    have hc : c ≠ pos_enc.encoding_dim := by
      rcases h with h | h
      · exact absurd hi h
      · simpa [Tensor.dim, hi'] using h
    simp [Forward.positional_encoding_forward, num_dims_eq_three, Tensor.dim, hi', hc]
  · simp [Forward.positional_encoding_forward, num_dims_eq_three, hi]

theorem positional_encoding_forward_validates_witness :
    (sampleSeq.shape.length ≠ 3 ∨ sampleSeq.dim 2 ≠ some samplePE1.encoding_dim) ∧
    Forward.positional_encoding_forward samplePE1 sampleSeq = some (false, sampleSeq.data) :=
  ⟨by decide, positional_encoding_forward_validates samplePE1 sampleSeq (by decide)⟩

/-- C24: the float-array `token_embedding_forward` loops `vocab_size` times,
not once per token of the sequence. With a 3-row table and 2 tokens its third
iteration reads `tokens[2]`, outside the array; with a 2-row table and 3
tokens it writes rows 0 and 1 only and leaves row 2 of the buffer as it was. -/
theorem token_embedding_forward_array_loop_bound :
    sampleArrayTable3.vocab_size = 3 ∧
    FloatArray.token_embedding_forward sampleArrayTable3 [0, 1] [7, 7, 7, 7] = none ∧
    readAt ([0, 1] : List Int) 2 = none ∧
    FloatArray.transformer_embedding_forward sampleMalloc
      ⟨sampleArrayTable3, sampleArrayEmb.positional_encoding⟩ [0, 1] 2 [7, 7, 7, 7] = none ∧
    sampleArrayEmb.token_embedding.vocab_size = 2 ∧
    FloatArray.token_embedding_forward sampleArrayEmb.token_embedding [0, 1, 0]
      [7, 7, 7, 7, 7, 7] = some [1, 1, 2, 2, 7, 7] := by
  decide

/-- C25: attention scores are transpose-symmetric in their arguments when the
multiplication commutes, as it does on floats: for `Q` and `K` of shape
`[B,H,S,D]` both calls return true with `B*H*S*S` scores, and the score
`[b,h,i,j]` of `(Q,K)` and the score `[b,h,j,i]` of `(K,Q)` are both present
and are the same value, the dot product of `Q[b,h,i,:]` and `K[b,h,j,:]` times
`scale`; hence when `Q` and `K` have the same data the entries `[b,h,i,j]` and
`[b,h,j,i]` of the scores are present and equal, so every `[S,S]` block is a
symmetric matrix. On `Q = [[1,2,3],[4,5,6]]`, `K = [[1,0,1],[0,1,1]]` the scores
of `(Q,K)` are `[[4,5],[10,11]]`, those of `(K,Q)` are `[[4,10],[5,11]]`, and
those of `(Q,Q)` are `[[14,32],[32,77]]`. -/
theorem tensor_mul_4d_transpose_symmetric {α : Type} [Zero α] [Add α] [Mul α]
    (B H S D : Nat) (scale : α) (q k o1 o2 : Tensor α)
    (hcomm : ∀ x y : α, x * y = y * x)
    (hq : q.shape = [(B : Int), (H : Int), (S : Int), (D : Int)]) (hqw : q.wf)
    (hk : k.shape = [(B : Int), (H : Int), (S : Int), (D : Int)]) (hkw : k.wf)
    (ho1 : o1.shape = [(B : Int), (H : Int), (S : Int), (S : Int)]) (ho1w : o1.wf)
    (ho2 : o2.shape = [(B : Int), (H : Int), (S : Int), (S : Int)]) (ho2w : o2.wf) :
    (∃ out1 out2, tensor_mul_4d_transpose q k scale o1 = some (true, out1) ∧
      tensor_mul_4d_transpose k q scale o2 = some (true, out2) ∧
      out1.length = B * H * S * S ∧ out2.length = B * H * S * S ∧
      (∀ b h i j, b < B → h < H → i < S → j < S →
        out1[((b * H + h) * S + i) * S + j]? =
            some (rowDot q.data k.data H S D b h i j * scale) ∧
          out2[((b * H + h) * S + j) * S + i]? =
            some (rowDot q.data k.data H S D b h i j * scale)) ∧
      (q.data = k.data → ∀ b h i j, b < B → h < H → i < S → j < S →
        out1[((b * H + h) * S + i) * S + j]? =
            some (rowDot q.data k.data H S D b h i j * scale) ∧
          out1[((b * H + h) * S + j) * S + i]? =
            some (rowDot q.data k.data H S D b h i j * scale))) ∧
    tensor_mul_4d_transpose sampleQ2 sampleK2 1 sampleScore2 = some (true, [4, 5, 10, 11]) ∧
    tensor_mul_4d_transpose sampleK2 sampleQ2 1 sampleScore2 = some (true, [4, 10, 5, 11]) ∧
    tensor_mul_4d_transpose sampleQ2 sampleQ2 1 sampleScore2 =
      some (true, [14, 32, 32, 77]) := by
  refine ⟨?_, by decide, by decide, by decide⟩
  have hqd := wf_length hqw [B, H, S, D] (by simp [hq])
  have hkd := wf_length hkw [B, H, S, D] (by simp [hk])
  have ho1d := wf_length ho1w [B, H, S, S] (by simp [ho1])
  have ho2d := wf_length ho2w [B, H, S, S] (by simp [ho2])
  simp only [List.prod_cons, List.prod_nil, Nat.mul_one, ← Nat.mul_assoc] at hqd hkd ho1d ho2d
  obtain ⟨d1, h1, hlen1, hget1, _⟩ := mul_4d_transpose_run B H S D q k o1 scale hq hqd hkd ho1d
  obtain ⟨d2, h2, hlen2, hget2, _⟩ := mul_4d_transpose_run B H S D k q o2 scale hk hkd hqd ho2d
  have hval1 : ∀ b h i j, b < B → h < H → i < S → j < S →
      d1[((b * H + h) * S + i) * S + j]? =
        some (rowDot q.data k.data H S D b h i j * scale) := by
    intro b h i j hb hh hi hj
    rw [hget1 _ (idx_lt (idx_lt (idx_lt hb hh) hi) hj)]
    simp only [scoreSpec, rowDot, idx_div hj, idx_mod hj, idx_div hi]
  have hval2 : ∀ b h i j, b < B → h < H → i < S → j < S →
      d2[((b * H + h) * S + i) * S + j]? =
        some (rowDot k.data q.data H S D b h i j * scale) := by
    intro b h i j hb hh hi hj
    rw [hget2 _ (idx_lt (idx_lt (idx_lt hb hh) hi) hj)]
    simp only [scoreSpec, rowDot, idx_div hj, idx_mod hj, idx_div hi]
  have hswap : ∀ (x y : List α) b h i j,
      rowDot x y H S D b h i j = rowDot y x H S D b h j i := by
    intro x y b h i j
    unfold rowDot
    exact sumTo_congr D _ _ (fun kk _ => hcomm _ _)
  refine ⟨d1, d2, h1, h2, by rw [hlen1, ho1d], by rw [hlen2, ho2d], ?_, ?_⟩
  · intro b h i j hb hh hi hj
    exact ⟨hval1 b h i j hb hh hi hj, by rw [hval2 b h j i hb hh hj hi, hswap]⟩
  · intro hdata b h i j hb hh hi hj
    refine ⟨hval1 b h i j hb hh hi hj, ?_⟩
    rw [hval1 b h j i hb hh hj hi, hswap q.data k.data, hdata]

theorem tensor_mul_4d_transpose_symmetric_witness :
    ((∀ x y : Int, x * y = y * x) ∧
      sampleQ2.shape =
        [((1 : Nat) : Int), ((1 : Nat) : Int), ((2 : Nat) : Int), ((3 : Nat) : Int)] ∧
      sampleQ2.wf ∧
      sampleK2.shape =
        [((1 : Nat) : Int), ((1 : Nat) : Int), ((2 : Nat) : Int), ((3 : Nat) : Int)] ∧
      sampleK2.wf ∧
      sampleScore2.shape =
        [((1 : Nat) : Int), ((1 : Nat) : Int), ((2 : Nat) : Int), ((2 : Nat) : Int)] ∧
      sampleScore2.wf) ∧
    ∃ out1 out2, tensor_mul_4d_transpose sampleQ2 sampleK2 3 sampleScore2 = some (true, out1) ∧
      tensor_mul_4d_transpose sampleK2 sampleQ2 3 sampleScore2 = some (true, out2) ∧
      out1.length = 1 * 1 * 2 * 2 ∧ out2.length = 1 * 1 * 2 * 2 ∧
      out1[((0 * 1 + 0) * 2 + 0) * 2 + 1]? =
        some (rowDot sampleQ2.data sampleK2.data 1 2 3 0 0 0 1 * 3) ∧
      out2[((0 * 1 + 0) * 2 + 1) * 2 + 0]? =
        some (rowDot sampleQ2.data sampleK2.data 1 2 3 0 0 0 1 * 3) ∧
      rowDot sampleQ2.data sampleK2.data 1 2 3 0 0 0 1 * 3 = 15 :=
  ⟨⟨Int.mul_comm, by decide⟩,
    let ⟨out1, out2, h1, h2, hl1, hl2, h3, _⟩ :=
      (tensor_mul_4d_transpose_symmetric 1 1 2 3 (3 : Int)
        sampleQ2 sampleK2 sampleScore2 sampleScore2 Int.mul_comm (by decide) (by decide)
        (by decide) (by decide) (by decide) (by decide) (by decide) (by decide)).1
    ⟨out1, out2, h1, h2, hl1, hl2, (h3 0 0 0 1 (by decide) (by decide) (by decide)
      (by decide)).1, (h3 0 0 0 1 (by decide) (by decide) (by decide) (by decide)).2,
      by decide⟩⟩

theorem range32_of_nat (e : Int) (n : Nat) (he : e = (n : Int)) (hn : n ≤ 2 ^ 31 - 1) :
    0 ≤ e ∧ e ≤ 2 ^ 31 - 1 ∧ wrap32 e = e := by
  subst he
  unfold wrap32
  omega

/-- C26: no 32-bit index wrap in `tensor_matmul_4d`: for strictly positive
dims (`B1` and `B2` are positive as they bound a loop counter) whose element
counts `B1*B2*M*K`, `B1*B2*K*N` and `B1*B2*M*N` are at most
`2^31 - 1`, every intermediate value of `left_offset`, `right_offset`,
`out_offset` and of the three element indices lies in `[0, 2^31 - 1]` and is
its own reduction modulo `2^32`, so the indices computed in 32-bit arithmetic
are the exact ones. -/
theorem tensor_matmul_4d_no_index_wrap (B1 B2 M K N b1 b2 row col k : Nat)
    (hM : 0 < M) (hK : 0 < K) (hN : 0 < N)
    (hL : B1 * B2 * M * K ≤ 2 ^ 31 - 1) (hR : B1 * B2 * K * N ≤ 2 ^ 31 - 1)
    (hO : B1 * B2 * M * N ≤ 2 ^ 31 - 1)
    (hb1 : b1 < B1) (hb2 : b2 < B2) (hrow : row < M) (hcol : col < N) (hk : k < K) :
    (∀ e, e ∈ matmul_4d_index_exprs (B2 : Int) (M : Int) (K : Int) (N : Int) (b1 : Int)
        (b2 : Int) (row : Int) (col : Int) (k : Int) →
      0 ≤ e ∧ e ≤ 2 ^ 31 - 1 ∧ wrap32 e = e) ∧
    left_index32 (B2 : Int) (M : Int) (K : Int) (b1 : Int) (b2 : Int) (row : Int) (k : Int)
      = ((b1 : Int) * (B2 : Int) + (b2 : Int)) * (M : Int) * (K : Int)
        + (row : Int) * (K : Int) + (k : Int) ∧
    right_index32 (B2 : Int) (K : Int) (N : Int) (b1 : Int) (b2 : Int) (k : Int) (col : Int)
      = ((b1 : Int) * (B2 : Int) + (b2 : Int)) * (K : Int) * (N : Int)
        + (k : Int) * (N : Int) + (col : Int) ∧
    out_index32 (B2 : Int) (M : Int) (N : Int) (b1 : Int) (b2 : Int) (row : Int) (col : Int)
      = ((b1 : Int) * (B2 : Int) + (b2 : Int)) * (M : Int) * (N : Int)
        + (row : Int) * (N : Int) + (col : Int) := by
  have hq : b1 * B2 + b2 < B1 * B2 := idx_lt hb1 hb2
  have hL' : ((b1 * B2 + b2) * M + row) * K + k < B1 * B2 * M * K :=
    idx_lt (idx_lt hq hrow) hk
  have hR' : ((b1 * B2 + b2) * K + k) * N + col < B1 * B2 * K * N :=
    idx_lt (idx_lt hq hk) hcol
  have hO' : ((b1 * B2 + b2) * M + row) * N + col < B1 * B2 * M * N :=
    idx_lt (idx_lt hq hrow) hcol
  have eL : ((b1 * B2 + b2) * M + row) * K + k
      = (b1 * B2 + b2) * M * K + row * K + k := by ring
  have eR : ((b1 * B2 + b2) * K + k) * N + col
      = (b1 * B2 + b2) * K * N + k * N + col := by ring
  have eO : ((b1 * B2 + b2) * M + row) * N + col
      = (b1 * B2 + b2) * M * N + row * N + col := by ring
  have m1 : b1 * B2 + b2 ≤ (b1 * B2 + b2) * M := Nat.le_mul_of_pos_right _ hM
  have m2 : (b1 * B2 + b2) * M ≤ (b1 * B2 + b2) * M * K := Nat.le_mul_of_pos_right _ hK
  have m3 : b1 * B2 + b2 ≤ (b1 * B2 + b2) * K := Nat.le_mul_of_pos_right _ hK
  have m4 : (b1 * B2 + b2) * K ≤ (b1 * B2 + b2) * K * N := Nat.le_mul_of_pos_right _ hN
  have hall : ∀ e, e ∈ matmul_4d_index_exprs (B2 : Int) (M : Int) (K : Int) (N : Int)
      (b1 : Int) (b2 : Int) (row : Int) (col : Int) (k : Int) →
      0 ≤ e ∧ e ≤ 2 ^ 31 - 1 ∧ wrap32 e = e := by
    intro e he
    simp only [matmul_4d_index_exprs, List.mem_cons, List.mem_singleton, List.mem_nil_iff,
      or_false] at he
    rcases he with rfl | rfl | rfl | rfl | rfl | rfl | rfl | rfl | rfl | rfl | rfl | rfl |
      rfl | rfl | rfl | rfl
    · exact range32_of_nat _ (b1 * B2) (by push_cast; ring) (by omega)
    · exact range32_of_nat _ (b1 * B2 + b2) (by push_cast; ring) (by omega)
    · exact range32_of_nat _ ((b1 * B2 + b2) * M) (by push_cast; ring) (by omega)
    · exact range32_of_nat _ ((b1 * B2 + b2) * M * K) (by push_cast; ring) (by omega)
    · exact range32_of_nat _ ((b1 * B2 + b2) * K) (by push_cast; ring) (by omega)
    · exact range32_of_nat _ ((b1 * B2 + b2) * K * N) (by push_cast; ring) (by omega)
    · exact range32_of_nat _ ((b1 * B2 + b2) * M * N) (by push_cast; ring) (by omega)
    · exact range32_of_nat _ (row * K) (by push_cast; ring) (by omega)
    · exact range32_of_nat _ ((b1 * B2 + b2) * M * K + row * K) (by push_cast; ring)
        (by omega)
    · exact range32_of_nat _ ((b1 * B2 + b2) * M * K + row * K + k) (by push_cast; ring)
        (by omega)
    · exact range32_of_nat _ (k * N) (by push_cast; ring) (by omega)
    · exact range32_of_nat _ ((b1 * B2 + b2) * K * N + k * N) (by push_cast; ring)
        (by omega)
    · exact range32_of_nat _ ((b1 * B2 + b2) * K * N + k * N + col) (by push_cast; ring)
        (by omega)
    · exact range32_of_nat _ (row * N) (by push_cast; ring) (by omega)
    · exact range32_of_nat _ ((b1 * B2 + b2) * M * N + row * N) (by push_cast; ring)
        (by omega)
    · exact range32_of_nat _ ((b1 * B2 + b2) * M * N + row * N + col) (by push_cast; ring)
        (by omega)
  have hw : ∀ e, e ∈ matmul_4d_index_exprs (B2 : Int) (M : Int) (K : Int) (N : Int)
      (b1 : Int) (b2 : Int) (row : Int) (col : Int) (k : Int) → wrap32 e = e :=
    fun e he => (hall e he).2.2
  refine ⟨hall, ?_, ?_, ?_⟩
  · simp only [left_index32, add32, mul32]
    rw [hw ((b1 : Int) * (B2 : Int)) (by simp [matmul_4d_index_exprs]),
      hw ((b1 : Int) * (B2 : Int) + (b2 : Int)) (by simp [matmul_4d_index_exprs]),
      hw (((b1 : Int) * (B2 : Int) + (b2 : Int)) * (M : Int))
        (by simp [matmul_4d_index_exprs]),
      hw (((b1 : Int) * (B2 : Int) + (b2 : Int)) * (M : Int) * (K : Int))
        (by simp [matmul_4d_index_exprs]),
      hw ((row : Int) * (K : Int)) (by simp [matmul_4d_index_exprs]),
      hw (((b1 : Int) * (B2 : Int) + (b2 : Int)) * (M : Int) * (K : Int)
        + (row : Int) * (K : Int)) (by simp [matmul_4d_index_exprs]),
      hw (((b1 : Int) * (B2 : Int) + (b2 : Int)) * (M : Int) * (K : Int)
        + (row : Int) * (K : Int) + (k : Int)) (by simp [matmul_4d_index_exprs])]
  · simp only [right_index32, add32, mul32]
    rw [hw ((b1 : Int) * (B2 : Int)) (by simp [matmul_4d_index_exprs]),
      hw ((b1 : Int) * (B2 : Int) + (b2 : Int)) (by simp [matmul_4d_index_exprs]),
      hw (((b1 : Int) * (B2 : Int) + (b2 : Int)) * (K : Int))
        (by simp [matmul_4d_index_exprs]),
      hw (((b1 : Int) * (B2 : Int) + (b2 : Int)) * (K : Int) * (N : Int))
        (by simp [matmul_4d_index_exprs]),
      hw ((k : Int) * (N : Int)) (by simp [matmul_4d_index_exprs]),
      hw (((b1 : Int) * (B2 : Int) + (b2 : Int)) * (K : Int) * (N : Int)
        + (k : Int) * (N : Int)) (by simp [matmul_4d_index_exprs]),
      hw (((b1 : Int) * (B2 : Int) + (b2 : Int)) * (K : Int) * (N : Int)
        + (k : Int) * (N : Int) + (col : Int)) (by simp [matmul_4d_index_exprs])]
  · simp only [out_index32, add32, mul32]
    rw [hw ((b1 : Int) * (B2 : Int)) (by simp [matmul_4d_index_exprs]),
      hw ((b1 : Int) * (B2 : Int) + (b2 : Int)) (by simp [matmul_4d_index_exprs]),
      hw (((b1 : Int) * (B2 : Int) + (b2 : Int)) * (M : Int))
        (by simp [matmul_4d_index_exprs]),
      hw (((b1 : Int) * (B2 : Int) + (b2 : Int)) * (M : Int) * (N : Int))
        (by simp [matmul_4d_index_exprs]),
      hw ((row : Int) * (N : Int)) (by simp [matmul_4d_index_exprs]),
      hw (((b1 : Int) * (B2 : Int) + (b2 : Int)) * (M : Int) * (N : Int)
        + (row : Int) * (N : Int)) (by simp [matmul_4d_index_exprs]),
      hw (((b1 : Int) * (B2 : Int) + (b2 : Int)) * (M : Int) * (N : Int)
        + (row : Int) * (N : Int) + (col : Int)) (by simp [matmul_4d_index_exprs])]

theorem tensor_matmul_4d_no_index_wrap_witness :
    (0 < 4 ∧ 0 < 5 ∧ 0 < 6 ∧ 2 * 3 * 4 * 5 ≤ 2 ^ 31 - 1 ∧
      2 * 3 * 5 * 6 ≤ 2 ^ 31 - 1 ∧ 2 * 3 * 4 * 6 ≤ 2 ^ 31 - 1 ∧
      1 < 2 ∧ 2 < 3 ∧ 3 < 4 ∧ 5 < 6 ∧ 4 < 5) ∧
    left_index32 ((3 : Nat) : Int) ((4 : Nat) : Int) ((5 : Nat) : Int) ((1 : Nat) : Int)
        ((2 : Nat) : Int) ((3 : Nat) : Int) ((4 : Nat) : Int)
      = (((1 : Nat) : Int) * ((3 : Nat) : Int) + ((2 : Nat) : Int)) * ((4 : Nat) : Int)
          * ((5 : Nat) : Int) + ((3 : Nat) : Int) * ((5 : Nat) : Int) + ((4 : Nat) : Int) :=
  ⟨by decide, (tensor_matmul_4d_no_index_wrap 2 3 4 5 6 1 2 3 5 4 (by decide) (by decide)
    (by decide) (by decide) (by decide) (by decide) (by decide) (by decide) (by decide)
    (by decide) (by decide)).2.1⟩

end RemainingClaims

end TransformerC
